import Mathlib

/-!
Verification of `cmd/caib/main.go`: manifest scanning, file transfer, resubmission
and build polling.

A shallow embedding of `cmd/caib/main.go`.  Pure helpers become functions;
code that talks to the cluster, to the remote pod or to the local file system
takes the answers of those calls as explicit inputs and returns the calls it
made together with its result.
-/

set_option autoImplicit false

namespace Caib

/-! ## Manifest trees -/

/-- The dynamically typed value (`any`) that the YAML decoder stores in a
`map[string]any`: scalars, `[]any` sequences and mappings.  A mapping all of
whose keys are strings is decoded as a `map[string]any` (`map`); a mapping with
a key that is not a string is decoded as a `map[any]any` (`anyMap`).  Both are
association lists read by their first matching key.  `other` stands for a value
of any further dynamic type (a float, a timestamp); the type assertions of the
scanner fail on it. -/
inductive Value where
  | null : Value
  | bool (b : Bool) : Value
  | int (i : Int) : Value
  | str (s : String) : Value
  | seq (items : List Value) : Value
  | map (fields : List (String × Value)) : Value
  | anyMap (fields : List (Value × Value)) : Value
  | other (goType : String) : Value

/-- A `map[string]any`. -/
abbrev Mapping := List (String × Value)

/-- Index expression `m[key]` on a `map[string]any`; `none` is the nil
interface of a missing key. -/
def Mapping.get (m : Mapping) (key : String) : Option Value :=
  List.lookup key m

/-- Type assertion `v.(string)` with the comma-ok form. -/
def asString : Option Value → Option String
  | some (Value.str s) => some s
  | _ => none

/-- Type assertion `v.(map[string]any)` with the comma-ok form. -/
def asMap : Option Value → Option Mapping
  | some (Value.map fields) => some fields
  | _ => none

/-- Type assertion `v.([]any)` with the comma-ok form. -/
def asSeq : Option Value → Option (List Value)
  | some (Value.seq items) => some items
  | _ => none

/-- One element of the result of `findLocalFileReferences`: the
`map[string]string` with the two keys `path` and `source_path`. -/
structure FileRef where
  path : String
  source_path : String
deriving DecidableEq, Repr

/-- Body of the `for` loop of the closure `processAddFiles` for one entry:
the reference appended for `file`, if any. -/
def processEntry (file : Value) : Option FileRef :=
  match asMap (some file) with
  | some fileMap =>
    match asString (fileMap.get "path"), asString (fileMap.get "source_path") with
    | some path, some sourcePath =>
      if sourcePath ≠ "" ∧ sourcePath ≠ "/" then some ⟨path, sourcePath⟩ else none
    | _, _ => none
  | none => none

/-- The closure `processAddFiles`: walks `addFiles` in order and appends the
qualifying entries to the accumulator `localFiles`. -/
def processAddFiles (localFiles : List FileRef) : List Value → List FileRef
  | [] => localFiles
  | file :: rest =>
    match processEntry file with
    | some ref => processAddFiles (localFiles ++ [ref]) rest
    | none => processAddFiles localFiles rest

/-- The part of `findLocalFileReferences` after a successful unmarshal: the
top-level `content.add_files` is processed first, then `qm.content.add_files`. -/
def scanManifest (manifestData : Mapping) : List FileRef :=
  let localFiles : List FileRef := []
  let localFiles :=
    match asMap (manifestData.get "content") with
    | some content =>
      match asSeq (content.get "add_files") with
      | some addFiles => processAddFiles localFiles addFiles
      | none => localFiles
    | none => localFiles
  let localFiles :=
    match asMap (manifestData.get "qm") with
    | some qm =>
      match asMap (qm.get "content") with
      | some qmContent =>
        match asSeq (qmContent.get "add_files") with
        | some addFiles => processAddFiles localFiles addFiles
        | none => localFiles
      | none => localFiles
    | none => localFiles
  localFiles

/-- The function `findLocalFileReferences`.  `unmarshal` stands for
`yaml.Unmarshal` into a `map[string]any`; after a parse error the (nil) list is
returned. -/
def findLocalFileReferences (unmarshal : String → Except String Mapping)
    (manifestContent : String) : List FileRef :=
  match unmarshal manifestContent with
  | Except.error _ => []
  | Except.ok manifestData => scanManifest manifestData

/-- What `findLocalFileReferences` prints: a line after a parse error, nothing
otherwise. -/
def parseWarning (unmarshal : String → Except String Mapping) (manifestContent : String) :
    List String :=
  match unmarshal manifestContent with
  | Except.error e => ["failed to parse manifest YAML: " ++ e ++ "\n"]
  | Except.ok _ => []

/-! ### The scanner as the specification words it -/

/-- Spec wording: the field `key` of a mapping, whatever the types of its
other keys; `none` when the value is not a mapping or has no such field. -/
def Value.field (v : Value) (key : String) : Option Value :=
  match v with
  | Value.map fields => Mapping.get fields key
  | Value.anyMap fields =>
    fields.findSome? (fun kv =>
      match kv.1 with
      | Value.str k => if k = key then some kv.2 else none
      | _ => none)
  | _ => none

/-- Spec wording: the `add_files` sequence under the mapping `content`; empty
when `content` is not a mapping or `add_files` not a sequence. -/
def addFilesOf (content : Option Value) : List Value :=
  match content with
  | some c =>
    match c.field "add_files" with
    | some (Value.seq items) => items
    | _ => []
  | none => []

/-- Spec wording: the top-level `content.add_files` sequence. -/
def contentAddFiles (m : Mapping) : List Value := addFilesOf (m.get "content")

/-- Spec wording: the nested `qm.content.add_files` sequence. -/
def qmContentAddFiles (m : Mapping) : List Value :=
  match m.get "qm" with
  | some qm => addFilesOf (qm.field "content")
  | none => []

/-- Spec wording: the entry is a mapping whose `path` field is the string `p`
and whose `source_path` field is the string `s`, with `s` non-empty and not the
root path. -/
def Qualifies (entry : Value) (p s : String) : Prop :=
  entry.field "path" = some (Value.str p) ∧
    entry.field "source_path" = some (Value.str s) ∧ s ≠ "" ∧ s ≠ "/"

/-- Spec wording: the reference an entry stands for, when it qualifies. -/
def specRef (entry : Value) : Option FileRef :=
  match entry.field "path", entry.field "source_path" with
  | some (Value.str p), some (Value.str s) =>
    if s = "" then none else if s = "/" then none else some ⟨p, s⟩
  | _, _ => none

/-! ### The scanner over mappings with string keys only -/

/-- Amended wording: the `add_files` sequence under the `content` mapping of
`m`, where `content` is a mapping with string keys only (a `map[string]any`);
empty when it is not, or when `add_files` is not a sequence. -/
def stringKeyedAddFiles (m : Mapping) : List Value :=
  match m.get "content" with
  | some (Value.map content) =>
    match Mapping.get content "add_files" with
    | some (Value.seq items) => items
    | _ => []
  | _ => []

/-- Amended wording: the nested `qm.content.add_files` sequence, where `qm`
and `content` are mappings with string keys only. -/
def stringKeyedQmAddFiles (m : Mapping) : List Value :=
  match m.get "qm" with
  | some (Value.map qm) => stringKeyedAddFiles qm
  | _ => []

/-- Amended wording: the entry is a mapping with string keys only (a
`map[string]any`) whose `path` field is the string `p` and whose `source_path`
field is the string `s`, with `s` non-empty and not the root path. -/
def QualifiesStringKeyed (entry : Value) (p s : String) : Prop :=
  ∃ fields : Mapping, entry = Value.map fields ∧
    fields.get "path" = some (Value.str p) ∧
    fields.get "source_path" = some (Value.str s) ∧ s ≠ "" ∧ s ≠ "/"

/-- Amended wording: the reference an entry stands for, when it is a mapping
with string keys only and qualifies. -/
def stringKeyedRef (entry : Value) : Option FileRef :=
  match entry with
  | Value.map fields =>
    match Mapping.get fields "path", Mapping.get fields "source_path" with
    | some (Value.str p), some (Value.str s) =>
      if s = "" then none else if s = "/" then none else some ⟨p, s⟩
    | _, _ => none
  | _ => none

/-- Amended wording: qualifying top-level entries in order, then the
qualifying nested ones in order, nothing removed. -/
def stringKeyedLocalRefs (m : Mapping) : List FileRef :=
  (stringKeyedAddFiles m).filterMap stringKeyedRef ++
    (stringKeyedQmAddFiles m).filterMap stringKeyedRef

/-! ## Build resources and the completion wait -/

/-- The fields of `ImageBuildSpec` that the client writes or reads. -/
structure ImageBuildSpec where
  Distro : String
  Target : String
  Architecture : String
  ExportFormat : String
  Mode : String
  AutomativeOSBuildImage : String
  StorageClass : String
  ServeArtifact : Bool
  ServeExpiryHours : Int
  ManifestConfigMap : String
  InputFilesServer : Bool
deriving DecidableEq, Repr

/-- The fields of `ImageBuildStatus` that the client reads. -/
structure ImageBuildStatus where
  Phase : String
  Message : String
  PVCName : String
  ArtifactPath : String
  ArtifactFileName : String
deriving DecidableEq, Repr

/-- An `automotivev1.ImageBuild` as far as the client looks at it. -/
structure ImageBuild where
  Name : String
  Namespace : String
  Spec : ImageBuildSpec
  Status : ImageBuildStatus
deriving DecidableEq, Repr

/-- The error of an expired context, `context.DeadlineExceeded`. -/
def deadlineExceeded : String := "context deadline exceeded"

/-- The loop of `wait.PollUntilContextTimeout` with `immediate = false`.  The list
holds, for each tick that fires before the deadline, the answer to the one
request the condition makes; when it is used up the deadline has passed and
the context error is returned.  A condition error or a `true` ends the loop. -/
def pollUntilContextTimeout {σ ρ : Type} (condition : σ → ρ → σ × Except String Bool) :
    σ → List ρ → σ × Option String
  | st, [] => (st, some deadlineExceeded)
  | st, r :: rest =>
    match condition st r with
    | (st1, Except.error e) => (st1, some e)
    | (st1, Except.ok true) => (st1, none)
    | (st1, Except.ok false) => pollUntilContextTimeout condition st1 rest

/-- The same loop with `immediate = true`: the condition runs once before the
first tick, with answer `first`. -/
def pollImmediateUntilContextTimeout {σ ρ : Type}
    (condition : σ → ρ → σ × Except String Bool) (st : σ) (first : ρ) (rest : List ρ) :
    σ × Option String :=
  match condition st first with
  | (st1, Except.error e) => (st1, some e)
  | (st1, Except.ok true) => (st1, none)
  | (st1, Except.ok false) => pollUntilContextTimeout condition st1 rest

/-- Wrap-around of a product computed in `int64`. -/
def toInt64 (x : Int) : Int := (x + 2 ^ 63) % 2 ^ 64 - 2 ^ 63

/-- Upper bound on the number of 10-second ticks before the deadline
`time.Duration(timeoutMinutes) * time.Minute` (nanoseconds in `int64`); a
deadline that is not positive has passed before the first tick. -/
def maxTicks (timeoutMinutes : Int) : Nat :=
  (toInt64 (timeoutMinutes * 60000000000) / 10000000000).toNat

/-- The variables captured by the condition closure of
`waitForBuildCompletion`, with what was printed and the number of `c.Get`
requests issued. -/
structure WaitState where
  completedBuild : Option ImageBuild
  lastPhase : String
  lastMessage : String
  out : List String
  gets : Nat
deriving DecidableEq, Repr

/-- Output of `fmt.Printf("\nstatus: %s - %s\n", phase, message)`. -/
def statusLine (phase message : String) : String :=
  "\nstatus: " ++ phase ++ " - " ++ message ++ "\n"

/-- The condition closure of `waitForBuildCompletion`; `got` is the answer of
`c.Get`. -/
def buildCondition (st : WaitState) (got : Except String ImageBuild) :
    WaitState × Except String Bool :=
  match got with
  | Except.error e => ({ st with gets := st.gets + 1 }, Except.error e)
  | Except.ok imageBuild =>
    let st := { st with completedBuild := some imageBuild, gets := st.gets + 1 }
    if imageBuild.Status.Phase = "Completed" then
      if imageBuild.Status.Phase ≠ st.lastPhase ∨ imageBuild.Status.Message ≠ st.lastMessage then
        ({ st with out := st.out ++
            [statusLine imageBuild.Status.Phase imageBuild.Status.Message] }, Except.ok true)
      else (st, Except.ok true)
    else if imageBuild.Status.Phase = "Failed" then
      ({ st with out := st.out ++ ["\n"] },
        Except.error ("build failed: " ++ imageBuild.Status.Message))
    else if imageBuild.Status.Phase ≠ st.lastPhase ∨
        imageBuild.Status.Message ≠ st.lastMessage then
      ({ st with
          out := st.out ++ [statusLine imageBuild.Status.Phase imageBuild.Status.Message],
          lastPhase := imageBuild.Status.Phase,
          lastMessage := imageBuild.Status.Message }, Except.ok false)
    else ({ st with out := st.out ++ ["."] }, Except.ok false)

/-- What `waitForBuildCompletion` returns and does: the returned pointer (`none`
is nil), the returned error, the printed pieces and the number of `c.Get`
requests. -/
structure WaitResult where
  build : Option ImageBuild
  err : Option String
  out : List String
  gets : Nat
deriving DecidableEq, Repr

/-- The function `waitForBuildCompletion`.  `polls` holds the answers the
cluster gives to the successive `c.Get` requests of the condition; only the
ticks before the deadline are served. -/
def waitForBuildCompletion (timeoutMinutes : Int) (polls : List (Except String ImageBuild)) :
    WaitResult :=
  let start : WaitState :=
    { completedBuild := none, lastPhase := "", lastMessage := "", out := [], gets := 0 }
  let (st, err) := pollUntilContextTimeout buildCondition start
    (polls.take (maxTicks timeoutMinutes))
  { build := st.completedBuild, err := err, out := st.out ++ ["\n"], gets := st.gets }

/-- An `ImageBuild` named `demo` with the given phase and message. -/
def buildWith (phase message : String) : ImageBuild :=
  { Name := "demo", Namespace := "default",
    Spec := { Distro := "cs9", Target := "qemu", Architecture := "arm64",
              ExportFormat := "image", Mode := "image", AutomativeOSBuildImage := "img",
              StorageClass := "", ServeArtifact := false, ServeExpiryHours := 24,
              ManifestConfigMap := "demo-manifest-config", InputFilesServer := false },
    Status := { Phase := phase, Message := message, PVCName := "", ArtifactPath := "",
                ArtifactFileName := "" } }

/-- Spec wording: a phase after which polling stops. -/
def Terminal (b : ImageBuild) : Prop :=
  b.Status.Phase = "Completed" ∨ b.Status.Phase = "Failed"

instance (b : ImageBuild) : Decidable (Terminal b) := by
  unfold Terminal; infer_instance

/-- Spec wording: what one non-terminal poll prints, given the phase and
message of the poll before it: a status line when either changed, the
continuation marker otherwise. -/
def pollMark (prev cur : String × String) : String :=
  if cur ≠ prev then statusLine cur.1 cur.2 else "."

/-- Spec wording: the marks of a run of polls, each compared with the one
before it; `prev` is what the first poll is compared with. -/
def pollMarks : String × String → List (String × String) → List String
  | _, [] => []
  | prev, cur :: rest => pollMark prev cur :: pollMarks cur rest

/-- The pair (phase, message) of a build. -/
def phaseMessage (b : ImageBuild) : String × String :=
  (b.Status.Phase, b.Status.Message)

/-- State after a poll that fetched the non-terminal build `b`. -/
def stepState (st : WaitState) (b : ImageBuild) : WaitState :=
  { completedBuild := some b, lastPhase := b.Status.Phase, lastMessage := b.Status.Message,
    out := st.out ++ [pollMark (st.lastPhase, st.lastMessage) (phaseMessage b)],
    gets := st.gets + 1 }

/-! ## Paths (`path/filepath` on a system whose separator is `/`) -/

/-- Splits at every `/`; the pieces of `"/a//b"` are `""`, `"a"`, `""`, `"b"`. -/
def splitSlash : List Char → List (List Char)
  | [] => [[]]
  | c :: cs =>
    if c = '/' then [] :: splitSlash cs
    else
      match splitSlash cs with
      | [] => [[c]]
      | piece :: pieces => (c :: piece) :: pieces

/-- One step of `filepath.Clean` on the stack of kept elements (last kept
first): empty and `.` elements are dropped, `..` removes the last real element,
is kept in front of a relative path and dropped at the root. -/
def cleanStep (rooted : Bool) (kept : List (List Char)) (piece : List Char) :
    List (List Char) :=
  if piece = [] ∨ piece = ['.'] then kept
  else if piece = ['.', '.'] then
    match kept with
    | top :: below => if top = ['.', '.'] then piece :: kept else below
    | [] => if rooted then kept else [piece]
  else piece :: kept

/-- The function `filepath.Clean`. -/
def filepathClean (path : String) : String :=
  if path = "" then "."
  else
    let rooted := path.data.head? = some '/'
    let kept := ((splitSlash path.data).foldl (cleanStep rooted) []).reverse
    let body := List.intercalate ['/'] kept
    if rooted then String.mk ('/' :: body)
    else if body = [] then "." else String.mk body

/-- The function `filepath.Dir`: everything up to the last `/`, cleaned. -/
def filepathDir (path : String) : String :=
  filepathClean (String.mk (path.data.reverse.dropWhile (fun c => c ≠ '/')).reverse)

/-- The function `filepath.Base`: the last element, trailing slashes removed. -/
def filepathBase (path : String) : String :=
  if path = "" then "."
  else
    let stripped := path.data.reverse.dropWhile (fun c => c = '/')
    let last := (stripped.takeWhile (fun c => c ≠ '/')).reverse
    if last = [] then "/" else String.mk last

/-- The function `filepath.Join` for two elements. -/
def filepathJoin (a b : String) : String :=
  if a = "" then (if b = "" then "" else filepathClean b)
  else filepathClean (a ++ "/" ++ b)

/-! ## Archives, remote commands and the local file system -/

/-- Raw bytes. -/
abbrev Bytes := List UInt8

/-- The fields of `tar.Header` that `copyFile` fills in. -/
structure TarHeader where
  Name : String
  Size : Nat
  Mode : Nat
  ModTime : Int
deriving DecidableEq, Repr

/-- One entry of an archive: its header and the bytes written after it. -/
structure TarEntry where
  header : TarHeader
  data : Bytes
deriving DecidableEq, Repr

/-- A `tar.Writer` over a buffer: the entries written so far (the last one is
the entry being written) and the bytes its header still promises. -/
structure TarWriter where
  entries : List TarEntry
  remaining : Nat
deriving DecidableEq, Repr

/-- The call `tar.NewWriter(tarBuffer)`. -/
def TarWriter.new : TarWriter := { entries := [], remaining := 0 }

/-- The method `WriteHeader`: refuses to start an entry while the one before
it is incomplete.  A header whose name ends in a slash is written as a
directory header, after which no data may be written. -/
def TarWriter.WriteHeader (w : TarWriter) (h : TarHeader) : Except String TarWriter :=
  if w.remaining ≠ 0 then
    Except.error ("archive/tar: missed writing " ++ toString w.remaining ++ " bytes")
  else
    Except.ok { entries := w.entries ++ [{ header := h, data := [] }],
                remaining := if h.Name.data.getLast? = some '/' then 0 else h.Size }

/-- Appends `data` to the last entry of the list. -/
def appendToLast : List TarEntry → Bytes → List TarEntry
  | [], _ => []
  | [e], data => [{ e with data := e.data ++ data }]
  | e :: rest, data => e :: appendToLast rest data

/-- The method `Write`, as driven by `io.Copy`: writing more than the header
promised is an error. -/
def TarWriter.Write (w : TarWriter) (data : Bytes) : Except String TarWriter :=
  if w.remaining < data.length then Except.error "archive/tar: write too long"
  else Except.ok { entries := appendToLast w.entries data,
                   remaining := w.remaining - data.length }

/-- The method `Close`: an incomplete last entry is an error; otherwise the
buffer holds the archive. -/
def TarWriter.Close (w : TarWriter) : Except String (List TarEntry) :=
  if w.remaining ≠ 0 then
    Except.error ("archive/tar: missed writing " ++ toString w.remaining ++ " bytes")
  else Except.ok w.entries

/-- A request to the `exec` subresource of a pod: where, which command, and the
archive attached to standard input (for uploads only). -/
structure ExecCall where
  ns : String
  podName : String
  containerName : String
  command : List String
  stdin : Option (List TarEntry)
deriving DecidableEq, Repr

/-- What a remote command produced: its standard output, its standard error and
the error of `StreamWithContext`, if any. -/
structure ExecResult where
  stdout : Bytes
  stderr : String
  err : Option String
deriving DecidableEq, Repr

/-- Result of `(*os.File).Stat` besides the size. -/
structure FileMeta where
  mode : Nat
  modTime : Int
deriving DecidableEq, Repr

/-- Everything outside the program that `copyFile` and its callers consult.
`exec` answers a remote command given the commands that were run before it;
the other fields are the errors (if any) of the calls named in their comments. -/
structure Env where
  /-- the remote pod: `StreamWithContext` -/
  exec : List ExecCall → ExecCall → ExecResult
  /-- the call `getRESTConfig()` -/
  restConfigErr : Option String
  /-- the call `kubernetes.NewForConfig(config)` -/
  clientsetErr : Option String
  /-- the call `remotecommand.NewSPDYExecutor` -/
  executorErr : Option String
  /-- the method `Stat` of an open file, by path -/
  stat : String → Except String FileMeta
  /-- the call `os.Create`, by path -/
  createErr : String → Option String

/-- The local file system: path to content. -/
abbrev LocalFS := List (String × Bytes)

/-- Content of the file at `path`, `none` when there is no such file. -/
def LocalFS.read (fs : LocalFS) (path : String) : Option Bytes := List.lookup path fs

/-- The call `os.Remove(path)`. -/
def LocalFS.remove (fs : LocalFS) (path : String) : LocalFS :=
  fs.filter (fun entry => entry.1 ≠ path)

/-- Replaces or creates the file at `path`. -/
def LocalFS.write (fs : LocalFS) (path : String) (data : Bytes) : LocalFS :=
  (path, data) :: fs.remove path

/-- The state that `copyFile` and its callers change: the local file system
and the remote commands run so far, oldest first. -/
structure World where
  fs : LocalFS
  calls : List ExecCall
deriving DecidableEq, Repr

/-- The request of `execInPod`: a command without standard input. -/
def plainCall (ns podName containerName : String) (command : List String) : ExecCall :=
  { ns := ns, podName := podName, containerName := containerName,
    command := command, stdin := none }

/-- The upload request: extraction of the archive on standard input into `dir`. -/
def tarCall (ns podName containerName dir : String) (archive : List TarEntry) : ExecCall :=
  { ns := ns, podName := podName, containerName := containerName,
    command := ["tar", "-xf", "-", "-C", dir], stdin := some archive }

/-- Runs one remote command and records it. -/
def stream (env : Env) (w : World) (call : ExecCall) : World × ExecResult :=
  ({ w with calls := w.calls ++ [call] }, env.exec w.calls call)

/-- The function `execInPod`. -/
def execInPod (env : Env) (w : World) (ns podName containerName : String)
    (command : List String) : World × Option String :=
  match env.clientsetErr with
  | some e => (w, some ("failed to create clientset: " ++ e))
  | none =>
    match env.executorErr with
    | some e => (w, some ("error creating SPDY executor: " ++ e))
    | none =>
      let (w, r) := stream env w (plainCall ns podName containerName command)
      match r.err with
      | some e => (w, some ("exec error: " ++ e ++ ", stderr: " ++ r.stderr))
      | none => (w, none)

/-! ### Reading the size reported by the remote side -/

/-- UTF-8 encodings of the code points for which `unicode.IsSpace` holds. -/
def spaceSeqs : List Bytes :=
  [[0x09], [0x0A], [0x0B], [0x0C], [0x0D], [0x20], [0xC2, 0x85], [0xC2, 0xA0],
   [0xE1, 0x9A, 0x80], [0xE2, 0x80, 0x80], [0xE2, 0x80, 0x81], [0xE2, 0x80, 0x82],
   [0xE2, 0x80, 0x83], [0xE2, 0x80, 0x84], [0xE2, 0x80, 0x85], [0xE2, 0x80, 0x86],
   [0xE2, 0x80, 0x87], [0xE2, 0x80, 0x88], [0xE2, 0x80, 0x89], [0xE2, 0x80, 0x8A],
   [0xE2, 0x80, 0xA8], [0xE2, 0x80, 0xA9], [0xE2, 0x80, 0xAF], [0xE2, 0x81, 0x9F],
   [0xE3, 0x80, 0x80]]

/-- Removes one leading member of `seqs`, if there is one. -/
def stripOne (seqs : List Bytes) (s : Bytes) : Option Bytes :=
  seqs.findSome? (fun q => if q.isPrefixOf s then some (s.drop q.length) else none)

/-- Removes leading members of `seqs`, at most `fuel` of them. -/
def stripAll (seqs : List Bytes) : Nat → Bytes → Bytes
  | 0, s => s
  | fuel + 1, s =>
    match stripOne seqs s with
    | some rest => stripAll seqs fuel rest
    | none => s

/-- The function `strings.TrimSpace` on the bytes of a string. -/
def trimSpace (s : Bytes) : Bytes :=
  let front := stripAll spaceSeqs s.length s
  (stripAll (spaceSeqs.map List.reverse) front.length front.reverse).reverse

/-- Value of a non-empty run of ASCII digits. -/
def parseDigits : Nat → Bytes → Option Nat
  | _, [] => none
  | acc, [d] => if 0x30 ≤ d ∧ d ≤ 0x39 then some (acc * 10 + (d.toNat - 48)) else none
  | acc, d :: rest =>
    if 0x30 ≤ d ∧ d ≤ 0x39 then parseDigits (acc * 10 + (d.toNat - 48)) rest else none

/-- The call `strconv.ParseInt(s, 10, 64)`; `none` is a syntax or range error. -/
def parseInt64 (s : Bytes) : Option Int :=
  match s with
  | [] => none
  | 0x2D :: rest =>
    match parseDigits 0 rest with
    | some n => if n ≤ 2 ^ 63 then some (-(n : Int)) else none
    | none => none
  | 0x2B :: rest =>
    match parseDigits 0 rest with
    | some n => if n < 2 ^ 63 then some (n : Int) else none
    | none => none
  | _ =>
    match parseDigits 0 s with
    | some n => if n < 2 ^ 63 then some (n : Int) else none
    | none => none

/-- The error of a download whose local size differs from the reported one. -/
def incompleteDownload (got : Nat) (expected : Int) : String :=
  "incomplete download: got " ++ toString got ++ " bytes, expected " ++
    toString expected ++ " bytes"

/-! ### `copyFile` -/

/-- The branch `toPod = true` of `copyFile` after the clientset was created. -/
def copyToPod (env : Env) (w : World) (ns podName containerName localPath podPath : String) :
    World × Option String :=
  let tarWriter := TarWriter.new
  match w.fs.read localPath with
  | none => (w, some "error opening local file: no such file or directory")
  | some content =>
    match env.stat localPath with
    | Except.error e => (w, some ("error getting file stats: " ++ e))
    | Except.ok info =>
      let header : TarHeader :=
        { Name := filepathBase podPath, Size := content.length,
          Mode := info.mode, ModTime := info.modTime }
      match tarWriter.WriteHeader header with
      | Except.error e => (w, some ("error writing tar header: " ++ e))
      | Except.ok tarWriter =>
        match tarWriter.Write content with
        | Except.error e => (w, some ("error copying file data to tar: " ++ e))
        | Except.ok tarWriter =>
          match tarWriter.Close with
          | Except.error e => (w, some ("error closing tar writer: " ++ e))
          | Except.ok tarBuffer =>
            let destDir := filepathDir podPath
            match execInPod env w ns podName containerName ["mkdir", "-p", destDir] with
            | (w, some e) => (w, some ("error creating destination directory: " ++ e))
            | (w, none) =>
              match env.executorErr with
              | some e => (w, some ("error creating SPDY executor: " ++ e))
              | none =>
                let (w, r) := stream env w
                  (tarCall ns podName containerName (filepathDir podPath) tarBuffer)
                match r.err with
                | some e => (w, some ("exec error: " ++ e ++ ", stderr: " ++ r.stderr))
                | none => (w, none)

/-- The branch `toPod = false` of `copyFile` after the clientset was created. -/
def copyFromPod (env : Env) (w : World) (ns podName containerName localPath podPath : String) :
    World × Option String :=
  let sizeCmd := ["stat", "-c", "%s", podPath]
  match env.executorErr with
  | some e => (w, some ("error creating SPDY executor: " ++ e))
  | none =>
    let (w, sizeResult) := stream env w (plainCall ns podName containerName sizeCmd)
    match sizeResult.err with
    | some e => (w, some ("error checking file: " ++ e ++ ", stderr: " ++ sizeResult.stderr))
    | none =>
      match parseInt64 (trimSpace sizeResult.stdout) with
      | none => (w, some "error parsing file size")
      | some fileSize =>
        match env.createErr localPath with
        | some e => (w, some ("error creating local file: " ++ e))
        | none =>
          let w := { w with fs := w.fs.write localPath [] }
          match env.executorErr with
          | some e => (w, some ("error creating SPDY executor: " ++ e))
          | none =>
            let (w, catResult) := stream env w
              (plainCall ns podName containerName ["cat", podPath])
            let w := { w with fs := w.fs.write localPath catResult.stdout }
            match catResult.err with
            | some e =>
              (w, some ("exec error during download: " ++ e ++ ", stderr: " ++ catResult.stderr))
            | none =>
              match env.stat localPath with
              | Except.ok _ =>
                if (catResult.stdout.length : Int) ≠ fileSize then
                  ({ w with fs := w.fs.remove localPath },
                    some (incompleteDownload catResult.stdout.length fileSize))
                else (w, none)
              | Except.error _ => (w, none)

/-- The function `copyFile`: returns the new state and the error (`none` is
the nil error).  Progress bars and the final empty line are not recorded. -/
def copyFile (env : Env) (w : World) (ns podName containerName localPath podPath : String)
    (toPod : Bool) : World × Option String :=
  match env.clientsetErr with
  | some e => (w, some ("failed to create clientset: " ++ e))
  | none =>
    if toPod then copyToPod env w ns podName containerName localPath podPath
    else copyFromPod env w ns podName containerName localPath podPath

/-- A `corev1.Pod` as far as the client looks at it. -/
structure Pod where
  Name : String
  Containers : List String
  Phase : String
deriving DecidableEq, Repr

/-- The error of the index expression `uploadPod.Spec.Containers[0]` on a pod
without containers. -/
def indexPanic : String := "panic: runtime error: index out of range [0] with length 0"

/-- Body of the loop of `uploadLocalFiles` for one reference. -/
def uploadFile (env : Env) (w : World) (ns : String) (uploadPod : Pod) (fileRef : FileRef) :
    World × Option String :=
  let sourcePath := fileRef.source_path
  let destPath := fileRef.source_path
  let destDir := filepathDir destPath
  match uploadPod.Containers.head? with
  | none => (w, some indexPanic)
  | some container =>
    let made : World × Option String :=
      if destDir ≠ "." ∧ destDir ≠ "/" then
        match execInPod env w ns uploadPod.Name container
            ["/bin/sh", "-c", "mkdir -p /workspace/shared/" ++ destDir] with
        | (w, some e) => (w, some ("error creating directory structure: " ++ e))
        | (w, none) => (w, none)
      else (w, none)
    match made with
    | (w, some e) => (w, some e)
    | (w, none) =>
      match copyFile env w ns uploadPod.Name container sourcePath
          ("/workspace/shared/" ++ destPath) true with
      | (w, some e) => (w, some ("error copying file " ++ sourcePath ++ ": " ++ e))
      | (w, none) => (w, none)

/-- The loop of `uploadLocalFiles`: stops at the first error. -/
def uploadLoop (env : Env) (ns : String) (uploadPod : Pod) :
    World → List FileRef → World × Option String
  | w, [] => (w, none)
  | w, fileRef :: rest =>
    match uploadFile env w ns uploadPod fileRef with
    | (w, some e) => (w, some e)
    | (w, none) => uploadLoop env ns uploadPod w rest

/-- The function `uploadLocalFiles`. -/
def uploadLocalFiles (env : Env) (w : World) (ns : String) (files : List FileRef)
    (uploadPod : Pod) : World × Option String :=
  match env.restConfigErr with
  | some e => (w, some ("unable to get REST config: " ++ e))
  | none => uploadLoop env ns uploadPod w files

/-- The artifact file name computed at the start of `downloadArtifacts`. -/
def artifactFileName (imageBuild : ImageBuild) : String :=
  if imageBuild.Status.ArtifactFileName = "" then
    let fileExtension :=
      if imageBuild.Spec.ExportFormat = "image" then ".raw"
      else if imageBuild.Spec.ExportFormat = "qcow2" then ".qcow2"
      else "." ++ imageBuild.Spec.ExportFormat
    imageBuild.Spec.Distro ++ "-" ++ imageBuild.Spec.Target ++ fileExtension
  else imageBuild.Status.ArtifactFileName

/-- What `downloadArtifacts` consults besides `Env`: the errors of `os.MkdirAll`
and `getClient`, and the answer to the pod list request. -/
structure DownloadEnv where
  mkdirAllErr : Option String
  getClientErr : Option String
  listPods : Except String (List Pod)

/-- The function `downloadArtifacts`: returns the new state and what it
printed.  It has no result; every failure ends in a printed line.  The last
line of a success is recorded without the size in MB that follows it. -/
def downloadArtifacts (env : Env) (denv : DownloadEnv) (w : World) (outputDir : String)
    (imageBuild : ImageBuild) : World × List String :=
  match denv.mkdirAllErr with
  | some e => (w, ["Error creating output directory: " ++ e ++ "\n"])
  | none =>
    let name := artifactFileName imageBuild
    match denv.getClientErr with
    | some e => (w, ["Error creating client: " ++ e ++ "\n"])
    | none =>
      match denv.listPods with
      | Except.error e => (w, ["Error listing pods: " ++ e ++ "\n"])
      | Except.ok [] => (w, ["No artifact pod found. Cannot download artifacts.\n"])
      | Except.ok (artifactPod :: _) =>
        let containerName := "fileserver"
        let sourcePath := "/workspace/shared/" ++ name
        let outputPath := filepathJoin outputDir name
        let out := ["Downloading artifact from pod " ++ artifactPod.Name ++ "\n",
                    "Pod path: " ++ sourcePath ++ "\n", "Saving to: " ++ outputPath ++ "\n"]
        match env.restConfigErr with
        | some e => (w, out ++ ["Error getting REST config: " ++ e ++ "\n"])
        | none =>
          match copyFile env w imageBuild.Namespace artifactPod.Name containerName
              outputPath sourcePath false with
          | (w, some e) => (w, out ++ ["Error downloading artifact: " ++ e ++ "\n"])
          | (w, none) => (w, out ++ ["Artifact downloaded successfully to " ++ outputPath])

/-- Spec wording: the extension of the default artifact name. -/
def specExtension (exportFormat : String) : String :=
  if exportFormat = "image" then "raw"
  else if exportFormat = "qcow2" then "qcow2"
  else exportFormat

/-- Bytes of an ASCII string. -/
def ascii (s : String) : Bytes := s.data.map (fun c => UInt8.ofNat c.toNat)

/-- An environment without faults whose remote side answers every command
with success; `stat -c %s` reports `reported` and `cat` streams `streamed`. -/
def scriptedEnv (reported streamed : Bytes) : Env :=
  { exec := fun _ call =>
      if call.command.head? = some "stat" then { stdout := reported, stderr := "", err := none }
      else if call.command.head? = some "cat" then
        { stdout := streamed, stderr := "", err := none }
      else { stdout := [], stderr := "", err := none },
    restConfigErr := none, clientsetErr := none, executorErr := none,
    stat := fun _ => Except.ok { mode := 420, modTime := 0 },
    createErr := fun _ => none }

/-- A local file system with the single file `files/a.conf` of three bytes. -/
def exampleWorld : World := { fs := [("files/a.conf", [1, 2, 3])], calls := [] }

/-- The remote command with which `uploadLocalFiles` creates the directory
`dir` under `/workspace/shared/`. -/
def shMkdirCall (ns podName containerName dir : String) : ExecCall :=
  plainCall ns podName containerName ["/bin/sh", "-c", "mkdir -p /workspace/shared/" ++ dir]

/-- The remote commands of one successful upload of `fileRef`, in order: the
directory creation under `/workspace/shared/` when the directory of the source
path is neither `.` nor `/`, then the two commands of `copyFile` for the remote
path `/workspace/shared/<source_path>`. -/
def uploadCallsFor (env : Env) (fs : LocalFS) (ns podName containerName : String)
    (fileRef : FileRef) : List ExecCall :=
  let remotePath := "/workspace/shared/" ++ fileRef.source_path
  let dir := filepathDir fileRef.source_path
  let content := (fs.read fileRef.source_path).getD []
  let info : FileMeta :=
    match env.stat fileRef.source_path with
    | Except.ok i => i
    | Except.error _ => { mode := 0, modTime := 0 }
  (if dir ≠ "." ∧ dir ≠ "/" then [shMkdirCall ns podName containerName dir] else []) ++
    [plainCall ns podName containerName ["mkdir", "-p", filepathDir remotePath],
     tarCall ns podName containerName (filepathDir remotePath)
       [⟨⟨filepathBase remotePath, content.length, info.mode, info.modTime⟩, content⟩]]

/-- A running upload pod with one container. -/
def examplePod : Pod := { Name := "upload-pod", Containers := ["main"], Phase := "Running" }

/-- The environment of `scriptedEnv` whose remote side fails every command run
through `/bin/sh`. -/
def shFailEnv : Env :=
  { scriptedEnv [] [] with
    exec := fun _ call =>
      if call.command.head? = some "/bin/sh" then
        { stdout := [], stderr := "denied", err := some "command terminated with exit code 1" }
      else { stdout := [], stderr := "", err := none } }

/-! ## `runBuild` -/

/-- The two kinds of resource that `runBuild` looks up, deletes and creates. -/
inductive Kind where
  | imageBuild
  | configMap
deriving DecidableEq, Repr

/-- Answer of `c.Get`: a nil error, an error for which `errors.IsNotFound` holds,
or any other error. -/
inductive Lookup where
  | found
  | notFound
  | failed (msg : String)
deriving DecidableEq, Repr

/-- Answer of the pod list request. -/
inductive PodList where
  | failed (msg : String)
  | items (pods : List Pod)
deriving DecidableEq, Repr

/-- What `runBuild` does to the outside, in the order in which it does it.  All
requests are made in the namespace of the flags, which is not repeated. -/
inductive Event where
  | print (text : String)
  | get (kind : Kind) (name : String) (result : Lookup)
  | delete (kind : Kind) (name : String) (err : Option String)
  | createConfigMap (name fileName data : String) (err : Option String)
  | createImageBuild (imageBuild : ImageBuild) (err : Option String)
  | updateOwner (configMap owner : String) (err : Option String)
  | listPods (buildName app : String) (result : PodList)
  | patchUploadsComplete (name : String) (err : Option String)
  | exec (call : ExecCall)
deriving DecidableEq, Repr

/-- The package-level flag variables that `runBuild` reads. -/
structure Flags where
  namespaceName : String
  manifest : String
  buildName : String
  distro : String
  target : String
  architecture : String
  exportFormat : String
  mode : String
  osbuildImage : String
  storageClass : String
  outputDir : String
  timeout : Int
  waitForBuild : Bool
  download : Bool
deriving DecidableEq, Repr

/-- The answers of the cluster to one delete-and-wait block: the first lookup,
the delete request, the lookup made at once by the poll and the lookups at the
ticks before its 30-second deadline. -/
structure ReplaceEnv where
  initial : Lookup
  deleteErr : Option String
  firstPoll : Lookup
  ticks : List Lookup

/-- Everything outside the program that `runBuild` consults, step by step. -/
structure BuildEnv where
  getClientErr : Option String
  imageBuild : ReplaceEnv
  readManifest : Except String String
  configMap : ReplaceEnv
  createConfigMapErr : Option String
  unmarshal : String → Except String Mapping
  createImageBuildErr : Option String
  refetchConfigMap : Lookup
  updateOwnerErr : Option String
  uploadPodPolls : List PodList
  remote : Env
  markGet : Lookup
  markPatchErr : Option String
  buildPolls : List (Except String ImageBuild)
  download : DownloadEnv

/-- Result of a run: what was done, the final state, and the exit status
(`some 1` after `os.Exit(1)`, `none` when `runBuild` returned). -/
structure Run where
  trace : List Event
  world : World
  exit : Option Nat
deriving DecidableEq, Repr

/-- Ends the run with `os.Exit(1)` after the given events. -/
def exit1 (events : List Event) (w : World) : Run :=
  { trace := events, world := w, exit := some 1 }

/-- Puts `events` in front of the rest of the run. -/
def emit (events : List Event) (rest : Run) : Run :=
  { rest with trace := events ++ rest.trace }

/-- Name of a kind in messages. -/
def Kind.label : Kind → String
  | Kind.imageBuild => "ImageBuild"
  | Kind.configMap => "ConfigMap"

/-- Start of the message printed when the delete request fails. -/
def Kind.deleteErrorLabel : Kind → String
  | Kind.imageBuild => "Error deleting existing ImageBuild: "
  | Kind.configMap => "Error deleting ConfigMap: "

/-- The poll after a delete (every 2 seconds, for 30 seconds, first try at
once): each try looks the resource up and succeeds when it is not found. -/
def awaitDeletion (kind : Kind) (name : String) (first : Lookup) (ticks : List Lookup) :
    List Event × Option String :=
  pollImmediateUntilContextTimeout
    (fun (tr : List Event) (r : Lookup) =>
      (tr ++ [Event.get kind name r], Except.ok (decide (r = Lookup.notFound))))
    [] first (ticks.take 15)

/-- The block that `runBuild` runs for the ImageBuild and again for the
ConfigMap: look the resource up; when it exists delete it and wait until it is
gone.  Returns the events and whether the run goes on. -/
def replaceExisting (kind : Kind) (name : String) (env : ReplaceEnv) : List Event × Bool :=
  match env.initial with
  | Lookup.found =>
    let events := [Event.get kind name Lookup.found,
      Event.print ("Deleting existing " ++ kind.label ++ " " ++ name ++ "\n")]
    match env.deleteErr with
    | some e =>
      (events ++ [Event.delete kind name (some e),
        Event.print (kind.deleteErrorLabel ++ e ++ "\n")], false)
    | none =>
      let events := events ++ [Event.delete kind name none,
        Event.print ("Waiting for " ++ kind.label ++ " " ++ name ++ " to be deleted...\n")]
      match awaitDeletion kind name env.firstPoll env.ticks with
      | (polled, some e) =>
        (events ++ polled ++
          [Event.print ("Error waiting for " ++ kind.label ++ " deletion: " ++ e ++ "\n")], false)
      | (polled, none) => (events ++ polled, true)
  | Lookup.notFound => ([Event.get kind name Lookup.notFound], true)
  | Lookup.failed e =>
    ([Event.get kind name (Lookup.failed e),
      Event.print ("Error checking for existing " ++ kind.label ++ ": " ++ e ++ "\n")], false)

/-- The condition closure of `waitForUploadPod`: lists the upload pods and
picks the first one whose phase is `Running`. -/
def uploadPodCondition (buildName : String) (st : List Event × Option Pod) (r : PodList) :
    (List Event × Option Pod) × Except String Bool :=
  let listed := Event.listPods buildName "upload-pod" r
  match r with
  | PodList.failed e => ((st.1 ++ [listed], st.2), Except.error e)
  | PodList.items pods =>
    match pods.find? (fun pod => pod.Phase = "Running") with
    | some pod => ((st.1 ++ [listed], some pod), Except.ok true)
    | none => ((st.1 ++ [listed, Event.print "."], st.2), Except.ok false)

/-- The function `waitForUploadPod` (every 5 seconds, for 2 minutes): the
events, and the pod or the error.  The poll ends without error only after the
condition has stored a pod, so the last case is never reached. -/
def waitForUploadPod (buildName : String) (polls : List PodList) :
    List Event × Except String Pod :=
  let start := [Event.print "Waiting for file upload server to be ready...\n"]
  match pollUntilContextTimeout (uploadPodCondition buildName) (start, none)
      (polls.take 24) with
  | ((events, _), some e) =>
    (events, Except.error ("timed out waiting for upload pod: " ++ e))
  | ((events, some pod), none) =>
    (events ++ [Event.print ("\nUpload pod is ready: " ++ pod.Name ++ "\n")], Except.ok pod)
  | ((events, none), none) => (events, Except.error "timed out waiting for upload pod")

/-- The function `markUploadsComplete`: events and error. -/
def markUploadsComplete (buildName : String) (got : Lookup) (patchErr : Option String) :
    List Event × Option String :=
  let fetched := Event.get Kind.imageBuild buildName got
  match got with
  | Lookup.notFound => ([fetched], some "error getting ImageBuild: not found")
  | Lookup.failed e => ([fetched], some ("error getting ImageBuild: " ++ e))
  | Lookup.found =>
    match patchErr with
    | some e =>
      ([fetched, Event.patchUploadsComplete buildName (some e)],
        some ("error patching ImageBuild with completion annotation: " ++ e))
    | none =>
      ([fetched, Event.patchUploadsComplete buildName none,
        Event.print "File uploads marked as complete. Build will proceed.\n"], none)

/-- The lookup that a poll of `waitForBuildCompletion` stands for. -/
def lookupOf : Except String ImageBuild → Lookup
  | Except.ok _ => Lookup.found
  | Except.error e => Lookup.failed e

/-- Lines 312 to 323 of `runBuild`: the optional wait and download.  The
lookups of the wait are listed before what it printed.  The wait returns no
error only together with a build, so the case of neither is never reached. -/
def waitAndDownload (env : BuildEnv) (flags : Flags) (w : World) : Run :=
  if flags.waitForBuild then
    let started := Event.print ("Waiting for build " ++ flags.buildName ++
      " to complete (timeout: " ++ toString flags.timeout ++ " minutes)...\n")
    let r := waitForBuildCompletion flags.timeout env.buildPolls
    let events := [started] ++
      (env.buildPolls.take r.gets).map
        (fun p => Event.get Kind.imageBuild flags.buildName (lookupOf p)) ++
      r.out.map Event.print
    match r.err, r.build with
    | some e, _ => exit1 (events ++ [Event.print ("Error waiting for build: " ++ e ++ "\n")]) w
    | none, none => exit1 events w
    | none, some completeBuild =>
      if flags.download ∧ completeBuild.Status.Phase = "Completed" then
        let (w1, out) := downloadArtifacts env.remote env.download w flags.outputDir completeBuild
        { trace := events ++ (w1.calls.drop w.calls.length).map Event.exec ++
            out.map Event.print,
          world := w1, exit := none }
      else { trace := events, world := w, exit := none }
  else { trace := [], world := w, exit := none }

/-- Lines 285 to 310 of `runBuild`: the uploads, when the manifest refers to
local files, and the final message. -/
def uploadPhase (env : BuildEnv) (flags : Flags) (w : World) (manifestData : String)
    (hasLocalFiles : Bool) : Run :=
  let created := Event.print ("ImageBuild " ++ flags.buildName ++
    " created successfully in namespace " ++ flags.namespaceName ++ "\n")
  let localFileRefs := findLocalFileReferences env.unmarshal manifestData
  if hasLocalFiles ∧ 0 < localFileRefs.length then
    match waitForUploadPod flags.buildName env.uploadPodPolls with
    | (waited, Except.error e) =>
      exit1 (waited ++ [Event.print ("Error: " ++ e ++ "\n")]) w
    | (waited, Except.ok uploadPod) =>
      let announced := [Event.print "Found local file references in manifest.\n",
        Event.print "Uploading local files to artifact server...\n"]
      match uploadLocalFiles env.remote w flags.namespaceName localFileRefs uploadPod with
      | (w1, some e) =>
        exit1 (waited ++ announced ++ (w1.calls.drop w.calls.length).map Event.exec ++
          [Event.print ("Error uploading files: " ++ e ++ "\n")]) w1
      | (w1, none) =>
        let uploaded := waited ++ announced ++
          (w1.calls.drop w.calls.length).map Event.exec ++
          [Event.print "Files uploaded successfully.\n"]
        match markUploadsComplete flags.buildName env.markGet env.markPatchErr with
        | (marked, some e) =>
          exit1 (uploaded ++ marked ++
            [Event.print ("Error marking uploads as complete: " ++ e ++ "\n")]) w1
        | (marked, none) =>
          emit (uploaded ++ marked ++ [created]) (waitAndDownload env flags w1)
  else emit [created] (waitAndDownload env flags w)

/-- Lines 235 to 257 of `runBuild`: the ImageBuild object that is submitted. -/
def newImageBuild (flags : Flags) (configMapName : String) (hasLocalFiles : Bool) :
    ImageBuild :=
  let imageBuild : ImageBuild :=
    { Name := flags.buildName, Namespace := flags.namespaceName,
      Spec := { Distro := flags.distro, Target := flags.target,
                Architecture := flags.architecture, ExportFormat := flags.exportFormat,
                Mode := flags.mode, AutomativeOSBuildImage := flags.osbuildImage,
                StorageClass := flags.storageClass,
                ServeArtifact := flags.waitForBuild && flags.download,
                ServeExpiryHours := 24, ManifestConfigMap := configMapName,
                InputFilesServer := hasLocalFiles },
      Status := { Phase := "", Message := "", PVCName := "", ArtifactPath := "",
                  ArtifactFileName := "" } }
  if flags.download then
    { imageBuild with Spec := { imageBuild.Spec with ServeArtifact := true } }
  else imageBuild

/-- Lines 215 to 283 of `runBuild`: creation of the ConfigMap and of the
ImageBuild, and the owner reference. -/
def createPhase (env : BuildEnv) (flags : Flags) (w : World) (manifestData : String) : Run :=
  let configMapName := flags.buildName ++ "-manifest-config"
  let fileName := filepathBase flags.manifest
  let creatingCM := Event.print ("Creating ConfigMap " ++ configMapName ++
    " with manifest file " ++ fileName ++ "\n")
  let createCM := Event.createConfigMap configMapName fileName manifestData
    env.createConfigMapErr
  match env.createConfigMapErr with
  | some e => exit1 [creatingCM, createCM, Event.print ("Error creating ConfigMap: " ++ e ++ "\n")] w
  | none =>
    let localFileRefs := findLocalFileReferences env.unmarshal manifestData
    let hasLocalFiles : Bool := decide (0 < localFileRefs.length)
    let imageBuild := newImageBuild flags configMapName hasLocalFiles
    let scanned := (parseWarning env.unmarshal manifestData).map Event.print
    let creatingIB := Event.print ("Creating ImageBuild " ++ imageBuild.Name ++ "\n")
    let createIB := Event.createImageBuild imageBuild env.createImageBuildErr
    match env.createImageBuildErr with
    | some e =>
      exit1 ([creatingCM, createCM] ++ scanned ++ [creatingIB, createIB,
        Event.print ("Error creating ImageBuild: " ++ e ++ "\n")]) w
    | none =>
      let refetch := Event.get Kind.configMap configMapName env.refetchConfigMap
      match env.refetchConfigMap with
      | Lookup.notFound =>
        exit1 ([creatingCM, createCM] ++ scanned ++ [creatingIB, createIB, refetch,
          Event.print "Error retrieving ConfigMap for owner update: not found\n"]) w
      | Lookup.failed e =>
        exit1 ([creatingCM, createCM] ++ scanned ++ [creatingIB, createIB, refetch,
          Event.print ("Error retrieving ConfigMap for owner update: " ++ e ++ "\n")]) w
      | Lookup.found =>
        let update := Event.updateOwner configMapName imageBuild.Name env.updateOwnerErr
        let warned :=
          match env.updateOwnerErr with
          | some e =>
            [Event.print ("Warning: Failed to update ConfigMap with owner reference: " ++
              e ++ "\n")]
          | none => []
        emit ([creatingCM, createCM] ++ scanned ++
            [creatingIB, createIB, refetch, update] ++ warned)
          (uploadPhase env flags w manifestData hasLocalFiles)

/-- The function `runBuild`. -/
def runBuild (env : BuildEnv) (flags : Flags) (w : World) : Run :=
  match env.getClientErr with
  | some e => exit1 [Event.print ("Error: " ++ e ++ "\n")] w
  | none =>
    if flags.buildName = "" then exit1 [Event.print "Error: --name flag is required\n"] w
    else
      match replaceExisting Kind.imageBuild flags.buildName env.imageBuild with
      | (events, false) => exit1 events w
      | (events, true) =>
        emit events
          (if flags.manifest = "" then exit1 [Event.print "Error: --manifest is required\n"] w
           else
            match env.readManifest with
            | Except.error e =>
              exit1 [Event.print ("Error reading manifest file: " ++ e ++ "\n")] w
            | Except.ok manifestData =>
              match replaceExisting Kind.configMap (flags.buildName ++ "-manifest-config")
                  env.configMap with
              | (events, false) => exit1 events w
              | (events, true) => emit events (createPhase env flags w manifestData))

/-- The resource that a creation request is for. -/
def createTarget : Event → Option (Kind × String)
  | Event.createConfigMap name _ _ _ => some (Kind.configMap, name)
  | Event.createImageBuild imageBuild _ => some (Kind.imageBuild, imageBuild.Name)
  | _ => none

/-- The answer carried by `event` when it is a lookup of the resource of the
given kind and name. -/
def lookupResult (kind : Kind) (name : String) : Event → Option Lookup
  | Event.get k n r => if k = kind ∧ n = name then some r else none
  | _ => none

/-- Spec wording: the most recent lookup of a resource among the events `seen`
(oldest first). -/
def latestLookup (seen : List Event) (kind : Kind) (name : String) : Option Lookup :=
  seen.reverse.findSome? (lookupResult kind name)

/-- Spec wording: no creation is issued unless the most recent lookup of that
resource's name reported not-found. -/
def CreatesGuarded (trace : List Event) : Prop :=
  ∀ (pre post : List Event) (ev : Event) (kind : Kind) (name : String),
    trace = pre ++ ev :: post → createTarget ev = some (kind, name) →
    latestLookup pre kind name = some Lookup.notFound

/-- The same condition for the events `todo` that follow the events `seen`. -/
def GuardedFrom : List Event → List Event → Prop
  | _, [] => True
  | seen, ev :: rest =>
    (∀ kind name, createTarget ev = some (kind, name) →
      latestLookup seen kind name = some Lookup.notFound) ∧
    GuardedFrom (seen ++ [ev]) rest

/-- Holds when none of the events is a creation request. -/
def NoCreate (events : List Event) : Prop := ∀ e ∈ events, createTarget e = none

/-- Holds when none of the events is a creation request or a lookup. -/
def Quiet (events : List Event) : Prop :=
  ∀ e ∈ events, createTarget e = none ∧ ∀ k n, lookupResult k n e = none

/-! ### Phases of a run -/

/-- Lines 265 to 283 of `runBuild`, as they follow the two creations inside
`createPhase`: the ConfigMap is fetched again, the owner reference is written,
and the run goes on with the uploads. -/
def ownerLinkPhase (env : BuildEnv) (flags : Flags) (w : World) (manifestData : String) : Run :=
  let configMapName := flags.buildName ++ "-manifest-config"
  let hasLocalFiles : Bool :=
    decide (0 < (findLocalFileReferences env.unmarshal manifestData).length)
  let imageBuild := newImageBuild flags configMapName hasLocalFiles
  let refetch := Event.get Kind.configMap configMapName env.refetchConfigMap
  match env.refetchConfigMap with
  | Lookup.notFound =>
    exit1 [refetch, Event.print "Error retrieving ConfigMap for owner update: not found\n"] w
  | Lookup.failed e =>
    exit1 [refetch,
      Event.print ("Error retrieving ConfigMap for owner update: " ++ e ++ "\n")] w
  | Lookup.found =>
    let update := Event.updateOwner configMapName imageBuild.Name env.updateOwnerErr
    let warned :=
      match env.updateOwnerErr with
      | some e =>
        [Event.print ("Warning: Failed to update ConfigMap with owner reference: " ++
          e ++ "\n")]
      | none => []
    emit ([refetch, update] ++ warned) (uploadPhase env flags w manifestData hasLocalFiles)

/-- Recognises the events of the lookup and delete blocks: a printed line, a
lookup, a delete request. -/
def Event.isPrelude : Event → Bool
  | Event.print _ => true
  | Event.get _ _ _ => true
  | Event.delete _ _ _ => true
  | _ => false

/-- Recognises the events of the upload steps: a poll for the upload pod, a
remote command, the patch of the marker. -/
def Event.isUploadStep : Event → Bool
  | Event.listPods _ _ _ => true
  | Event.patchUploadsComplete _ _ => true
  | Event.exec _ => true
  | _ => false

/-- Holds when every event belongs to the lookup and delete blocks. -/
def Prelude (events : List Event) : Prop := ∀ e ∈ events, e.isPrelude = true

/-- Holds when no event is an upload step. -/
def NoUploadStep (events : List Event) : Prop := ∀ e ∈ events, e.isUploadStep = false

/-- Flags of a build named `demo` with manifest `demo.yml`. -/
def exampleFlags : Flags :=
  { namespaceName := "default", manifest := "demo.yml", buildName := "demo", distro := "cs9",
    target := "qemu", architecture := "arm64", exportFormat := "image", mode := "image",
    osbuildImage := "img", storageClass := "", outputDir := "./output", timeout := 60,
    waitForBuild := false, download := false }

/-- Flags of the build `demo` with `--download` set and `--wait` unset. -/
def downloadOnlyFlags : Flags := { exampleFlags with download := true }

/-- A cluster in which the ImageBuild `demo` and its ConfigMap exist and are
gone at the second poll after their deletion; the manifest has no local files. -/
def resubmitEnv : BuildEnv :=
  { getClientErr := none,
    imageBuild := { initial := Lookup.found, deleteErr := none, firstPoll := Lookup.found,
                    ticks := [Lookup.notFound] },
    readManifest := Except.ok "name: demo",
    configMap := { initial := Lookup.found, deleteErr := none, firstPoll := Lookup.found,
                   ticks := [Lookup.notFound] },
    createConfigMapErr := none,
    unmarshal := fun _ => Except.ok [("name", Value.str "demo")],
    createImageBuildErr := none,
    refetchConfigMap := Lookup.found,
    updateOwnerErr := none,
    uploadPodPolls := [],
    remote := scriptedEnv [] [],
    markGet := Lookup.found,
    markPatchErr := none,
    buildPolls := [],
    download := { mkdirAllErr := none, getClientErr := none, listPods := Except.ok [] } }

/-- A cluster without earlier resources in which the manifest that is read
cannot be parsed. -/
def parseFailEnv : BuildEnv :=
  { resubmitEnv with
    imageBuild := { initial := Lookup.notFound, deleteErr := none,
                    firstPoll := Lookup.notFound, ticks := [] },
    configMap := { initial := Lookup.notFound, deleteErr := none,
                   firstPoll := Lookup.notFound, ticks := [] },
    readManifest := Except.ok "content: [",
    unmarshal := fun _ => Except.error "yaml: line 1: did not find expected node content" }

/-- The cluster of `resubmitEnv` in which the ConfigMap cannot be fetched again
after the ImageBuild was created. -/
def refetchFailEnv : BuildEnv :=
  { resubmitEnv with refetchConfigMap := Lookup.failed "context deadline exceeded" }

/-- The cluster of `resubmitEnv` in which the update of the ConfigMap with the
owner reference is rejected. -/
def ownerUpdateFailEnv : BuildEnv :=
  { resubmitEnv with updateOwnerErr := some "conflict" }

/-- Flags of the run with `--wait` removed. -/
def Flags.withoutWait (flags : Flags) : Flags := { flags with waitForBuild := false }

/-- A manifest with one local file, `files/a.conf`. -/
def uploadManifest : Mapping :=
  [("content", Value.map [("add_files", Value.seq [
      Value.map [("path", Value.str "/etc/a.conf"), ("source_path", Value.str "files/a.conf")]])])]

/-- A cluster without earlier resources whose manifest refers to the local file
`files/a.conf`; the upload pod runs at the first poll and every remote command
succeeds. -/
def uploadEnv : BuildEnv :=
  { resubmitEnv with
    imageBuild := { initial := Lookup.notFound, deleteErr := none,
                    firstPoll := Lookup.notFound, ticks := [] },
    configMap := { initial := Lookup.notFound, deleteErr := none,
                   firstPoll := Lookup.notFound, ticks := [] },
    readManifest := Except.ok "content",
    unmarshal := fun _ => Except.ok uploadManifest,
    uploadPodPolls := [PodList.items [examplePod]] }

/-- An entry with both string fields and a further key that is not a string,
as in the YAML lines `- path: a`, `source_path: /src/a`, `1: x`. -/
def mixedKeyEntry : Value :=
  Value.anyMap [(Value.str "path", Value.str "a"),
    (Value.str "source_path", Value.str "/src/a"), (Value.int 1, Value.str "x")]

/-- A manifest whose top-level `content.add_files` holds `mixedKeyEntry`. -/
def mixedKeyManifest : Mapping :=
  [("content", Value.map [("add_files", Value.seq [mixedKeyEntry])])]

/-- A manifest whose `content` mapping has the key `true` besides `add_files`;
the one entry of `add_files` has string keys only. -/
def mixedKeyContentManifest : Mapping :=
  [("content", Value.anyMap [
    (Value.str "add_files", Value.seq [
      Value.map [("path", Value.str "a"), ("source_path", Value.str "/src/a")]]),
    (Value.bool true, Value.str "x")])]

/-- A manifest with a top-level entry, an entry whose source is the root path,
an entry without `source_path`, and a nested `qm` entry. -/
def exampleManifest : Mapping :=
  [("name", Value.str "demo"),
   ("content", Value.map [("add_files", Value.seq [
      Value.map [("path", Value.str "a"), ("source_path", Value.str "/src/a")],
      Value.map [("path", Value.str "r"), ("source_path", Value.str "/")],
      Value.map [("path", Value.str "m")]])]),
   ("qm", Value.map [("content", Value.map [("add_files", Value.seq [
      Value.map [("path", Value.str "b"), ("source_path", Value.str "/src/b")]])])])]

/-- A manifest in which the same entry occurs twice at the top level and twice
under `qm`. -/
def duplicateManifest : Mapping :=
  let e := Value.map [("path", Value.str "a"), ("source_path", Value.str "/src/a")]
  [("content", Value.map [("add_files", Value.seq [e, e])]),
   ("qm", Value.map [("content", Value.map [("add_files", Value.seq [e, e])])])]

/-! ## A model of the remote side

`copyFile` talks to a container through four commands: `mkdir -p`, `tar -xf - -C`,
`stat -c %s` and `cat`.  They are not code of this repository; the definitions
below model a container that offers these commands over a tree of directories
and regular files, so that an upload followed by a download can be followed
through both sides.  Paths are resolved as the kernel does it, element by
element through directories that exist; there are no symbolic links and nothing
but these commands changes the tree.  What a command does with an argument that
starts with `-` (an option, not a path) is left open: the model takes the
answer from `optionAnswer`. -/

/-- A node of the remote file tree: a regular file with its bytes and its
permission bits, or a directory. -/
inductive PodNode where
  | file (data : Bytes) (mode : Nat)
  | dir
deriving DecidableEq, Repr

/-- The remote file tree: absolute path without redundant elements to node.
The root is a directory without being listed. -/
abbrev PodFS := List (String × PodNode)

/-- The node stored under an absolute path. -/
def PodFS.node (fs : PodFS) (key : String) : Option PodNode :=
  if key = "/" then some PodNode.dir else List.lookup key fs

/-- The path of the element `name` in the directory `dir`. -/
def childKey (dir name : String) : String :=
  if dir = "/" then "/" ++ name else dir ++ "/" ++ name

/-- Walks the path elements `pieces` from the directory `cur`: empty elements
and `.` stay, `..` goes to the parent, a name goes to the node of that name,
which must exist and, unless it is the last element, be a directory.  Returns
the path and the node reached. -/
def PodFS.walk (fs : PodFS) : String → List (List Char) → Except String (String × PodNode)
  | cur, [] => Except.ok (cur, PodNode.dir)
  | cur, piece :: rest =>
    if piece = [] ∨ piece = ['.'] then PodFS.walk fs cur rest
    else if piece = ['.', '.'] then PodFS.walk fs (filepathDir cur) rest
    else
      match fs.node (childKey cur (String.mk piece)) with
      | none => Except.error "No such file or directory"
      | some PodNode.dir => PodFS.walk fs (childKey cur (String.mk piece)) rest
      | some (PodNode.file data mode) =>
        if rest = [] then
          Except.ok (childKey cur (String.mk piece), PodNode.file data mode)
        else Except.error "Not a directory"

/-- Path lookup of a command run in the working directory `cwd`: the path and
the node that `path` names, or the error text. -/
def PodFS.lookupPath (fs : PodFS) (cwd path : String) : Except String (String × PodNode) :=
  if path = "" then Except.error "No such file or directory"
  else fs.walk (if path.data.head? = some '/' then "/" else cwd) (splitSlash path.data)

/-- The walk of `mkdir -p`: as `PodFS.walk`, but a missing name is created as a
directory; a regular file in the way is an error. -/
def PodFS.mkdirWalk : PodFS → String → List (List Char) → Except String PodFS
  | fs, _, [] => Except.ok fs
  | fs, cur, piece :: rest =>
    if piece = [] ∨ piece = ['.'] then PodFS.mkdirWalk fs cur rest
    else if piece = ['.', '.'] then PodFS.mkdirWalk fs (filepathDir cur) rest
    else
      match fs.node (childKey cur (String.mk piece)) with
      | none =>
        PodFS.mkdirWalk ((childKey cur (String.mk piece), PodNode.dir) :: fs)
          (childKey cur (String.mk piece)) rest
      | some PodNode.dir => PodFS.mkdirWalk fs (childKey cur (String.mk piece)) rest
      | some (PodNode.file _ _) =>
        if rest = [] then Except.error "File exists" else Except.error "Not a directory"

/-- Whether an entry name is a single path element other than `.` and `..`. -/
def plainName (name : String) : Bool :=
  decide (name ≠ "" ∧ name ≠ "." ∧ name ≠ ".." ∧ '/' ∉ name.data)

/-- Extraction of the entries of an archive into the directory `dir`: an entry
with a plain name becomes a regular file of that name with the bytes and the
permission bits of the entry, replacing a regular file that is there; a
directory of that name, and any other kind of name, make the extraction
fail. -/
def PodFS.extractInto (fs : PodFS) (dir : String) : List TarEntry → Except String PodFS
  | [] => Except.ok fs
  | entry :: rest =>
    if plainName entry.header.Name then
      match fs.node (childKey dir entry.header.Name) with
      | some PodNode.dir => Except.error "Cannot open: Is a directory"
      | _ =>
        PodFS.extractInto
          ((childKey dir entry.header.Name, PodNode.file entry.data entry.header.Mode) ::
            fs.filter (fun kv => kv.1 ≠ childKey dir entry.header.Name)) dir rest
    else Except.error "Cannot open: not a plain member name"

/-- Decimal digits of `n`, least significant first; the fuel bounds their
number. -/
def revDigits : Nat → Nat → Bytes
  | 0, _ => []
  | fuel + 1, n =>
    UInt8.ofNat (48 + n % 10) :: (if n / 10 = 0 then [] else revDigits fuel (n / 10))

/-- The decimal representation of `n` in ASCII. -/
def decimal (n : Nat) : Bytes := (revDigits (n + 1) n).reverse

/-- The answer of a command that failed with exit status 1. -/
def podFailure (text : String) : ExecResult :=
  { stdout := [], stderr := text, err := some "command terminated with exit code 1" }

/-- The answer of a command that succeeded with the output `out`. -/
def podSuccess (out : Bytes) : ExecResult := { stdout := out, stderr := "", err := none }

/-- What the model leaves open about a container: the tree it starts with, the
working directory of the commands, whether they run as root, and the answer of
a command whose path argument starts with `-`. -/
structure PodModel where
  init : PodFS
  cwd : String
  root : Bool
  optionAnswer : List String → ExecResult

/-- Whether an argument is taken as an option. -/
def isOption (arg : String) : Bool := decide (arg.data.head? = some '-')

/-- Whether the user of the commands may read a file they extracted with the
permission bits `mode`: root always, another user when the owner may read. -/
def mayRead (root : Bool) (mode : Nat) : Bool := root || decide (mode / 256 % 2 = 1)

/-- One command in the container: the new file tree and the answer.  A failed
command, a command given an option for its path, and a command other than the
four above leave the tree unchanged.  The directory of `tar -C` is the argument
of that option, so it is a path whatever it starts with. -/
def podStep (m : PodModel) (fs : PodFS) (call : ExecCall) : PodFS × ExecResult :=
  match call.command, call.stdin with
  | ["mkdir", "-p", dir], _ =>
    if isOption dir then (fs, m.optionAnswer call.command)
    else if dir = "" then (fs, podFailure "mkdir: No such file or directory")
    else
      match fs.mkdirWalk (if dir.data.head? = some '/' then "/" else m.cwd)
          (splitSlash dir.data) with
      | Except.ok made => (made, podSuccess [])
      | Except.error e => (fs, podFailure ("mkdir: " ++ e))
  | ["tar", "-xf", "-", "-C", dir], some archive =>
    match fs.lookupPath m.cwd dir with
    | Except.ok (key, PodNode.dir) =>
      match fs.extractInto key archive with
      | Except.ok extracted => (extracted, podSuccess [])
      | Except.error e => (fs, podFailure ("tar: " ++ e))
    | Except.ok (_, PodNode.file _ _) => (fs, podFailure "tar: Cannot open: Not a directory")
    | Except.error e => (fs, podFailure ("tar: Cannot open: " ++ e))
  | ["stat", "-c", "%s", path], _ =>
    if isOption path then (fs, m.optionAnswer call.command)
    else
      match fs.lookupPath m.cwd path with
      | Except.ok (_, PodNode.file data _) => (fs, podSuccess (decimal data.length ++ [0x0A]))
      | Except.ok (_, PodNode.dir) => (fs, podSuccess (ascii "4096\n"))
      | Except.error e => (fs, podFailure ("stat: " ++ e))
  | ["cat", path], _ =>
    if isOption path then (fs, m.optionAnswer call.command)
    else
      match fs.lookupPath m.cwd path with
      | Except.ok (_, PodNode.file data mode) =>
        if mayRead m.root mode then (fs, podSuccess data)
        else (fs, podFailure "cat: Permission denied")
      | Except.ok (_, PodNode.dir) => (fs, podFailure "cat: Is a directory")
      | Except.error e => (fs, podFailure ("cat: " ++ e))
  | _, _ => (fs, podFailure "command not found")

/-- The file tree of a container after the commands of `history`. -/
def podRun (m : PodModel) (history : List ExecCall) : PodFS :=
  history.foldl (fun fs call => (podStep m fs call).1) m.init

/-- Whether two requests address the same container. -/
def sameContainer (a b : ExecCall) : Bool :=
  decide (a.ns = b.ns ∧ a.podName = b.podName ∧ a.containerName = b.containerName)

/-- The remote side as `Env.exec`: every container starts with the tree
`m.init` and has run the earlier commands that were addressed to it. -/
def podExec (m : PodModel) (history : List ExecCall) (call : ExecCall) : ExecResult :=
  (podStep m (podRun m (history.filter (sameContainer call))) call).2

/-- An environment without client-side faults whose remote side is `podExec`. -/
def podEnv (m : PodModel) : Env := { scriptedEnv [] [] with exec := podExec m }

/-- An empty container whose commands run as root in the root directory and
reject every option given for a path. -/
def emptyPod : PodModel :=
  { init := [], cwd := "/", root := true,
    optionAnswer := fun _ => podFailure "invalid option" }

/-- Whether a path element is a name: neither empty nor `.`. -/
def isNamed (piece : List Char) : Bool := decide (¬ (piece = [] ∨ piece = ['.']))

/-- A destination path that `tar`, `stat` and `cat` read alike: it is not
empty, does not end in a slash, does not start with `-` and has no element
`..`. -/
def PlainDestination (podPath : String) : Prop :=
  podPath ≠ "" ∧ podPath.data.getLast? ≠ some '/' ∧ podPath.data.head? ≠ some '-' ∧
    ['.', '.'] ∉ splitSlash podPath.data

instance (podPath : String) : Decidable (PlainDestination podPath) := by
  unfold PlainDestination; infer_instance

/-! ## Theorems -/

theorem processAddFiles_eq (acc : List FileRef) (xs : List Value) :
    processAddFiles acc xs = acc ++ xs.filterMap processEntry := by
  induction xs generalizing acc with
  | nil => simp [processAddFiles]
  | cons x xs ih =>
    unfold processAddFiles
    cases hx : processEntry x with
    | none => simp [ih, List.filterMap_cons, hx]
    | some r => simp [ih, List.filterMap_cons, hx]

theorem processEntry_eq_stringKeyedRef (e : Value) : processEntry e = stringKeyedRef e := by
  cases e with
  | map fields =>
    simp only [processEntry, asMap, stringKeyedRef]
    cases hp : Mapping.get fields "path" with
    | none => simp [asString]
    | some vp =>
      cases hs : Mapping.get fields "source_path" with
      | none => cases vp <;> simp [asString]
      | some vs =>
        cases vp <;> cases vs <;> simp [asString]
        split_ifs <;> simp_all
  | _ => simp [processEntry, asMap, stringKeyedRef]

theorem stringKeyedRef_eq_some_iff (e : Value) (p s : String) :
    stringKeyedRef e = some ⟨p, s⟩ ↔ QualifiesStringKeyed e p s := by
  constructor
  · intro h
    cases e with
    | map fields =>
      simp only [stringKeyedRef] at h
      cases hp : Mapping.get fields "path" with
      | none => simp [hp] at h
      | some vp =>
        cases hs : Mapping.get fields "source_path" with
        | none => cases vp <;> simp [hp, hs] at h
        | some vs =>
          cases vp <;> cases vs <;> simp [hp, hs] at h
          rename_i a b
          obtain ⟨h1, h2, rfl, rfl⟩ := h
          exact ⟨fields, rfl, hp, hs, h1, h2⟩
    | _ => simp [stringKeyedRef] at h
  · rintro ⟨fields, rfl, hp, hs, h1, h2⟩
    simp [stringKeyedRef, hp, hs, h1, h2]

theorem scanManifest_eq_stringKeyed (m : Mapping) : scanManifest m = stringKeyedLocalRefs m := by
  have hfun : processEntry = stringKeyedRef := funext processEntry_eq_stringKeyedRef
  have top : ∀ (mm : Mapping) (acc : List FileRef),
      (match asMap (mm.get "content") with
        | some content =>
          match asSeq (content.get "add_files") with
          | some addFiles => processAddFiles acc addFiles
          | none => acc
        | none => acc) = acc ++ (stringKeyedAddFiles mm).filterMap stringKeyedRef := by
    intro mm acc
    unfold stringKeyedAddFiles
    cases h1 : Mapping.get mm "content" with
    | none => simp [asMap]
    | some v =>
      cases v <;> simp [asMap]
      rename_i c
      cases h2 : Mapping.get c "add_files" with
      | none => simp [asSeq]
      | some w => cases w <;> simp [asSeq, processAddFiles_eq, hfun]
  unfold scanManifest stringKeyedLocalRefs
  simp only [top, List.nil_append]
  unfold stringKeyedQmAddFiles
  cases h1 : Mapping.get m "qm" with
  | none => simp [asMap]
  | some v =>
    cases v <;> simp [asMap]

theorem mem_stringKeyedAddFiles (m : Mapping) (e : Value) :
    e ∈ stringKeyedAddFiles m ↔
      ∃ content items, m.get "content" = some (Value.map content) ∧
        Mapping.get content "add_files" = some (Value.seq items) ∧ e ∈ items := by
  unfold stringKeyedAddFiles
  cases h1 : Mapping.get m "content" with
  | none => simp
  | some v =>
    cases v <;> simp
    rename_i c
    cases h2 : Mapping.get c "add_files" with
    | none => simp
    | some w => cases w <;> simp

theorem mem_stringKeyedQmAddFiles (m : Mapping) (e : Value) :
    e ∈ stringKeyedQmAddFiles m ↔
      ∃ qm content items, m.get "qm" = some (Value.map qm) ∧
        Mapping.get qm "content" = some (Value.map content) ∧
        Mapping.get content "add_files" = some (Value.seq items) ∧ e ∈ items := by
  unfold stringKeyedQmAddFiles
  cases h1 : Mapping.get m "qm" with
  | none => simp
  | some v =>
    cases v <;> simp
    rename_i qm
    rw [mem_stringKeyedAddFiles qm e]
    constructor
    · rintro ⟨c, items, h1, h2, h3⟩
      exact ⟨c, h1, items, h2, h3⟩
    · rintro ⟨c, h1, items, h2, h3⟩
      exact ⟨c, items, h1, h2, h3⟩

theorem length_filterMap_stringKeyedRef (xs : List Value) :
    (xs.filterMap stringKeyedRef).length = xs.countP (fun e => (stringKeyedRef e).isSome) := by
  induction xs with
  | nil => rfl
  | cons x xs ih =>
    cases hx : stringKeyedRef x <;> simp [List.filterMap_cons, List.countP_cons, hx, ih]

theorem stringKeyedAddFiles_subset (m : Mapping) (e : Value)
    (h : e ∈ stringKeyedAddFiles m) : e ∈ contentAddFiles m := by
  unfold stringKeyedAddFiles at h
  unfold contentAddFiles addFilesOf
  cases h1 : Mapping.get m "content" with
  | none => simp [h1] at h
  | some v =>
    cases v <;> simp [h1] at h
    rename_i c
    simpa [Value.field] using h

theorem stringKeyedQmAddFiles_subset (m : Mapping) (e : Value)
    (h : e ∈ stringKeyedQmAddFiles m) : e ∈ qmContentAddFiles m := by
  unfold stringKeyedQmAddFiles at h
  unfold qmContentAddFiles
  cases h1 : Mapping.get m "qm" with
  | none => simp [h1] at h
  | some v =>
    cases v <;> simp [h1] at h
    rename_i q
    exact stringKeyedAddFiles_subset q e h

theorem qualifies_of_stringKeyed (e : Value) (p s : String) (h : QualifiesStringKeyed e p s) :
    Qualifies e p s := by
  obtain ⟨fields, rfl, hp, hs, h1, h2⟩ := h
  exact ⟨hp, hs, h1, h2⟩

/-- C1 as stated fails: the entry `mixedKeyEntry` of the top-level
`content.add_files` is a mapping whose `path` is the string `a` and whose
`source_path` is the string `/src/a`, but one of its keys is not a string, so it
is not a `map[string]any` and `findLocalFileReferences` returns nothing. -/
theorem findLocalFileReferences_skips_mixed_keys :
    contentAddFiles mixedKeyManifest = [mixedKeyEntry] ∧
      Qualifies mixedKeyEntry "a" "/src/a" ∧
      findLocalFileReferences (fun _ => Except.ok mixedKeyManifest) "manifest" = [] :=
  ⟨rfl, ⟨rfl, rfl, by decide, by decide⟩, rfl⟩

/-- C1, amended: after a successful parse, `findLocalFileReferences` returns a
reference with path `p` and source path `s` exactly when some element of the
top-level `content.add_files` sequence or of the nested `qm.content.add_files`
sequence is a mapping with string keys only whose `path` is the string `p` and
whose `source_path` is the string `s`, with `s` non-empty and different from the
root path, the mappings `content` and `qm` on the way having string keys only
too; every other entry contributes nothing and the function always returns a
list.  Every returned reference comes from an entry that qualifies in the
wording of the specification. -/
theorem findLocalFileReferences_mem_iff (unmarshal : String → Except String Mapping)
    (manifestContent : String) (manifestData : Mapping)
    (hparse : unmarshal manifestContent = Except.ok manifestData) (p s : String) :
    ((⟨p, s⟩ : FileRef) ∈ findLocalFileReferences unmarshal manifestContent ↔
      (∃ content items entry,
          manifestData.get "content" = some (Value.map content) ∧
          Mapping.get content "add_files" = some (Value.seq items) ∧
          entry ∈ items ∧ QualifiesStringKeyed entry p s) ∨
      (∃ qm content items entry,
          manifestData.get "qm" = some (Value.map qm) ∧
          Mapping.get qm "content" = some (Value.map content) ∧
          Mapping.get content "add_files" = some (Value.seq items) ∧
          entry ∈ items ∧ QualifiesStringKeyed entry p s)) ∧
      ((⟨p, s⟩ : FileRef) ∈ findLocalFileReferences unmarshal manifestContent →
        ∃ entry, (entry ∈ contentAddFiles manifestData ∨
          entry ∈ qmContentAddFiles manifestData) ∧ Qualifies entry p s) := by
  constructor
  · simp only [findLocalFileReferences, hparse, scanManifest_eq_stringKeyed, stringKeyedLocalRefs,
      List.mem_append, List.mem_filterMap, stringKeyedRef_eq_some_iff]
    constructor
    · rintro (⟨e, he, hq⟩ | ⟨e, he, hq⟩)
      · obtain ⟨c, items, h1, h2, h3⟩ := (mem_stringKeyedAddFiles _ _).1 he
        exact Or.inl ⟨c, items, e, h1, h2, h3, hq⟩
      · obtain ⟨qm, c, items, h0, h1, h2, h3⟩ := (mem_stringKeyedQmAddFiles _ _).1 he
        exact Or.inr ⟨qm, c, items, e, h0, h1, h2, h3, hq⟩
    · rintro (⟨c, items, e, h1, h2, h3, hq⟩ | ⟨qm, c, items, e, h0, h1, h2, h3, hq⟩)
      · exact Or.inl ⟨e, (mem_stringKeyedAddFiles _ _).2 ⟨c, items, h1, h2, h3⟩, hq⟩
      · exact Or.inr ⟨e, (mem_stringKeyedQmAddFiles _ _).2 ⟨qm, c, items, h0, h1, h2, h3⟩, hq⟩
  · simp only [findLocalFileReferences, hparse, scanManifest_eq_stringKeyed, stringKeyedLocalRefs,
      List.mem_append, List.mem_filterMap, stringKeyedRef_eq_some_iff]
    rintro (⟨e, he, hq⟩ | ⟨e, he, hq⟩)
    · exact ⟨e, Or.inl (stringKeyedAddFiles_subset _ _ he), qualifies_of_stringKeyed _ _ _ hq⟩
    · exact ⟨e, Or.inr (stringKeyedQmAddFiles_subset _ _ he), qualifies_of_stringKeyed _ _ _ hq⟩

/-- Witness for C1 on the example manifest: the top-level entry `a` is found. -/
theorem findLocalFileReferences_mem_iff_witness :
    (⟨"a", "/src/a"⟩ : FileRef) ∈
      findLocalFileReferences (fun _ => Except.ok exampleManifest) "manifest" :=
  (findLocalFileReferences_mem_iff (fun _ => Except.ok exampleManifest) "manifest"
    exampleManifest rfl "a" "/src/a").1.2
    (Or.inl ⟨_, _, _, rfl, rfl, List.mem_cons_self _ _,
      ⟨_, rfl, rfl, rfl, by decide, by decide⟩⟩)

/-- C2 as stated fails: the `content` mapping of `mixedKeyContentManifest` has
a key that is not a string; its `add_files` sequence holds one qualifying entry,
but the result is empty, so its length is not the number of qualifying
entries. -/
theorem findLocalFileReferences_drops_mixed_keys :
    (contentAddFiles mixedKeyContentManifest).filterMap specRef = [⟨"a", "/src/a"⟩] ∧
      ((contentAddFiles mixedKeyContentManifest).filterMap specRef).length = 1 ∧
      findLocalFileReferences (fun _ => Except.ok mixedKeyContentManifest) "manifest" = [] ∧
      (findLocalFileReferences (fun _ => Except.ok mixedKeyContentManifest)
        "manifest").length = 0 := by
  decide

/-- C2, amended: after a successful parse the result of
`findLocalFileReferences` is the qualifying entries of the top-level
`content.add_files` in their order followed by the qualifying entries of
`qm.content.add_files` in their order, where only mappings with string keys only
count as entries and as the mappings `content` and `qm`; its length is the
number of these qualifying entries (duplicates are kept), and on the example
manifest (top-level `a`, an entry with source `/`, an entry without
`source_path`, nested `b`) the result is exactly `[(a, /src/a), (b, /src/b)]`. -/
theorem findLocalFileReferences_eq_qualifying (unmarshal : String → Except String Mapping)
    (manifestContent : String) (manifestData : Mapping)
    (hparse : unmarshal manifestContent = Except.ok manifestData) :
    findLocalFileReferences unmarshal manifestContent =
        (stringKeyedAddFiles manifestData).filterMap stringKeyedRef ++
          (stringKeyedQmAddFiles manifestData).filterMap stringKeyedRef ∧
      (findLocalFileReferences unmarshal manifestContent).length =
        (stringKeyedAddFiles manifestData).countP (fun e => (stringKeyedRef e).isSome) +
          (stringKeyedQmAddFiles manifestData).countP (fun e => (stringKeyedRef e).isSome) ∧
      findLocalFileReferences (fun _ => Except.ok exampleManifest) manifestContent =
        [⟨"a", "/src/a"⟩, ⟨"b", "/src/b"⟩] := by
  refine ⟨?_, ?_, ?_⟩
  · simp only [findLocalFileReferences, hparse, scanManifest_eq_stringKeyed, stringKeyedLocalRefs]
  · simp only [findLocalFileReferences, hparse, scanManifest_eq_stringKeyed, stringKeyedLocalRefs,
      List.length_append, length_filterMap_stringKeyedRef]
  · simp only [findLocalFileReferences]
    decide

/-- Witness for C2: a manifest whose two sequences hold the same entry twice
each keeps all four references. -/
theorem findLocalFileReferences_eq_qualifying_witness :
    findLocalFileReferences (fun _ => Except.ok duplicateManifest) "manifest" =
      [⟨"a", "/src/a"⟩, ⟨"a", "/src/a"⟩, ⟨"a", "/src/a"⟩, ⟨"a", "/src/a"⟩] :=
  (findLocalFileReferences_eq_qualifying (fun _ => Except.ok duplicateManifest) "manifest"
    duplicateManifest rfl).1.trans (by decide)

/-! ### The completion wait -/

theorem buildCondition_nonterminal (st : WaitState) (b : ImageBuild) (hb : ¬ Terminal b) :
    buildCondition st (Except.ok b) = (stepState st b, Except.ok false) := by
  have h1 : b.Status.Phase ≠ "Completed" := fun h => hb (Or.inl h)
  have h2 : b.Status.Phase ≠ "Failed" := fun h => hb (Or.inr h)
  simp only [buildCondition, h1, h2, if_false, stepState, pollMark, phaseMessage]
  by_cases hc : b.Status.Phase ≠ st.lastPhase ∨ b.Status.Message ≠ st.lastMessage
  · have : (b.Status.Phase, b.Status.Message) ≠ (st.lastPhase, st.lastMessage) := by
      intro h
      simp only [Prod.mk.injEq] at h
      rcases hc with hc | hc
      · exact hc h.1
      · exact hc h.2
    simp [hc, this]
  · have hc2 : b.Status.Phase = st.lastPhase ∧ b.Status.Message = st.lastMessage := by
      constructor
      · by_contra h
        exact hc (Or.inl h)
      · by_contra h
        exact hc (Or.inr h)
    simp [hc2.1, hc2.2]

theorem buildCondition_completed (st : WaitState) (b : ImageBuild)
    (hb : b.Status.Phase = "Completed") :
    ∃ o, buildCondition st (Except.ok b) =
      ({ completedBuild := some b, lastPhase := st.lastPhase, lastMessage := st.lastMessage,
         out := o, gets := st.gets + 1 }, Except.ok true) := by
  by_cases hc : b.Status.Phase ≠ st.lastPhase ∨ b.Status.Message ≠ st.lastMessage
  · exact ⟨_, by simp only [buildCondition, hb, if_true]; rw [if_pos (hb ▸ hc)]⟩
  · exact ⟨_, by simp only [buildCondition, hb, if_true]; rw [if_neg (hb ▸ hc)]⟩

theorem buildCondition_failed (st : WaitState) (b : ImageBuild)
    (hb : b.Status.Phase = "Failed") :
    buildCondition st (Except.ok b) =
      ({ completedBuild := some b, lastPhase := st.lastPhase, lastMessage := st.lastMessage,
         out := st.out ++ ["\n"], gets := st.gets + 1 },
        Except.error ("build failed: " ++ b.Status.Message)) := by
  have hne : ¬ ("Failed" = "Completed") := by decide
  simp [buildCondition, hb, hne]

theorem poll_nonterminal_prefix (pre : List ImageBuild) (hpre : ∀ x ∈ pre, ¬ Terminal x)
    (st : WaitState) (rest : List (Except String ImageBuild)) :
    pollUntilContextTimeout buildCondition st (pre.map Except.ok ++ rest) =
      pollUntilContextTimeout buildCondition (pre.foldl stepState st) rest := by
  induction pre generalizing st with
  | nil => rfl
  | cons x xs ih =>
    have hx : ¬ Terminal x := hpre x (List.mem_cons_self _ _)
    have hxs : ∀ y ∈ xs, ¬ Terminal y := fun y hy => hpre y (List.mem_cons_of_mem _ hy)
    simp only [List.map_cons, List.cons_append, pollUntilContextTimeout,
      buildCondition_nonterminal st x hx, List.foldl_cons]
    exact ih hxs (stepState st x)

theorem foldl_stepState_gets (pre : List ImageBuild) (st : WaitState) :
    (pre.foldl stepState st).gets = st.gets + pre.length := by
  induction pre generalizing st with
  | nil => rfl
  | cons x xs ih =>
    simp only [List.foldl_cons, ih, List.length_cons, stepState]
    omega

theorem foldl_stepState_out (pre : List ImageBuild) (st : WaitState) :
    (pre.foldl stepState st).out =
      st.out ++ pollMarks (st.lastPhase, st.lastMessage) (pre.map phaseMessage) := by
  induction pre generalizing st with
  | nil => simp [pollMarks]
  | cons x xs ih =>
    simp only [List.foldl_cons, ih, List.map_cons, pollMarks, stepState, phaseMessage,
      List.append_assoc, List.singleton_append]

theorem foldl_stepState_build (pre : List ImageBuild) (st : WaitState) (last : ImageBuild)
    (h : pre.getLast? = some last) :
    (pre.foldl stepState st).completedBuild = some last := by
  induction pre generalizing st with
  | nil => simp at h
  | cons x xs ih =>
    cases xs with
    | nil =>
      simp only [List.getLast?_singleton, Option.some.injEq] at h
      simp [stepState, h]
    | cons y ys =>
      rw [List.getLast?_cons_cons] at h
      rw [List.foldl_cons]
      exact ih (stepState st x) h

theorem take_prefix_terminal (n : Nat) (pre : List ImageBuild) (b : ImageBuild)
    (post : List (Except String ImageBuild)) (hn : pre.length < n) :
    (pre.map Except.ok ++ Except.ok b :: post).take n =
      pre.map Except.ok ++ Except.ok b :: post.take (n - pre.length - 1) := by
  rw [List.take_append_eq_append_take, List.take_of_length_le (by simp; omega)]
  simp only [List.length_map]
  obtain ⟨k, hk⟩ : ∃ k, n - pre.length = k + 1 := ⟨n - pre.length - 1, by omega⟩
  rw [hk, List.take_succ_cons]
  simp

/-- C3: when the builds fetched before the first terminal one are all
non-terminal and that terminal build is reached before the deadline,
`waitForBuildCompletion` issues no request after it and returns it: with no
error when its phase is `Completed`, with the error `build failed: ` followed
by its unmodified status message when its phase is `Failed`. -/
theorem waitForBuildCompletion_first_terminal (timeoutMinutes : Int) (pre : List ImageBuild)
    (b : ImageBuild) (post : List (Except String ImageBuild))
    (hpre : ∀ x ∈ pre, ¬ Terminal x) (hb : Terminal b)
    (hdeadline : pre.length < maxTicks timeoutMinutes) :
    (waitForBuildCompletion timeoutMinutes
        (pre.map Except.ok ++ Except.ok b :: post)).gets = pre.length + 1 ∧
      (waitForBuildCompletion timeoutMinutes
        (pre.map Except.ok ++ Except.ok b :: post)).build = some b ∧
      (b.Status.Phase = "Completed" →
        (waitForBuildCompletion timeoutMinutes
          (pre.map Except.ok ++ Except.ok b :: post)).err = none) ∧
      (b.Status.Phase = "Failed" →
        (waitForBuildCompletion timeoutMinutes
          (pre.map Except.ok ++ Except.ok b :: post)).err =
            some ("build failed: " ++ b.Status.Message)) := by
  simp only [waitForBuildCompletion, take_prefix_terminal _ pre b post hdeadline,
    poll_nonterminal_prefix pre hpre, pollUntilContextTimeout]
  have hg := foldl_stepState_gets pre
    { completedBuild := none, lastPhase := "", lastMessage := "", out := [], gets := 0 }
  generalize pre.foldl stepState
    { completedBuild := none, lastPhase := "", lastMessage := "", out := [], gets := 0 } = st at hg
  rcases hb with hc | hf
  · obtain ⟨o, ho⟩ := buildCondition_completed st b hc
    have hne : b.Status.Phase ≠ "Failed" := by
      rw [hc]
      decide
    simp [ho, hg, hne]
  · have hne : b.Status.Phase ≠ "Completed" := by
      rw [hf]
      decide
    simp [buildCondition_failed st b hf, hg, hne]

/-- Witness for C3: two `Running` polls, then `Failed` with message `boom`,
then a poll that is never made. -/
theorem waitForBuildCompletion_first_terminal_witness :
    (waitForBuildCompletion 1
        ([buildWith "Running" "x", buildWith "Running" "y"].map Except.ok ++
          Except.ok (buildWith "Failed" "boom") :: [Except.ok (buildWith "Completed" "")])).gets
        = 3 ∧
      (waitForBuildCompletion 1
        ([buildWith "Running" "x", buildWith "Running" "y"].map Except.ok ++
          Except.ok (buildWith "Failed" "boom") :: [Except.ok (buildWith "Completed" "")])).err
        = some "build failed: boom" :=
  have h := waitForBuildCompletion_first_terminal 1
    [buildWith "Running" "x", buildWith "Running" "y"] (buildWith "Failed" "boom")
    [Except.ok (buildWith "Completed" "")] (by decide) (by decide) (by decide)
  ⟨h.1, h.2.2.2 rfl⟩

theorem poll_all_nonterminal (bs : List ImageBuild) (hbs : ∀ x ∈ bs, ¬ Terminal x)
    (st : WaitState) :
    pollUntilContextTimeout buildCondition st (bs.map Except.ok) =
      (bs.foldl stepState st, some deadlineExceeded) := by
  have h := poll_nonterminal_prefix bs hbs st []
  simpa [pollUntilContextTimeout] using h

/-- C4 (as stated, refuted): with a timeout of 0 minutes the deadline has passed
before the first tick, so although the build is `Running` and never terminal,
the wait returns the timeout error together with a nil object. -/
theorem waitForBuildCompletion_timeout_nil :
    (waitForBuildCompletion 0 [Except.ok (buildWith "Running" "building")]).err =
        some deadlineExceeded ∧
      (waitForBuildCompletion 0 [Except.ok (buildWith "Running" "building")]).build = none ∧
      ¬ Terminal (buildWith "Running" "building") := by
  decide

/-- C4 (amended): when every status fetched before the deadline is non-terminal
and at least one status was fetched, `waitForBuildCompletion` returns the timeout
error together with the last status it fetched, which is not nil. -/
theorem waitForBuildCompletion_timeout_last (timeoutMinutes : Int) (bs : List ImageBuild)
    (last : ImageBuild) (hbs : ∀ x ∈ bs, ¬ Terminal x)
    (hlast : (bs.take (maxTicks timeoutMinutes)).getLast? = some last) :
    (waitForBuildCompletion timeoutMinutes (bs.map Except.ok)).err = some deadlineExceeded ∧
      (waitForBuildCompletion timeoutMinutes (bs.map Except.ok)).build = some last ∧
      (waitForBuildCompletion timeoutMinutes (bs.map Except.ok)).build ≠ none := by
  have htake : ∀ x ∈ bs.take (maxTicks timeoutMinutes), ¬ Terminal x :=
    fun x hx => hbs x (List.mem_of_mem_take hx)
  simp only [waitForBuildCompletion, ← List.map_take, poll_all_nonterminal _ htake,
    foldl_stepState_build _ _ last hlast]
  simp

/-- Witness for C4 (amended): one minute of `Running` polls. -/
theorem waitForBuildCompletion_timeout_last_witness :
    (waitForBuildCompletion 1
        ([buildWith "Pending" "", buildWith "Running" "step 1"].map Except.ok)).build =
      some (buildWith "Running" "step 1") :=
  (waitForBuildCompletion_timeout_last 1 [buildWith "Pending" "", buildWith "Running" "step 1"]
    (buildWith "Running" "step 1") (by decide) (by decide)).2.1

/-- C5 (as stated, refuted): a freshly created build reports the empty phase
and the empty message; two consecutive polls of it print two continuation
markers and no status line. -/
theorem waitForBuildCompletion_empty_status_marks :
    (waitForBuildCompletion 1 [Except.ok (buildWith "" ""), Except.ok (buildWith "" "")]).out =
        [".", ".", "\n"] ∧
      ¬ Terminal (buildWith "" "") ∧
      statusLine "" "" ∉
        (waitForBuildCompletion 1
          [Except.ok (buildWith "" ""), Except.ok (buildWith "" "")]).out := by
  decide

theorem pollMarks_length (prev : String × String) (l : List (String × String)) :
    (pollMarks prev l).length = l.length := by
  induction l generalizing prev with
  | nil => rfl
  | cons x xs ih => simp [pollMarks, ih]

theorem foldl_stepState_last (pre : List ImageBuild) (st : WaitState) :
    ((pre.foldl stepState st).lastPhase, (pre.foldl stepState st).lastMessage) =
      (pre.map phaseMessage).getLast?.getD (st.lastPhase, st.lastMessage) := by
  induction pre generalizing st with
  | nil => rfl
  | cons x xs ih =>
    rw [List.foldl_cons, ih (stepState st x)]
    cases xs with
    | nil => simp [stepState, phaseMessage]
    | cons y ys =>
      simp only [List.map_cons, List.getLast?_cons_cons]
      cases hl : (phaseMessage y :: ys.map phaseMessage).getLast? with
      | none => simp at hl
      | some last => rfl

theorem take_nonterminal_run (n : Nat) (pre : List ImageBuild)
    (rest : List (Except String ImageBuild)) (hn : pre.length ≤ n) :
    (pre.map Except.ok ++ rest).take n = pre.map Except.ok ++ rest.take (n - pre.length) := by
  rw [List.take_append_eq_append_take, List.take_of_length_le (by simpa using hn)]
  simp

/-- The wait after a run of non-terminal polls made before the deadline: the
rest of the polls is served from the state that the run leaves. -/
theorem waitForBuildCompletion_after_run (timeoutMinutes : Int) (pre : List ImageBuild)
    (rest : List (Except String ImageBuild)) (hpre : ∀ x ∈ pre, ¬ Terminal x)
    (hn : pre.length ≤ maxTicks timeoutMinutes) :
    (waitForBuildCompletion timeoutMinutes (pre.map Except.ok ++ rest)).out =
      (pollUntilContextTimeout buildCondition
        (pre.foldl stepState
          { completedBuild := none, lastPhase := "", lastMessage := "", out := [], gets := 0 })
        (rest.take (maxTicks timeoutMinutes - pre.length))).1.out ++ ["\n"] := by
  simp only [waitForBuildCompletion, take_nonterminal_run _ pre rest hn,
    poll_nonterminal_prefix pre hpre]

theorem buildCondition_out_extends (st : WaitState) (got : Except String ImageBuild) :
    ∃ tail, (buildCondition st got).1.out = st.out ++ tail := by
  unfold buildCondition
  cases got with
  | error e => exact ⟨[], by simp⟩
  | ok b =>
    simp only
    split
    · split
      · exact ⟨_, rfl⟩
      · exact ⟨[], by simp⟩
    · split
      · exact ⟨_, rfl⟩
      · split
        · exact ⟨_, rfl⟩
        · exact ⟨_, rfl⟩

theorem poll_out_extends (polls : List (Except String ImageBuild)) (st : WaitState) :
    ∃ tail, (pollUntilContextTimeout buildCondition st polls).1.out = st.out ++ tail := by
  induction polls generalizing st with
  | nil => exact ⟨[], by simp [pollUntilContextTimeout]⟩
  | cons r rest ih =>
    obtain ⟨t1, h1⟩ := buildCondition_out_extends st r
    unfold pollUntilContextTimeout
    cases hc : buildCondition st r with
    | mk st1 res =>
      rw [hc] at h1
      simp only at h1
      cases res with
      | error e => exact ⟨t1, h1⟩
      | ok done =>
        cases done with
        | true => exact ⟨t1, h1⟩
        | false =>
          obtain ⟨t2, h2⟩ := ih st1
          exact ⟨t1 ++ t2, by simp only [h2, h1, List.append_assoc]⟩

theorem pollMarks_append (prev : String × String) (l1 l2 : List (String × String)) :
    pollMarks prev (l1 ++ l2) = pollMarks prev l1 ++ pollMarks (l1.getLast?.getD prev) l2 := by
  induction l1 generalizing prev with
  | nil => rfl
  | cons x xs ih =>
    show pollMark prev x :: pollMarks x (xs ++ l2) = _
    rw [ih x, List.getLast?_cons]
    rfl

/-- C5 (amended): in every wait, over a run `pre` of non-terminal polls made
before the deadline, whatever follows it, a poll prints a status line exactly
when its (phase, message) differs from that of the poll before it, the first
poll being compared with the empty phase and empty message, and prints the
continuation marker otherwise.  What follows the marks of the run is pinned for
each way in which the wait can end: a newline at the deadline and after a
failed request, two newlines after a `Failed` build, and after a `Completed`
build a status line when its (phase, message) differs from that of the poll
before it, then a newline.  In particular two consecutive polls of the same
status, when it differs from that of the poll before them (from the empty
status, for the first two polls of a wait), print one status line and one
marker. -/
theorem waitForBuildCompletion_out (timeoutMinutes : Int) (pre : List ImageBuild)
    (hpre : ∀ x ∈ pre, ¬ Terminal x) :
    (∀ rest : List (Except String ImageBuild), pre.length ≤ maxTicks timeoutMinutes →
        (waitForBuildCompletion timeoutMinutes (pre.map Except.ok ++ rest)).out.take pre.length =
          pollMarks ("", "") (pre.map phaseMessage)) ∧
      (∀ rest : List (Except String ImageBuild),
        rest.take (maxTicks timeoutMinutes - pre.length) = [] →
        (waitForBuildCompletion timeoutMinutes (pre.map Except.ok ++ rest)).out =
          pollMarks ("", "") ((pre.take (maxTicks timeoutMinutes)).map phaseMessage) ++
            ["\n"]) ∧
      (∀ (e : String) (post : List (Except String ImageBuild)),
        pre.length < maxTicks timeoutMinutes →
        (waitForBuildCompletion timeoutMinutes
          (pre.map Except.ok ++ Except.error e :: post)).out =
          pollMarks ("", "") (pre.map phaseMessage) ++ ["\n"]) ∧
      (∀ (b : ImageBuild) (post : List (Except String ImageBuild)),
        b.Status.Phase = "Failed" → pre.length < maxTicks timeoutMinutes →
        (waitForBuildCompletion timeoutMinutes
          (pre.map Except.ok ++ Except.ok b :: post)).out =
          pollMarks ("", "") (pre.map phaseMessage) ++ ["\n", "\n"]) ∧
      (∀ (b : ImageBuild) (post : List (Except String ImageBuild)),
        b.Status.Phase = "Completed" → pre.length < maxTicks timeoutMinutes →
        (waitForBuildCompletion timeoutMinutes
          (pre.map Except.ok ++ Except.ok b :: post)).out =
          pollMarks ("", "") (pre.map phaseMessage) ++
            (if phaseMessage b ≠ (pre.map phaseMessage).getLast?.getD ("", "") then
              [statusLine b.Status.Phase b.Status.Message] else []) ++ ["\n"]) ∧
      (∀ (b : ImageBuild) (rest : List (Except String ImageBuild)),
        ¬ Terminal b → phaseMessage b ≠ (pre.map phaseMessage).getLast?.getD ("", "") →
        pre.length + 2 ≤ maxTicks timeoutMinutes →
        ((waitForBuildCompletion timeoutMinutes
          (pre.map Except.ok ++ Except.ok b :: Except.ok b :: rest)).out.drop pre.length).take 2 =
          [statusLine b.Status.Phase b.Status.Message, "."]) := by
  have hmarks : ∀ (cs : List ImageBuild), (∀ x ∈ cs, ¬ Terminal x) →
      ∀ rest : List (Except String ImageBuild), cs.length ≤ maxTicks timeoutMinutes →
      (waitForBuildCompletion timeoutMinutes (cs.map Except.ok ++ rest)).out.take cs.length =
        pollMarks ("", "") (cs.map phaseMessage) := by
    intro cs hcs rest hn
    rw [waitForBuildCompletion_after_run timeoutMinutes cs rest hcs hn]
    obtain ⟨tail, htail⟩ := poll_out_extends
      (rest.take (maxTicks timeoutMinutes - cs.length))
      (cs.foldl stepState
        { completedBuild := none, lastPhase := "", lastMessage := "", out := [], gets := 0 })
    rw [htail, foldl_stepState_out]
    simp only [List.nil_append, List.append_assoc]
    rw [List.take_append_of_le_length (by simp [pollMarks_length]),
      List.take_of_length_le (by simp [pollMarks_length])]
  have hstep : ∀ (post : List (Except String ImageBuild)) (r : Except String ImageBuild),
      pre.length < maxTicks timeoutMinutes →
      (r :: post).take (maxTicks timeoutMinutes - pre.length) =
        r :: post.take (maxTicks timeoutMinutes - pre.length - 1) := by
    intro post r hn
    obtain ⟨k, hk⟩ : ∃ k, maxTicks timeoutMinutes - pre.length = k + 1 :=
      ⟨maxTicks timeoutMinutes - pre.length - 1, by omega⟩
    rw [hk, List.take_succ_cons]
    simp
  refine ⟨hmarks pre hpre, ?_, ?_, ?_, ?_, ?_⟩
  · intro rest hrest
    have htake : (pre.map Except.ok ++ rest).take (maxTicks timeoutMinutes) =
        (pre.take (maxTicks timeoutMinutes)).map Except.ok := by
      rw [List.take_append_eq_append_take, List.length_map, hrest, List.append_nil,
        List.map_take]
    have hnt : ∀ x ∈ pre.take (maxTicks timeoutMinutes), ¬ Terminal x :=
      fun x hx => hpre x (List.mem_of_mem_take hx)
    simp only [waitForBuildCompletion, htake, poll_all_nonterminal _ hnt, foldl_stepState_out]
    simp
  · intro e post hn
    rw [waitForBuildCompletion_after_run timeoutMinutes pre _ hpre (by omega),
      hstep post _ hn]
    simp [pollUntilContextTimeout, buildCondition, foldl_stepState_out]
  · intro b post hb hn
    rw [waitForBuildCompletion_after_run timeoutMinutes pre _ hpre (by omega),
      hstep post _ hn]
    simp [pollUntilContextTimeout, buildCondition_failed _ b hb, foldl_stepState_out]
  · intro b post hb hn
    rw [waitForBuildCompletion_after_run timeoutMinutes pre _ hpre (by omega),
      hstep post _ hn]
    have hlast := foldl_stepState_last pre
      { completedBuild := none, lastPhase := "", lastMessage := "", out := [], gets := 0 }
    have hout := foldl_stepState_out pre
      { completedBuild := none, lastPhase := "", lastMessage := "", out := [], gets := 0 }
    simp only [List.nil_append] at hout
    rw [← hlast]
    generalize pre.foldl stepState
      { completedBuild := none, lastPhase := "", lastMessage := "", out := [], gets := 0 } = st
      at hout ⊢
    simp only [pollUntilContextTimeout, buildCondition, hb, if_true]
    by_cases hc : "Completed" ≠ st.lastPhase ∨ b.Status.Message ≠ st.lastMessage
    · have hne : phaseMessage b ≠ (st.lastPhase, st.lastMessage) := by
        intro h
        simp only [phaseMessage, hb, Prod.mk.injEq] at h
        rcases hc with hc | hc
        · exact hc h.1
        · exact hc h.2
      rw [if_pos hc, if_pos hne]
      simp [hout]
    · have heq : phaseMessage b = (st.lastPhase, st.lastMessage) := by
        simp only [phaseMessage, hb, Prod.mk.injEq]
        constructor
        · by_contra h
          exact hc (Or.inl h)
        · by_contra h
          exact hc (Or.inr h)
      rw [if_neg hc, if_neg (not_not.2 heq)]
      simp [hout]
  · intro b rest hb hne hticks
    have hall : ∀ x ∈ pre ++ [b, b], ¬ Terminal x := by
      intro x hx
      rcases List.mem_append.1 hx with h | h
      · exact hpre x h
      · simp only [List.mem_cons, List.mem_singleton, List.not_mem_nil, or_false, or_self] at h
        rw [h]
        exact hb
    have h := hmarks (pre ++ [b, b]) hall rest (by simpa using hticks)
    have hlist : (pre ++ [b, b]).map Except.ok ++ rest =
        pre.map Except.ok ++ Except.ok b :: Except.ok b :: rest := by simp
    rw [hlist] at h
    rw [List.map_append, pollMarks_append] at h
    have htail : pollMarks ((pre.map phaseMessage).getLast?.getD ("", ""))
        ([b, b].map phaseMessage) = [statusLine b.Status.Phase b.Status.Message, "."] := by
      simp only [List.map_cons, List.map_nil, pollMarks, pollMark]
      rw [if_pos hne]
      simp [phaseMessage]
    rw [htail] at h
    have hdrop := congrArg (List.drop pre.length) h
    rw [List.drop_left' (by simp [pollMarks_length]), List.drop_take] at hdrop
    simpa using hdrop

/-- Witness for C5 (amended): `Running`, `Running`, a changed message, then
`Completed` with a new message. -/
theorem waitForBuildCompletion_out_witness :
    (waitForBuildCompletion 1
        ([buildWith "Running" "a", buildWith "Running" "a", buildWith "Running" "b"].map
          Except.ok ++ Except.ok (buildWith "Completed" "done") :: [])).out =
      ["\nstatus: Running - a\n", ".", "\nstatus: Running - b\n",
        "\nstatus: Completed - done\n", "\n"] :=
  ((waitForBuildCompletion_out 1
    [buildWith "Running" "a", buildWith "Running" "a", buildWith "Running" "b"]
    (by decide)).2.2.2.2.1 (buildWith "Completed" "done") [] rfl (by decide)).trans (by decide)

/-! ### Transfers -/

theorem copyFromPod_calls (env : Env) (w : World)
    (ns podName containerName localPath podPath : String) :
    ∃ extra, (copyFromPod env w ns podName containerName localPath podPath).1.calls =
        w.calls ++ extra ∧ ∀ c ∈ extra, c.command.getLast? = some podPath := by
  have one : ∃ extra, w.calls ++ [plainCall ns podName containerName
      ["stat", "-c", "%s", podPath]] = w.calls ++ extra ∧
      ∀ c ∈ extra, c.command.getLast? = some podPath :=
    ⟨[plainCall ns podName containerName ["stat", "-c", "%s", podPath]], rfl,
      by simp [plainCall]⟩
  have two : ∃ extra, w.calls ++ [plainCall ns podName containerName
      ["stat", "-c", "%s", podPath]] ++ [plainCall ns podName containerName
      ["cat", podPath]] = w.calls ++ extra ∧
      ∀ c ∈ extra, c.command.getLast? = some podPath :=
    ⟨[plainCall ns podName containerName ["stat", "-c", "%s", podPath],
      plainCall ns podName containerName ["cat", podPath]], by simp,
      by simp [plainCall]⟩
  unfold copyFromPod
  simp only [stream]
  split
  · exact ⟨[], by simp⟩
  · split
    · exact one
    · split
      · exact one
      · split
        · exact one
        · split
          · rename_i h _
            simp_all
          · split
            · exact two
            · split
              · split
                · exact two
                · exact two
              · exact two

theorem copyFile_download_calls (env : Env) (w : World)
    (ns podName containerName localPath podPath : String) :
    ∃ extra, (copyFile env w ns podName containerName localPath podPath false).1.calls =
        w.calls ++ extra ∧ ∀ c ∈ extra, c.command.getLast? = some podPath := by
  unfold copyFile
  cases env.clientsetErr with
  | some e => exact ⟨[], by simp⟩
  | none => simpa using copyFromPod_calls env w ns podName containerName localPath podPath

/-- C7: the artifact file name that `downloadArtifacts` uses is the name in the
status when that is non-empty, and otherwise `<distro>-<target>.<ext>` with
`ext` equal to `raw` for the export format `image`, `qcow2` for `qcow2`, and the
export format itself in every other case; every remote command that
`downloadArtifacts` runs addresses `/workspace/shared/` followed by that name. -/
theorem downloadArtifacts_file_name (env : Env) (denv : DownloadEnv) (w : World)
    (outputDir : String) (imageBuild : ImageBuild) :
    artifactFileName imageBuild =
        (if imageBuild.Status.ArtifactFileName ≠ "" then imageBuild.Status.ArtifactFileName
         else imageBuild.Spec.Distro ++ "-" ++ imageBuild.Spec.Target ++ "." ++
           specExtension imageBuild.Spec.ExportFormat) ∧
      ∃ extra, (downloadArtifacts env denv w outputDir imageBuild).1.calls = w.calls ++ extra ∧
        ∀ c ∈ extra, c.command.getLast? =
          some ("/workspace/shared/" ++ artifactFileName imageBuild) := by
  constructor
  · unfold artifactFileName specExtension
    by_cases h : imageBuild.Status.ArtifactFileName = ""
    · simp only [h, if_true, ne_eq, not_true_eq_false, if_false]
      by_cases h1 : imageBuild.Spec.ExportFormat = "image"
      · simp only [h1, if_true, String.append_assoc]
        rfl
      · by_cases h2 : imageBuild.Spec.ExportFormat = "qcow2"
        · simp only [h2, if_true, String.append_assoc]
          rfl
        · simp only [h1, h2, if_false, String.append_assoc]
    · simp [h]
  · unfold downloadArtifacts
    split
    · exact ⟨[], by simp⟩
    · split
      · exact ⟨[], by simp⟩
      · split
        · exact ⟨[], by simp⟩
        · exact ⟨[], by simp⟩
        · split
          · exact ⟨[], by simp⟩
          · rename_i artifactPod tl _ _ _
            obtain ⟨extra, h1, h2⟩ := copyFile_download_calls env w imageBuild.Namespace
              artifactPod.Name "fileserver" (filepathJoin outputDir (artifactFileName imageBuild))
              ("/workspace/shared/" ++ artifactFileName imageBuild)
            refine ⟨extra, ?_, h2⟩
            rw [← h1]
            simp only []
            generalize copyFile env w imageBuild.Namespace artifactPod.Name "fileserver"
              (filepathJoin outputDir (artifactFileName imageBuild))
              ("/workspace/shared/" ++ artifactFileName imageBuild) false = x
            rcases x with ⟨w1, _ | e⟩ <;> rfl

theorem tarWriter_single (h : TarHeader) (data : Bytes) (hsize : h.Size = data.length)
    (hname : h.Name.data.getLast? ≠ some '/' ∨ data = []) :
    (TarWriter.new.WriteHeader h = Except.ok { entries := [⟨h, []⟩], remaining := data.length }) ∧
      ((({ entries := [⟨h, []⟩], remaining := data.length } : TarWriter).Write data) =
        Except.ok { entries := [⟨h, data⟩], remaining := 0 }) ∧
      (({ entries := [⟨h, data⟩], remaining := 0 } : TarWriter).Close =
        Except.ok [⟨h, data⟩]) := by
  refine ⟨?_, ?_, ?_⟩
  · rcases hname with hname | hname
    · simp [TarWriter.new, TarWriter.WriteHeader, hsize, hname]
    · subst hname
      by_cases hs : h.Name.data.getLast? = some '/'
      · simp [TarWriter.new, TarWriter.WriteHeader, hs]
      · simp [TarWriter.new, TarWriter.WriteHeader, hsize, hs]
  · simp [TarWriter.Write, appendToLast]
  · simp [TarWriter.Close]

theorem copyToPod_eq (env : Env) (w : World)
    (ns podName containerName localPath podPath : String) (content : Bytes) (info : FileMeta)
    (hread : w.fs.read localPath = some content) (hstat : env.stat localPath = Except.ok info)
    (hname : (filepathBase podPath).data.getLast? ≠ some '/' ∨ content = []) :
    copyToPod env w ns podName containerName localPath podPath =
      match execInPod env w ns podName containerName ["mkdir", "-p", filepathDir podPath] with
      | (w, some e) => (w, some ("error creating destination directory: " ++ e))
      | (w, none) =>
        match env.executorErr with
        | some e => (w, some ("error creating SPDY executor: " ++ e))
        | none =>
          match (env.exec w.calls
              (tarCall ns podName containerName (filepathDir podPath)
                [⟨⟨filepathBase podPath, content.length, info.mode, info.modTime⟩,
                  content⟩])).err with
          | some e =>
            ({ w with calls := w.calls ++ [tarCall ns podName containerName (filepathDir podPath)
                [⟨⟨filepathBase podPath, content.length, info.mode, info.modTime⟩, content⟩]] },
              some ("exec error: " ++ e ++ ", stderr: " ++ (env.exec w.calls
              (tarCall ns podName containerName (filepathDir podPath)
                [⟨⟨filepathBase podPath, content.length, info.mode, info.modTime⟩,
                  content⟩])).stderr))
          | none =>
            ({ w with calls := w.calls ++ [tarCall ns podName containerName (filepathDir podPath)
                [⟨⟨filepathBase podPath, content.length, info.mode, info.modTime⟩, content⟩]] },
              none) := by
  obtain ⟨h1, h2, h3⟩ := tarWriter_single
    ⟨filepathBase podPath, content.length, info.mode, info.modTime⟩ content rfl hname
  simp only [copyToPod, hread, hstat, h1, h2, h3, stream]

/-- A destination whose base name ends in a slash gives a directory header, and
the bytes of a non-empty file cannot be written after it. -/
theorem copyToPod_directory_header (env : Env) (w : World)
    (ns podName containerName localPath podPath : String) (content : Bytes) (info : FileMeta)
    (hread : w.fs.read localPath = some content) (hstat : env.stat localPath = Except.ok info)
    (hname : ¬ ((filepathBase podPath).data.getLast? ≠ some '/' ∨ content = [])) :
    copyToPod env w ns podName containerName localPath podPath =
      (w, some "error copying file data to tar: archive/tar: write too long") := by
  have h1 : (filepathBase podPath).data.getLast? = some '/' := by
    by_contra h
    exact hname (Or.inl h)
  have h2 : 0 < content.length := by
    cases content with
    | nil => exact absurd (Or.inr rfl) hname
    | cons c cs => simp
  simp [copyToPod, hread, hstat, TarWriter.new, TarWriter.WriteHeader, TarWriter.Write, h1, h2]

theorem execInPod_cases (env : Env) (w : World) (ns podName containerName : String)
    (command : List String) :
    (∃ e, execInPod env w ns podName containerName command = (w, some e)) ∨
      (∃ e, execInPod env w ns podName containerName command =
        ({ w with calls := w.calls ++ [plainCall ns podName containerName command] },
          some e) ∧ env.executorErr = none) ∨
      (execInPod env w ns podName containerName command =
        ({ w with calls := w.calls ++ [plainCall ns podName containerName command] },
          none) ∧ env.executorErr = none ∧
        (env.exec w.calls (plainCall ns podName containerName command)).err = none) := by
  unfold execInPod
  cases h1 : env.clientsetErr with
  | some e => exact Or.inl ⟨_, rfl⟩
  | none =>
    cases h2 : env.executorErr with
    | some e => exact Or.inl ⟨_, rfl⟩
    | none =>
      simp only [stream]
      cases h3 : (env.exec w.calls (plainCall ns podName containerName command)).err with
      | some e => exact Or.inr (Or.inl ⟨_, rfl, trivial⟩)
      | none => exact Or.inr (Or.inr ⟨rfl, trivial, rfl⟩)

theorem upload_calls_archive (ns podName containerName podPath : String) (content : Bytes)
    (info : FileMeta) :
    ∀ c ∈ [plainCall ns podName containerName ["mkdir", "-p", filepathDir podPath],
        tarCall ns podName containerName (filepathDir podPath)
          [⟨⟨filepathBase podPath, content.length, info.mode, info.modTime⟩, content⟩]],
      ∀ archive, c.stdin = some archive →
        c.command = ["tar", "-xf", "-", "-C", filepathDir podPath] ∧
        ∃ header, archive = [⟨header, content⟩] ∧ header.Name = filepathBase podPath ∧
          header.Size = content.length := by
  intro c hc archive harch
  simp only [List.mem_cons, List.mem_singleton, List.not_mem_nil, or_false] at hc
  rcases hc with rfl | rfl
  · simp [plainCall] at harch
  · simp only [tarCall, Option.some.injEq] at harch
    subst harch
    exact ⟨rfl, _, rfl, rfl, rfl⟩

/-- C10: an upload of a readable local file runs at most two remote commands:
`mkdir -p` of the directory part of the destination path and then the
extraction `tar -xf - -C` in that same directory.  The extraction is the only
command with standard input, and its archive has exactly one entry, named by
the base name of the destination path, of the size of the local file, whose
data is the content of the file; a successful upload has run both commands. -/
theorem copyFile_upload_archive (env : Env) (w : World)
    (ns podName containerName localPath podPath : String) (content : Bytes)
    (hread : w.fs.read localPath = some content) :
    (∃ extra, (copyFile env w ns podName containerName localPath podPath true).1.calls =
        w.calls ++ extra ∧
      ∀ c ∈ extra, ∀ archive, c.stdin = some archive →
        c.command = ["tar", "-xf", "-", "-C", filepathDir podPath] ∧
        ∃ header, archive = [⟨header, content⟩] ∧ header.Name = filepathBase podPath ∧
          header.Size = content.length) ∧
      ((copyFile env w ns podName containerName localPath podPath true).2 = none →
        ∃ info, env.stat localPath = Except.ok info ∧
          (copyFile env w ns podName containerName localPath podPath true).1.calls =
            w.calls ++ [plainCall ns podName containerName ["mkdir", "-p", filepathDir podPath],
              tarCall ns podName containerName (filepathDir podPath)
                [⟨⟨filepathBase podPath, content.length, info.mode, info.modTime⟩,
                  content⟩]]) := by
  unfold copyFile
  cases hcs : env.clientsetErr with
  | some e => exact ⟨⟨[], by simp⟩, by simp⟩
  | none =>
    simp only [if_true]
    cases hstat : env.stat localPath with
    | error e =>
      have : copyToPod env w ns podName containerName localPath podPath =
          (w, some ("error getting file stats: " ++ e)) := by
        simp only [copyToPod, hread, hstat]
      rw [this]
      exact ⟨⟨[], by simp⟩, by simp⟩
    | ok info =>
      by_cases hname : (filepathBase podPath).data.getLast? ≠ some '/' ∨ content = []
      · rw [copyToPod_eq env w ns podName containerName localPath podPath content info hread
          hstat hname]
        rcases execInPod_cases env w ns podName containerName
          ["mkdir", "-p", filepathDir podPath] with ⟨e, h⟩ | ⟨e, h, _⟩ | ⟨h, hex, _⟩
        · rw [h]
          exact ⟨⟨[], by simp⟩, by simp⟩
        · rw [h]
          exact ⟨⟨[plainCall ns podName containerName ["mkdir", "-p", filepathDir podPath]],
            rfl, by simp [plainCall]⟩, by simp⟩
        · rw [h]
          simp only [hex]
          have hprop := upload_calls_archive ns podName containerName podPath content info
          split
          · exact ⟨⟨_, by simp, hprop⟩, by simp⟩
          · exact ⟨⟨_, by simp, hprop⟩, fun _ => ⟨info, rfl, by simp⟩⟩
      · rw [copyToPod_directory_header env w ns podName containerName localPath podPath content
          info hread hstat hname]
        exact ⟨⟨[], by simp⟩, by simp⟩

/-- Witness for C10: uploading `files/a.conf` to
`/workspace/shared/files/a.conf`. -/
theorem copyFile_upload_archive_witness :
    (copyFile (scriptedEnv [] []) exampleWorld "default" "upload-pod" "main" "files/a.conf"
        "/workspace/shared/files/a.conf" true).1.calls =
      [plainCall "default" "upload-pod" "main" ["mkdir", "-p", "/workspace/shared/files"],
       tarCall "default" "upload-pod" "main" "/workspace/shared/files"
         [⟨⟨"a.conf", 3, 420, 0⟩, [1, 2, 3]⟩]] := by
  obtain ⟨info, hinfo, h⟩ := (copyFile_upload_archive (scriptedEnv [] []) exampleWorld "default"
    "upload-pod" "main" "files/a.conf" "/workspace/shared/files/a.conf" [1, 2, 3]
    (by decide)).2 (by decide)
  rw [h]
  simp only [scriptedEnv, Except.ok.injEq] at hinfo
  subst hinfo
  decide

theorem read_write (fs : LocalFS) (path : String) (data : Bytes) :
    (fs.write path data).read path = some data := by
  simp [LocalFS.write, LocalFS.read, List.lookup]

theorem copyFile_upload_ok (env : Env) (w : World)
    (ns podName containerName localPath podPath : String)
    (hok : (copyFile env w ns podName containerName localPath podPath true).2 = none) :
    ∃ content info, w.fs.read localPath = some content ∧ env.stat localPath = Except.ok info ∧
      (copyFile env w ns podName containerName localPath podPath true).1 =
        { fs := w.fs,
          calls := w.calls ++
            [plainCall ns podName containerName ["mkdir", "-p", filepathDir podPath],
             tarCall ns podName containerName (filepathDir podPath)
               [⟨⟨filepathBase podPath, content.length, info.mode, info.modTime⟩,
                 content⟩]] } := by
  unfold copyFile at hok ⊢
  cases hcs : env.clientsetErr with
  | some e => simp [hcs] at hok
  | none =>
    simp only [hcs, if_true] at hok ⊢
    cases hread : w.fs.read localPath with
    | none => simp [copyToPod, hread] at hok
    | some content =>
      cases hstat : env.stat localPath with
      | error e => simp [copyToPod, hread, hstat] at hok
      | ok info =>
        refine ⟨content, info, rfl, rfl, ?_⟩
        have hname : (filepathBase podPath).data.getLast? ≠ some '/' ∨ content = [] := by
          by_contra hn
          rw [copyToPod_directory_header env w ns podName containerName localPath podPath
            content info hread hstat hn] at hok
          simp at hok
        rw [copyToPod_eq env w ns podName containerName localPath podPath content info
          hread hstat hname] at hok ⊢
        rcases execInPod_cases env w ns podName containerName
          ["mkdir", "-p", filepathDir podPath] with ⟨e, h⟩ | ⟨e, h, _⟩ | ⟨h, hex, _⟩
        · simp [h] at hok
        · simp [h] at hok
        · rw [h] at hok ⊢
          simp only [hex] at hok ⊢
          split at hok
          · simp at hok
          · rename_i herr
            simp [herr]

theorem uploadFile_ok (env : Env) (w : World) (ns : String) (pod : Pod) (container : String)
    (fileRef : FileRef) (hpod : pod.Containers.head? = some container)
    (hok : (uploadFile env w ns pod fileRef).2 = none) :
    (uploadFile env w ns pod fileRef).1 =
      { fs := w.fs,
        calls := w.calls ++ uploadCallsFor env w.fs ns pod.Name container fileRef } := by
  unfold uploadFile at hok ⊢
  simp only [hpod] at hok ⊢
  by_cases hdir : filepathDir fileRef.source_path ≠ "." ∧ filepathDir fileRef.source_path ≠ "/"
  · rw [if_pos hdir] at hok ⊢
    rcases execInPod_cases env w ns pod.Name container
      ["/bin/sh", "-c", "mkdir -p /workspace/shared/" ++ filepathDir fileRef.source_path]
      with ⟨e, h⟩ | ⟨e, h, _⟩ | ⟨h, _, _⟩
    · simp [h] at hok
    · simp [h] at hok
    · simp only [h] at hok ⊢
      generalize hw1 : ({ fs := w.fs, calls := w.calls ++ [plainCall ns pod.Name container
        ["/bin/sh", "-c", "mkdir -p /workspace/shared/" ++ filepathDir fileRef.source_path]] }
          : World) = w1 at hok ⊢
      cases hcopy : copyFile env w1 ns pod.Name container fileRef.source_path
          ("/workspace/shared/" ++ fileRef.source_path) true with
      | mk w2 err =>
        cases err with
        | some e => simp [hcopy] at hok
        | none =>
          obtain ⟨content, info, hr, hs, hres⟩ := copyFile_upload_ok env w1 ns pod.Name
            container fileRef.source_path ("/workspace/shared/" ++ fileRef.source_path)
            (by rw [hcopy])
          rw [hcopy] at hres
          simp only at hres
          subst hw1
          simp only at hr
          simp [hres, uploadCallsFor, hdir, hr, hs, shMkdirCall]
  · rw [if_neg hdir] at hok ⊢
    simp only at hok ⊢
    cases hcopy : copyFile env w ns pod.Name container fileRef.source_path
        ("/workspace/shared/" ++ fileRef.source_path) true with
    | mk w2 err =>
      cases err with
      | some e => simp [hcopy] at hok
      | none =>
        obtain ⟨content, info, hr, hs, hres⟩ := copyFile_upload_ok env w ns pod.Name
          container fileRef.source_path ("/workspace/shared/" ++ fileRef.source_path)
          (by rw [hcopy])
        rw [hcopy] at hres
        simp only at hres
        simp [hres, uploadCallsFor, hdir, hr, hs]

theorem uploadLoop_ok (env : Env) (ns : String) (pod : Pod) (container : String)
    (hpod : pod.Containers.head? = some container) (files : List FileRef) (w : World)
    (hok : (uploadLoop env ns pod w files).2 = none) :
    (uploadLoop env ns pod w files).1 =
      { fs := w.fs,
        calls := w.calls ++
          files.flatMap (uploadCallsFor env w.fs ns pod.Name container) } := by
  induction files generalizing w with
  | nil => simp [uploadLoop]
  | cons fileRef rest ih =>
    unfold uploadLoop at hok ⊢
    cases hone : uploadFile env w ns pod fileRef with
    | mk w1 err =>
      cases err with
      | some e => simp [hone] at hok
      | none =>
        have h1 := uploadFile_ok env w ns pod container fileRef hpod (by rw [hone])
        rw [hone] at h1
        simp only at h1
        simp only [hone] at hok ⊢
        rw [ih w1 hok, h1]
        simp [List.flatMap_cons]

theorem uploadFile_mkdir_failed (env : Env) (w : World) (ns : String) (pod : Pod)
    (container : String) (fileRef : FileRef) (hpod : pod.Containers.head? = some container)
    (hdir : filepathDir fileRef.source_path ≠ "." ∧ filepathDir fileRef.source_path ≠ "/")
    (hfail : (env.exec w.calls (shMkdirCall ns pod.Name container
      (filepathDir fileRef.source_path))).err ≠ none) :
    (uploadFile env w ns pod fileRef).2 ≠ none ∧
      ((uploadFile env w ns pod fileRef).1.calls = w.calls ∨
        (uploadFile env w ns pod fileRef).1.calls =
          w.calls ++ [shMkdirCall ns pod.Name container (filepathDir fileRef.source_path)]) := by
  unfold uploadFile
  simp only [hpod]
  rw [if_pos hdir]
  rcases execInPod_cases env w ns pod.Name container
    ["/bin/sh", "-c", "mkdir -p /workspace/shared/" ++ filepathDir fileRef.source_path]
    with ⟨e, h⟩ | ⟨e, h, _⟩ | ⟨_, _, h⟩
  · simp [h]
  · simp [h, shMkdirCall]
  · exact absurd h hfail

/-- C9 (as stated, refuted): for the reference with path `a.conf` and source
path `files/a.conf` the directory of the destination path is `.`, yet the
directory `files` of the source path is created under `/workspace/shared/` and
the file is extracted into `/workspace/shared/files`, not `/workspace/shared`. -/
theorem uploadLocalFiles_uses_source_path :
    (uploadLocalFiles (scriptedEnv [] []) exampleWorld "default"
        [⟨"a.conf", "files/a.conf"⟩] examplePod).1.calls =
      [plainCall "default" "upload-pod" "main"
         ["/bin/sh", "-c", "mkdir -p /workspace/shared/files"],
       plainCall "default" "upload-pod" "main" ["mkdir", "-p", "/workspace/shared/files"],
       tarCall "default" "upload-pod" "main" "/workspace/shared/files"
         [⟨⟨"a.conf", 3, 420, 0⟩, [1, 2, 3]⟩]] ∧
      (uploadLocalFiles (scriptedEnv [] []) exampleWorld "default"
        [⟨"a.conf", "files/a.conf"⟩] examplePod).2 = none ∧
      filepathDir "a.conf" = "." ∧
      filepathDir ("/workspace/shared/" ++ "a.conf") = "/workspace/shared" := by
  decide

/-- C9 (amended): `uploadLocalFiles` derives the remote directory it creates and
the remote path it uploads to from the source path of each reference (the
`source_path` field), placed under `/workspace/shared/`: a successful run issues,
for each reference in order, the create-directory command exactly when the
directory of the source path is neither `.` nor `/`, followed by the two
commands of the copy to `/workspace/shared/<source_path>`; and when that
create-directory command fails, the run fails and nothing is copied. -/
theorem uploadLocalFiles_calls (env : Env) (w : World) (ns : String) (files : List FileRef)
    (pod : Pod) (container : String) (hpod : pod.Containers.head? = some container)
    (hok : (uploadLocalFiles env w ns files pod).2 = none) :
    (uploadLocalFiles env w ns files pod).1.calls =
        w.calls ++ files.flatMap (uploadCallsFor env w.fs ns pod.Name container) ∧
      ∀ (fileRef : FileRef) (rest : List FileRef) (w0 : World),
        (filepathDir fileRef.source_path ≠ "." ∧ filepathDir fileRef.source_path ≠ "/") →
        (env.exec w0.calls (shMkdirCall ns pod.Name container
          (filepathDir fileRef.source_path))).err ≠ none →
        (uploadLocalFiles env w0 ns (fileRef :: rest) pod).2 ≠ none ∧
          ((uploadLocalFiles env w0 ns (fileRef :: rest) pod).1.calls = w0.calls ∨
            (uploadLocalFiles env w0 ns (fileRef :: rest) pod).1.calls =
              w0.calls ++
                [shMkdirCall ns pod.Name container (filepathDir fileRef.source_path)]) := by
  constructor
  · unfold uploadLocalFiles at hok ⊢
    cases hcfg : env.restConfigErr with
    | some e => simp [hcfg] at hok
    | none =>
      simp only [hcfg] at hok ⊢
      rw [uploadLoop_ok env ns pod container hpod files w hok]
  · intro fileRef rest w0 hdir hfail
    unfold uploadLocalFiles
    cases hcfg : env.restConfigErr with
    | some e => simp
    | none =>
      simp only [uploadLoop]
      obtain ⟨h1, h2⟩ := uploadFile_mkdir_failed env w0 ns pod container fileRef hpod hdir hfail
      cases hone : uploadFile env w0 ns pod fileRef with
      | mk w1 err =>
        rw [hone] at h1 h2
        cases err with
        | none => exact absurd rfl h1
        | some e => simpa using h2

/-- Witness for C9 (amended): one reference whose source path has the
directory `files`. -/
theorem uploadLocalFiles_calls_witness :
    (uploadLocalFiles (scriptedEnv [] []) exampleWorld "default"
        [⟨"/etc/a.conf", "files/a.conf"⟩] examplePod).1.calls =
      [shMkdirCall "default" "upload-pod" "main" "files",
       plainCall "default" "upload-pod" "main" ["mkdir", "-p", "/workspace/shared/files"],
       tarCall "default" "upload-pod" "main" "/workspace/shared/files"
         [⟨⟨"a.conf", 3, 420, 0⟩, [1, 2, 3]⟩]] ∧
      (uploadLocalFiles shFailEnv exampleWorld "default"
        [⟨"/etc/a.conf", "files/a.conf"⟩] examplePod).2 ≠ none :=
  ⟨(uploadLocalFiles_calls (scriptedEnv [] []) exampleWorld "default"
      [⟨"/etc/a.conf", "files/a.conf"⟩] examplePod "main" rfl (by decide)).1.trans (by decide),
   ((uploadLocalFiles_calls shFailEnv exampleWorld "default" [] examplePod "main" rfl
      (by decide)).2 ⟨"/etc/a.conf", "files/a.conf"⟩ [] exampleWorld (by decide)
      (by decide)).1⟩

/-! ### Resubmission -/

theorem latestLookup_append (a b : List Event) (kind : Kind) (name : String) :
    latestLookup (a ++ b) kind name =
      (latestLookup b kind name).or (latestLookup a kind name) := by
  simp [latestLookup, List.reverse_append, List.findSome?_append]

theorem latestLookup_of_silent (a : List Event) (kind : Kind) (name : String)
    (h : ∀ e ∈ a, lookupResult kind name e = none) : latestLookup a kind name = none := by
  simp only [latestLookup, List.findSome?_eq_none_iff, List.mem_reverse]
  exact h

theorem latestLookup_concat_get (a : List Event) (kind : Kind) (name : String) (r : Lookup) :
    latestLookup (a ++ [Event.get kind name r]) kind name = some r := by
  simp [latestLookup, lookupResult]

theorem guardedFrom_append (seen a b : List Event) :
    GuardedFrom seen (a ++ b) ↔ GuardedFrom seen a ∧ GuardedFrom (seen ++ a) b := by
  induction a generalizing seen with
  | nil => simp [GuardedFrom]
  | cons x xs ih =>
    have h := ih (seen ++ [x])
    simp only [List.append_assoc, List.singleton_append] at h
    show (_ ∧ GuardedFrom (seen ++ [x]) (xs ++ b)) ↔ (_ ∧ GuardedFrom (seen ++ [x]) xs) ∧ _
    rw [h, and_assoc]

theorem guardedFrom_of_noCreate (seen a : List Event) (h : NoCreate a) : GuardedFrom seen a := by
  induction a generalizing seen with
  | nil => trivial
  | cons x xs ih =>
    refine ⟨?_, ih _ (fun e he => h e (List.mem_cons_of_mem _ he))⟩
    intro kind name hc
    rw [h x (List.mem_cons_self _ _)] at hc
    cases hc

theorem guardedFrom_split (seen todo : List Event) (h : GuardedFrom seen todo)
    (pre post : List Event) (ev : Event) (kind : Kind) (name : String)
    (hsplit : todo = pre ++ ev :: post) (hc : createTarget ev = some (kind, name)) :
    latestLookup (seen ++ pre) kind name = some Lookup.notFound := by
  subst hsplit
  rw [guardedFrom_append] at h
  exact h.2.1 kind name hc

theorem noCreate_append (a b : List Event) : NoCreate (a ++ b) ↔ NoCreate a ∧ NoCreate b := by
  simp only [NoCreate, List.mem_append]
  constructor
  · intro h
    exact ⟨fun e he => h e (Or.inl he), fun e he => h e (Or.inr he)⟩
  · rintro ⟨h1, h2⟩ e (he | he)
    · exact h1 e he
    · exact h2 e he

theorem noCreate_map_print (out : List String) : NoCreate (out.map Event.print) := by
  intro e he
  obtain ⟨x, _, rfl⟩ := List.mem_map.1 he
  rfl

theorem noCreate_map_exec (calls : List ExecCall) : NoCreate (calls.map Event.exec) := by
  intro e he
  obtain ⟨x, _, rfl⟩ := List.mem_map.1 he
  rfl

theorem filterMap_of_noCreate (a : List Event) (h : NoCreate a) :
    a.filterMap createTarget = [] := by
  rw [List.filterMap_eq_nil_iff]
  exact h

/-- The poll of `awaitDeletion` adds lookups of its own resource only, and when
it ends without error the last one reported not-found. -/
theorem deletionPoll_shape (kind : Kind) (name : String) (ticks : List Lookup)
    (tr : List Event) :
    ∃ rs : List Lookup,
      (pollUntilContextTimeout
        (fun (tr : List Event) (r : Lookup) =>
          (tr ++ [Event.get kind name r], Except.ok (decide (r = Lookup.notFound))))
        tr ticks).1 = tr ++ rs.map (Event.get kind name) ∧
      ((pollUntilContextTimeout
        (fun (tr : List Event) (r : Lookup) =>
          (tr ++ [Event.get kind name r], Except.ok (decide (r = Lookup.notFound))))
        tr ticks).2 = none → rs.getLast? = some Lookup.notFound) := by
  induction ticks generalizing tr with
  | nil => exact ⟨[], by simp [pollUntilContextTimeout]⟩
  | cons r rest ih =>
    by_cases hr : r = Lookup.notFound
    · exact ⟨[r], by simp [pollUntilContextTimeout, hr]⟩
    · obtain ⟨rs, h1, h2⟩ := ih (tr ++ [Event.get kind name r])
      refine ⟨r :: rs, ?_, ?_⟩
      · simp only [pollUntilContextTimeout, hr, decide_False]
        rw [h1]
        simp
      · simp only [pollUntilContextTimeout, hr, decide_False]
        intro h
        have := h2 h
        cases rs with
        | nil => simp at this
        | cons x xs => simpa [List.getLast?_cons_cons] using this

theorem awaitDeletion_shape (kind : Kind) (name : String) (first : Lookup)
    (ticks : List Lookup) :
    ∃ rs : List Lookup,
      (awaitDeletion kind name first ticks).1 = rs.map (Event.get kind name) ∧
      ((awaitDeletion kind name first ticks).2 = none → rs.getLast? = some Lookup.notFound) := by
  unfold awaitDeletion pollImmediateUntilContextTimeout
  by_cases hr : first = Lookup.notFound
  · exact ⟨[first], by simp [hr]⟩
  · obtain ⟨rs, h1, h2⟩ := deletionPoll_shape kind name (ticks.take 15)
      ([] ++ [Event.get kind name first])
    refine ⟨first :: rs, ?_, ?_⟩
    · simp only [hr, decide_False]
      rw [h1]
      simp
    · simp only [hr, decide_False]
      intro h
      have := h2 h
      cases rs with
      | nil => simp at this
      | cons x xs => simpa [List.getLast?_cons_cons] using this

theorem replaceExisting_spec (kind : Kind) (name : String) (renv : ReplaceEnv) :
    NoCreate (replaceExisting kind name renv).1 ∧
      (∀ e ∈ (replaceExisting kind name renv).1, ∀ k n, (k, n) ≠ (kind, name) →
        lookupResult k n e = none) ∧
      ((replaceExisting kind name renv).2 = true →
        latestLookup (replaceExisting kind name renv).1 kind name = some Lookup.notFound ∧
        Event.get kind name Lookup.notFound ∈ (replaceExisting kind name renv).1 ∧
        (renv.initial = Lookup.found →
          Event.delete kind name none ∈ (replaceExisting kind name renv).1)) := by
  have other : ∀ (r : Lookup) k n, (k, n) ≠ (kind, name) →
      lookupResult k n (Event.get kind name r) = none := by
    intro r k n hne
    simp only [lookupResult]
    rw [if_neg]
    rintro ⟨rfl, rfl⟩
    exact hne rfl
  unfold replaceExisting
  cases hinit : renv.initial with
  | notFound =>
    refine ⟨?_, ?_, ?_⟩
    · intro e he
      simp only [List.mem_singleton] at he
      subst he
      rfl
    · intro e he k n hne
      simp only [List.mem_singleton] at he
      subst he
      exact other _ k n hne
    · intro _
      exact ⟨by simp [latestLookup, lookupResult], by simp, by simp⟩
  | failed msg =>
    refine ⟨?_, ?_, by simp⟩
    · intro e he
      simp only [List.mem_cons, List.mem_singleton, List.not_mem_nil, or_false] at he
      rcases he with rfl | rfl <;> rfl
    · intro e he k n hne
      simp only [List.mem_cons, List.mem_singleton, List.not_mem_nil, or_false] at he
      rcases he with rfl | rfl
      · exact other _ k n hne
      · rfl
  | found =>
    cases hdel : renv.deleteErr with
    | some msg =>
      refine ⟨?_, ?_, by simp⟩
      · intro e he
        simp only [List.cons_append, List.nil_append, List.mem_cons, List.mem_singleton,
          List.not_mem_nil, or_false] at he
        rcases he with rfl | rfl | rfl | rfl <;> rfl
      · intro e he k n hne
        simp only [List.cons_append, List.nil_append, List.mem_cons, List.mem_singleton,
          List.not_mem_nil, or_false] at he
        rcases he with rfl | rfl | rfl | rfl
        · exact other _ k n hne
        · rfl
        · rfl
        · rfl
    | none =>
      obtain ⟨rs, h1, h2⟩ := awaitDeletion_shape kind name renv.firstPoll renv.ticks
      have hpolled : NoCreate (rs.map (Event.get kind name)) := by
        intro e he
        obtain ⟨x, _, rfl⟩ := List.mem_map.1 he
        rfl
      have hpolled2 : ∀ e ∈ rs.map (Event.get kind name), ∀ k n, (k, n) ≠ (kind, name) →
          lookupResult k n e = none := by
        intro e he k n hne
        obtain ⟨x, _, rfl⟩ := List.mem_map.1 he
        exact other _ k n hne
      cases hpoll : awaitDeletion kind name renv.firstPoll renv.ticks with
      | mk polled err =>
        rw [hpoll] at h1 h2
        simp only at h1 h2
        subst h1
        cases err with
        | some msg =>
          refine ⟨?_, ?_, by simp⟩
          · intro e he
            simp only [List.cons_append, List.nil_append, List.mem_cons, List.mem_append,
              List.mem_singleton, List.not_mem_nil, or_false] at he
            rcases he with rfl | rfl | rfl | rfl | he | rfl
            · rfl
            · rfl
            · rfl
            · rfl
            · exact hpolled e he
            · rfl
          · intro e he k n hne
            simp only [List.cons_append, List.nil_append, List.mem_cons, List.mem_append,
              List.mem_singleton, List.not_mem_nil, or_false] at he
            rcases he with rfl | rfl | rfl | rfl | he | rfl
            · exact other _ k n hne
            · rfl
            · rfl
            · rfl
            · exact hpolled2 e he k n hne
            · rfl
        | none =>
          have hlast := h2 rfl
          obtain ⟨ys, hys⟩ := List.getLast?_eq_some_iff.1 hlast
          refine ⟨?_, ?_, ?_⟩
          · intro e he
            simp only [List.cons_append, List.nil_append, List.mem_cons, List.mem_append,
              List.mem_singleton, List.not_mem_nil, or_false] at he
            rcases he with rfl | rfl | rfl | rfl | he
            · rfl
            · rfl
            · rfl
            · rfl
            · exact hpolled e he
          · intro e he k n hne
            simp only [List.cons_append, List.nil_append, List.mem_cons, List.mem_append,
              List.mem_singleton, List.not_mem_nil, or_false] at he
            rcases he with rfl | rfl | rfl | rfl | he
            · exact other _ k n hne
            · rfl
            · rfl
            · rfl
            · exact hpolled2 e he k n hne
          · intro _
            refine ⟨?_, ?_, ?_⟩
            · simp only [hys, List.map_append, List.map_cons, List.map_nil, ← List.append_assoc]
              exact latestLookup_concat_get _ kind name Lookup.notFound
            · rw [hys]
              simp
            · intro _
              simp

theorem poll_invariant {σ ρ : Type} (condition : σ → ρ → σ × Except String Bool)
    (P : σ → Prop) (hstep : ∀ st r, P st → P (condition st r).1) (rs : List ρ) (st : σ)
    (h : P st) : P (pollUntilContextTimeout condition st rs).1 := by
  induction rs generalizing st with
  | nil => exact h
  | cons r rest ih =>
    unfold pollUntilContextTimeout
    have h1 := hstep st r h
    cases hc : condition st r with
    | mk st1 res =>
      rw [hc] at h1
      cases res with
      | error e => exact h1
      | ok b =>
        cases b with
        | true => exact h1
        | false => exact ih st1 h1

theorem noCreate_cons (e : Event) (rest : List Event) (he : createTarget e = none)
    (h : NoCreate rest) : NoCreate (e :: rest) := by
  intro x hx
  rcases List.mem_cons.1 hx with rfl | hx
  · exact he
  · exact h x hx

theorem noCreate_nil : NoCreate [] := by
  intro x hx
  cases hx

theorem noCreate_waitForUploadPod (buildName : String) (polls : List PodList) :
    NoCreate (waitForUploadPod buildName polls).1 := by
  have hinv := poll_invariant (uploadPodCondition buildName)
    (fun st => NoCreate st.1)
    (by
      intro st r h
      unfold uploadPodCondition
      cases r with
      | failed e =>
        exact (noCreate_append _ _).2 ⟨h, noCreate_cons _ _ rfl noCreate_nil⟩
      | items pods =>
        simp only
        cases pods.find? (fun pod => decide (pod.Phase = "Running")) with
        | some pod => exact (noCreate_append _ _).2 ⟨h, noCreate_cons _ _ rfl noCreate_nil⟩
        | none =>
          exact (noCreate_append _ _).2
            ⟨h, noCreate_cons _ _ rfl (noCreate_cons _ _ rfl noCreate_nil)⟩)
    (polls.take 24)
    ([Event.print "Waiting for file upload server to be ready...\n"], none)
    (noCreate_cons _ _ rfl noCreate_nil)
  unfold waitForUploadPod
  simp only
  cases hp : pollUntilContextTimeout (uploadPodCondition buildName)
      ([Event.print "Waiting for file upload server to be ready...\n"], none)
      (polls.take 24) with
  | mk st err =>
    rw [hp] at hinv
    obtain ⟨events, pod⟩ := st
    cases pod with
    | none =>
      cases err with
      | some e => exact hinv
      | none => exact hinv
    | some pod =>
      cases err with
      | some e => exact hinv
      | none => exact (noCreate_append _ _).2 ⟨hinv, noCreate_cons _ _ rfl noCreate_nil⟩

theorem noCreate_markUploadsComplete (buildName : String) (got : Lookup)
    (patchErr : Option String) :
    NoCreate (markUploadsComplete buildName got patchErr).1 := by
  unfold markUploadsComplete
  cases got with
  | notFound => exact noCreate_cons _ _ rfl noCreate_nil
  | failed e => exact noCreate_cons _ _ rfl noCreate_nil
  | found =>
    cases patchErr with
    | some e => exact noCreate_cons _ _ rfl (noCreate_cons _ _ rfl noCreate_nil)
    | none =>
      exact noCreate_cons _ _ rfl (noCreate_cons _ _ rfl (noCreate_cons _ _ rfl noCreate_nil))

theorem noCreate_waitAndDownload (env : BuildEnv) (flags : Flags) (w : World) :
    NoCreate (waitAndDownload env flags w).trace := by
  unfold waitAndDownload
  by_cases hw : flags.waitForBuild = true
  · simp only [hw, if_true]
    have hevents : NoCreate ([Event.print ("Waiting for build " ++ flags.buildName ++
        " to complete (timeout: " ++ toString flags.timeout ++ " minutes)...\n")] ++
        (env.buildPolls.take (waitForBuildCompletion flags.timeout env.buildPolls).gets).map
          (fun p => Event.get Kind.imageBuild flags.buildName (lookupOf p)) ++
        (waitForBuildCompletion flags.timeout env.buildPolls).out.map Event.print) := by
      refine (noCreate_append _ _).2 ⟨(noCreate_append _ _).2
        ⟨noCreate_cons _ _ rfl noCreate_nil, ?_⟩, noCreate_map_print _⟩
      intro e he
      obtain ⟨x, _, rfl⟩ := List.mem_map.1 he
      rfl
    cases (waitForBuildCompletion flags.timeout env.buildPolls).err with
    | some e =>
      exact (noCreate_append _ _).2 ⟨hevents, noCreate_cons _ _ rfl noCreate_nil⟩
    | none =>
      cases (waitForBuildCompletion flags.timeout env.buildPolls).build with
      | none => exact hevents
      | some completeBuild =>
        simp only
        split
        · exact (noCreate_append _ _).2 ⟨(noCreate_append _ _).2
            ⟨hevents, noCreate_map_exec _⟩, noCreate_map_print _⟩
        · exact hevents
  · simp only [hw, Bool.false_eq_true, if_false]
    exact noCreate_nil

theorem noCreate_emit (events : List Event) (rest : Run) (h1 : NoCreate events)
    (h2 : NoCreate rest.trace) : NoCreate (emit events rest).trace :=
  (noCreate_append _ _).2 ⟨h1, h2⟩

theorem noCreate_uploadPhase (env : BuildEnv) (flags : Flags) (w : World)
    (manifestData : String) (hasLocalFiles : Bool) :
    NoCreate (uploadPhase env flags w manifestData hasLocalFiles).trace := by
  unfold uploadPhase
  simp only
  split
  · have hwait := noCreate_waitForUploadPod flags.buildName env.uploadPodPolls
    cases hp : waitForUploadPod flags.buildName env.uploadPodPolls with
    | mk waited res =>
      rw [hp] at hwait
      cases res with
      | error e =>
        exact (noCreate_append _ _).2 ⟨hwait, noCreate_cons _ _ rfl noCreate_nil⟩
      | ok uploadPod =>
        simp only
        have hann : NoCreate (waited ++ [Event.print "Found local file references in manifest.\n",
            Event.print "Uploading local files to artifact server...\n"]) :=
          (noCreate_append _ _).2 ⟨hwait, noCreate_cons _ _ rfl (noCreate_cons _ _ rfl noCreate_nil)⟩
        cases hu : uploadLocalFiles env.remote w flags.namespaceName
            (findLocalFileReferences env.unmarshal manifestData) uploadPod with
        | mk w1 err =>
          cases err with
          | some e =>
            exact (noCreate_append _ _).2 ⟨(noCreate_append _ _).2
              ⟨hann, noCreate_map_exec _⟩, noCreate_cons _ _ rfl noCreate_nil⟩
          | none =>
            simp only
            have hup : NoCreate (waited ++
                [Event.print "Found local file references in manifest.\n",
                  Event.print "Uploading local files to artifact server...\n"] ++
                (w1.calls.drop w.calls.length).map Event.exec ++
                [Event.print "Files uploaded successfully.\n"]) :=
              (noCreate_append _ _).2 ⟨(noCreate_append _ _).2
                ⟨hann, noCreate_map_exec _⟩, noCreate_cons _ _ rfl noCreate_nil⟩
            have hmark := noCreate_markUploadsComplete flags.buildName env.markGet
              env.markPatchErr
            cases hm : markUploadsComplete flags.buildName env.markGet env.markPatchErr with
            | mk marked merr =>
              rw [hm] at hmark
              cases merr with
              | some e =>
                exact (noCreate_append _ _).2 ⟨(noCreate_append _ _).2 ⟨hup, hmark⟩,
                  noCreate_cons _ _ rfl noCreate_nil⟩
              | none =>
                exact noCreate_emit _ _ ((noCreate_append _ _).2
                  ⟨(noCreate_append _ _).2 ⟨hup, hmark⟩, noCreate_cons _ _ rfl noCreate_nil⟩)
                  (noCreate_waitAndDownload env flags w1)
  · exact noCreate_emit _ _ (noCreate_cons _ _ rfl noCreate_nil)
      (noCreate_waitAndDownload env flags w)

theorem quiet_map_print (out : List String) : Quiet (out.map Event.print) := by
  intro e he
  obtain ⟨x, _, rfl⟩ := List.mem_map.1 he
  exact ⟨rfl, fun _ _ => rfl⟩

theorem quiet_append (a b : List Event) (ha : Quiet a) (hb : Quiet b) : Quiet (a ++ b) := by
  intro e he
  rcases List.mem_append.1 he with h | h
  · exact ha e h
  · exact hb e h

theorem latestLookup_append_quiet (seen a : List Event) (ha : Quiet a) (kind : Kind)
    (name : String) : latestLookup (seen ++ a) kind name = latestLookup seen kind name := by
  rw [latestLookup_append, latestLookup_of_silent a kind name (fun e he => (ha e he).2 kind name)]
  simp

theorem guarded_create_after_quiet (seen a : List Event) (c : Event) (kind : Kind)
    (name : String) (hc : createTarget c = some (kind, name)) (ha : Quiet a)
    (hseen : latestLookup seen kind name = some Lookup.notFound) :
    GuardedFrom seen (a ++ [c]) := by
  rw [guardedFrom_append]
  refine ⟨guardedFrom_of_noCreate _ _ (fun e he => (ha e he).1), ?_, trivial⟩
  intro k n hkn
  rw [hc] at hkn
  simp only [Option.some.injEq, Prod.mk.injEq] at hkn
  obtain ⟨rfl, rfl⟩ := hkn
  rw [latestLookup_append_quiet seen a ha]
  exact hseen

theorem createPhase_shape (env : BuildEnv) (flags : Flags) (w : World) (manifestData : String) :
    ∃ (imageBuild : ImageBuild) (first : List Event) (scanned rest : List Event),
      Quiet first ∧ Quiet scanned ∧ NoCreate rest ∧ imageBuild.Name = flags.buildName ∧
      (((createPhase env flags w manifestData).trace =
          first ++ [Event.createConfigMap (flags.buildName ++ "-manifest-config")
            (filepathBase flags.manifest) manifestData env.createConfigMapErr] ++ rest ∧
          (createPhase env flags w manifestData).exit = some 1) ∨
        (createPhase env flags w manifestData).trace =
          (first ++ [Event.createConfigMap (flags.buildName ++ "-manifest-config")
            (filepathBase flags.manifest) manifestData env.createConfigMapErr]) ++
          ((scanned ++ [Event.createImageBuild imageBuild env.createImageBuildErr]) ++ rest)) := by
  have hq1 : ∀ t : String, Quiet [Event.print t] := by
    intro t e he
    simp only [List.mem_singleton] at he
    subst he
    exact ⟨rfl, fun _ _ => rfl⟩
  have hname : (newImageBuild flags (flags.buildName ++ "-manifest-config")
      (decide (0 < (findLocalFileReferences env.unmarshal manifestData).length))).Name =
      flags.buildName := by
    unfold newImageBuild
    cases flags.download <;> rfl
  have hscan : Quiet ((parseWarning env.unmarshal manifestData).map Event.print ++
      [Event.print ("Creating ImageBuild " ++ (newImageBuild flags
        (flags.buildName ++ "-manifest-config")
        (decide (0 < (findLocalFileReferences env.unmarshal manifestData).length))).Name ++
        "\n")]) :=
    quiet_append _ _ (quiet_map_print _) (hq1 _)
  have hnil : Quiet [] := by
    intro e he
    cases he
  unfold createPhase
  simp only
  cases hcm : env.createConfigMapErr with
  | some e =>
    exact ⟨(newImageBuild flags (flags.buildName ++ "-manifest-config")
        (decide (0 < (findLocalFileReferences env.unmarshal manifestData).length))), [Event.print ("Creating ConfigMap " ++ (flags.buildName ++ "-manifest-config") ++
        " with manifest file " ++ filepathBase flags.manifest ++ "\n")], [],
      [Event.print ("Error creating ConfigMap: " ++ e ++ "\n")], hq1 _, hnil,
      noCreate_cons _ _ rfl noCreate_nil, hname, Or.inl ⟨rfl, rfl⟩⟩
  | none =>
    cases hib : env.createImageBuildErr with
    | some e =>
      refine ⟨(newImageBuild flags (flags.buildName ++ "-manifest-config")
        (decide (0 < (findLocalFileReferences env.unmarshal manifestData).length))), [Event.print ("Creating ConfigMap " ++ (flags.buildName ++ "-manifest-config") ++
        " with manifest file " ++ filepathBase flags.manifest ++ "\n")], ((parseWarning env.unmarshal manifestData).map Event.print ++
        [Event.print ("Creating ImageBuild " ++ (newImageBuild flags
          (flags.buildName ++ "-manifest-config")
          (decide (0 < (findLocalFileReferences env.unmarshal manifestData).length))).Name ++
          "\n")]),
        [Event.print ("Error creating ImageBuild: " ++ e ++ "\n")], hq1 _, hscan,
        noCreate_cons _ _ rfl noCreate_nil, hname, Or.inr ?_⟩
      simp [exit1]
    | none =>
      cases hre : env.refetchConfigMap with
      | notFound =>
        refine ⟨(newImageBuild flags (flags.buildName ++ "-manifest-config")
        (decide (0 < (findLocalFileReferences env.unmarshal manifestData).length))), [Event.print ("Creating ConfigMap " ++ (flags.buildName ++ "-manifest-config") ++
        " with manifest file " ++ filepathBase flags.manifest ++ "\n")], ((parseWarning env.unmarshal manifestData).map Event.print ++
        [Event.print ("Creating ImageBuild " ++ (newImageBuild flags
          (flags.buildName ++ "-manifest-config")
          (decide (0 < (findLocalFileReferences env.unmarshal manifestData).length))).Name ++
          "\n")]),
          [Event.get Kind.configMap (flags.buildName ++ "-manifest-config") Lookup.notFound,
            Event.print "Error retrieving ConfigMap for owner update: not found\n"], hq1 _, hscan,
          noCreate_cons _ _ rfl (noCreate_cons _ _ rfl noCreate_nil), hname, Or.inr ?_⟩
        simp [exit1]
      | failed e =>
        refine ⟨(newImageBuild flags (flags.buildName ++ "-manifest-config")
        (decide (0 < (findLocalFileReferences env.unmarshal manifestData).length))), [Event.print ("Creating ConfigMap " ++ (flags.buildName ++ "-manifest-config") ++
        " with manifest file " ++ filepathBase flags.manifest ++ "\n")], ((parseWarning env.unmarshal manifestData).map Event.print ++
        [Event.print ("Creating ImageBuild " ++ (newImageBuild flags
          (flags.buildName ++ "-manifest-config")
          (decide (0 < (findLocalFileReferences env.unmarshal manifestData).length))).Name ++
          "\n")]),
          [Event.get Kind.configMap (flags.buildName ++ "-manifest-config") (Lookup.failed e),
            Event.print ("Error retrieving ConfigMap for owner update: " ++ e ++ "\n")], hq1 _,
          hscan, noCreate_cons _ _ rfl (noCreate_cons _ _ rfl noCreate_nil), hname, Or.inr ?_⟩
        simp [exit1]
      | found =>
        refine ⟨(newImageBuild flags (flags.buildName ++ "-manifest-config")
        (decide (0 < (findLocalFileReferences env.unmarshal manifestData).length))), [Event.print ("Creating ConfigMap " ++ (flags.buildName ++ "-manifest-config") ++
        " with manifest file " ++ filepathBase flags.manifest ++ "\n")], ((parseWarning env.unmarshal manifestData).map Event.print ++
        [Event.print ("Creating ImageBuild " ++ (newImageBuild flags
          (flags.buildName ++ "-manifest-config")
          (decide (0 < (findLocalFileReferences env.unmarshal manifestData).length))).Name ++
          "\n")]),
          [Event.get Kind.configMap (flags.buildName ++ "-manifest-config") Lookup.found,
            Event.updateOwner (flags.buildName ++ "-manifest-config")
              (newImageBuild flags (flags.buildName ++ "-manifest-config")
                (decide (0 < (findLocalFileReferences env.unmarshal manifestData).length))).Name
              env.updateOwnerErr] ++
          (match env.updateOwnerErr with
            | some e =>
              [Event.print ("Warning: Failed to update ConfigMap with owner reference: " ++
                e ++ "\n")]
            | none => []) ++
          (uploadPhase env flags w manifestData
            (decide (0 < (findLocalFileReferences env.unmarshal manifestData).length))).trace,
          hq1 _, hscan, ?_, hname, Or.inr ?_⟩
        · refine (noCreate_append _ _).2 ⟨(noCreate_append _ _).2
            ⟨noCreate_cons _ _ rfl (noCreate_cons _ _ rfl noCreate_nil), ?_⟩,
            noCreate_uploadPhase _ _ _ _ _⟩
          cases env.updateOwnerErr with
          | some e => exact noCreate_cons _ _ rfl noCreate_nil
          | none => exact noCreate_nil
        · simp [emit]

theorem filterMap_of_quiet (a : List Event) (h : Quiet a) : a.filterMap createTarget = [] :=
  filterMap_of_noCreate a (fun e he => (h e he).1)

theorem createPhase_spec (env : BuildEnv) (flags : Flags) (w : World) (manifestData : String)
    (seen : List Event)
    (hcm : latestLookup seen Kind.configMap (flags.buildName ++ "-manifest-config") =
      some Lookup.notFound)
    (hib : latestLookup seen Kind.imageBuild flags.buildName = some Lookup.notFound) :
    GuardedFrom seen (createPhase env flags w manifestData).trace ∧
      ((createPhase env flags w manifestData).trace.filterMap createTarget =
          [(Kind.configMap, flags.buildName ++ "-manifest-config")] ∧
          (createPhase env flags w manifestData).exit = some 1 ∨
        (createPhase env flags w manifestData).trace.filterMap createTarget =
          [(Kind.configMap, flags.buildName ++ "-manifest-config"),
           (Kind.imageBuild, flags.buildName)]) := by
  obtain ⟨ib, first, scanned, rest, hfirst, hscanned, hrest, hname, hshape⟩ :=
    createPhase_shape env flags w manifestData
  have g1 : GuardedFrom seen (first ++ [Event.createConfigMap
      (flags.buildName ++ "-manifest-config") (filepathBase flags.manifest) manifestData
      env.createConfigMapErr]) :=
    guarded_create_after_quiet seen first _ Kind.configMap _ rfl hfirst hcm
  rcases hshape with ⟨htrace, hexit⟩ | htrace
  · rw [htrace]
    refine ⟨(guardedFrom_append _ _ _).2 ⟨g1, guardedFrom_of_noCreate _ _ hrest⟩, Or.inl ⟨?_, hexit⟩⟩
    simp [List.filterMap_append, filterMap_of_quiet _ hfirst, filterMap_of_noCreate _ hrest,
      createTarget]
  · rw [htrace]
    have hsilent : ∀ e ∈ first ++ [Event.createConfigMap
        (flags.buildName ++ "-manifest-config") (filepathBase flags.manifest) manifestData
        env.createConfigMapErr], lookupResult Kind.imageBuild flags.buildName e = none := by
      intro e he
      rcases List.mem_append.1 he with h | h
      · exact (hfirst e h).2 _ _
      · simp only [List.mem_singleton] at h
        subst h
        rfl
    have hseen : latestLookup (seen ++ (first ++ [Event.createConfigMap
        (flags.buildName ++ "-manifest-config") (filepathBase flags.manifest) manifestData
        env.createConfigMapErr])) Kind.imageBuild flags.buildName = some Lookup.notFound := by
      rw [latestLookup_append, latestLookup_of_silent _ _ _ hsilent]
      simpa using hib
    have g2 : GuardedFrom (seen ++ (first ++ [Event.createConfigMap
        (flags.buildName ++ "-manifest-config") (filepathBase flags.manifest) manifestData
        env.createConfigMapErr]))
        (scanned ++ [Event.createImageBuild ib env.createImageBuildErr]) :=
      guarded_create_after_quiet _ scanned _ Kind.imageBuild flags.buildName
        (by simp [createTarget, hname]) hscanned hseen
    refine ⟨(guardedFrom_append _ _ _).2 ⟨g1, (guardedFrom_append _ _ _).2
      ⟨g2, guardedFrom_of_noCreate _ _ hrest⟩⟩, Or.inr ?_⟩
    simp [List.filterMap_append, filterMap_of_quiet _ hfirst, filterMap_of_quiet _ hscanned,
      filterMap_of_noCreate _ hrest, createTarget, hname]

theorem createPhase_exit (env : BuildEnv) (flags : Flags) (w : World) (manifestData : String)
    (h : (createPhase env flags w manifestData).exit = none) :
    (createPhase env flags w manifestData).trace.filterMap createTarget =
      [(Kind.configMap, flags.buildName ++ "-manifest-config"),
       (Kind.imageBuild, flags.buildName)] := by
  obtain ⟨ib, first, scanned, rest, hfirst, hscanned, hrest, hname, hshape⟩ :=
    createPhase_shape env flags w manifestData
  rcases hshape with ⟨_, hexit⟩ | htrace
  · rw [h] at hexit
    cases hexit
  · rw [htrace]
    simp [List.filterMap_append, filterMap_of_quiet _ hfirst, filterMap_of_quiet _ hscanned,
      filterMap_of_noCreate _ hrest, createTarget, hname]

theorem createsGuarded_of_guardedFrom (trace : List Event) (h : GuardedFrom [] trace) :
    CreatesGuarded trace := by
  intro pre post ev kind name hsplit hc
  simpa using guardedFrom_split [] trace h pre post ev kind name hsplit hc

/-- C8: in every run of `runBuild` a creation request for the ConfigMap or the
ImageBuild is issued only when the most recent lookup of that resource's name
reported not-found; a run that issues any creation has seen both resources
reported not-found, after deleting each one that its first lookup had found (a
poll that times out ends the run before any creation); the creations are at most
the ConfigMap followed by the ImageBuild, and a run that returns has issued
exactly these two, once each. -/
theorem runBuild_creates_guarded (env : BuildEnv) (flags : Flags) (w : World) :
    CreatesGuarded (runBuild env flags w).trace ∧
      ((runBuild env flags w).trace.filterMap createTarget ≠ [] →
        Event.get Kind.imageBuild flags.buildName Lookup.notFound ∈
          (runBuild env flags w).trace ∧
        Event.get Kind.configMap (flags.buildName ++ "-manifest-config") Lookup.notFound ∈
          (runBuild env flags w).trace ∧
        (env.imageBuild.initial = Lookup.found →
          Event.delete Kind.imageBuild flags.buildName none ∈ (runBuild env flags w).trace) ∧
        (env.configMap.initial = Lookup.found →
          Event.delete Kind.configMap (flags.buildName ++ "-manifest-config") none ∈
            (runBuild env flags w).trace)) ∧
      ((runBuild env flags w).trace.filterMap createTarget = [] ∨
        (runBuild env flags w).trace.filterMap createTarget =
          [(Kind.configMap, flags.buildName ++ "-manifest-config")] ∨
        (runBuild env flags w).trace.filterMap createTarget =
          [(Kind.configMap, flags.buildName ++ "-manifest-config"),
           (Kind.imageBuild, flags.buildName)]) ∧
      ((runBuild env flags w).exit = none →
        (runBuild env flags w).trace.filterMap createTarget =
          [(Kind.configMap, flags.buildName ++ "-manifest-config"),
           (Kind.imageBuild, flags.buildName)]) := by
  have quick : ∀ r : Run, r = runBuild env flags w → NoCreate r.trace → r.exit = some 1 →
      CreatesGuarded r.trace ∧
      (r.trace.filterMap createTarget ≠ [] →
        Event.get Kind.imageBuild flags.buildName Lookup.notFound ∈ r.trace ∧
        Event.get Kind.configMap (flags.buildName ++ "-manifest-config") Lookup.notFound ∈
          r.trace ∧
        (env.imageBuild.initial = Lookup.found →
          Event.delete Kind.imageBuild flags.buildName none ∈ r.trace) ∧
        (env.configMap.initial = Lookup.found →
          Event.delete Kind.configMap (flags.buildName ++ "-manifest-config") none ∈
            r.trace)) ∧
      (r.trace.filterMap createTarget = [] ∨
        r.trace.filterMap createTarget =
          [(Kind.configMap, flags.buildName ++ "-manifest-config")] ∨
        r.trace.filterMap createTarget =
          [(Kind.configMap, flags.buildName ++ "-manifest-config"),
           (Kind.imageBuild, flags.buildName)]) ∧
      (r.exit = none →
        r.trace.filterMap createTarget =
          [(Kind.configMap, flags.buildName ++ "-manifest-config"),
           (Kind.imageBuild, flags.buildName)]) := by
    intro r _ hno hexit
    have hf := filterMap_of_noCreate _ hno
    refine ⟨createsGuarded_of_guardedFrom _ (guardedFrom_of_noCreate _ _ hno), ?_, Or.inl hf, ?_⟩
    · intro h
      exact absurd hf h
    · intro h
      rw [h] at hexit
      cases hexit
  have hIB := replaceExisting_spec Kind.imageBuild flags.buildName env.imageBuild
  have hCM := replaceExisting_spec Kind.configMap (flags.buildName ++ "-manifest-config")
    env.configMap
  cases hgc : env.getClientErr with
  | some e =>
    have hrun : runBuild env flags w = exit1 [Event.print ("Error: " ++ e ++ "\n")] w := by
      simp [runBuild, hgc]
    rw [hrun]
    exact quick _ hrun.symm (noCreate_cons _ _ rfl noCreate_nil) rfl
  | none =>
    by_cases hbn : flags.buildName = ""
    · have hrun : runBuild env flags w =
          exit1 [Event.print "Error: --name flag is required\n"] w := by
        simp [runBuild, hgc, hbn]
      rw [hrun]
      exact quick _ hrun.symm (noCreate_cons _ _ rfl noCreate_nil) rfl
    · cases h1 : replaceExisting Kind.imageBuild flags.buildName env.imageBuild with
      | mk evs1 ok1 =>
        rw [h1] at hIB
        obtain ⟨hIBno, hIBother, hIBok⟩ := hIB
        cases ok1 with
        | false =>
          have hrun : runBuild env flags w = exit1 evs1 w := by
            simp [runBuild, hgc, hbn, h1]
          rw [hrun]
          exact quick _ hrun.symm hIBno rfl
        | true =>
          obtain ⟨hIBlast, hIBget, hIBdel⟩ := hIBok rfl
          by_cases hm : flags.manifest = ""
          · have hrun : runBuild env flags w =
                emit evs1 (exit1 [Event.print "Error: --manifest is required\n"] w) := by
              simp [runBuild, hgc, hbn, h1, hm]
            rw [hrun]
            exact quick _ hrun.symm ((noCreate_append _ _).2
              ⟨hIBno, noCreate_cons _ _ rfl noCreate_nil⟩) rfl
          · cases hrm : env.readManifest with
            | error e =>
              have hrun : runBuild env flags w =
                  emit evs1 (exit1 [Event.print ("Error reading manifest file: " ++ e ++
                    "\n")] w) := by
                simp [runBuild, hgc, hbn, h1, hm, hrm]
              rw [hrun]
              exact quick _ hrun.symm ((noCreate_append _ _).2
                ⟨hIBno, noCreate_cons _ _ rfl noCreate_nil⟩) rfl
            | ok manifestData =>
              cases h2 : replaceExisting Kind.configMap
                  (flags.buildName ++ "-manifest-config") env.configMap with
              | mk evs2 ok2 =>
                rw [h2] at hCM
                obtain ⟨hCMno, hCMother, hCMok⟩ := hCM
                cases ok2 with
                | false =>
                  have hrun : runBuild env flags w = emit evs1 (exit1 evs2 w) := by
                    simp [runBuild, hgc, hbn, h1, hm, hrm, h2]
                  rw [hrun]
                  exact quick _ hrun.symm ((noCreate_append _ _).2 ⟨hIBno, hCMno⟩) rfl
                | true =>
                  obtain ⟨hCMlast, hCMget, hCMdel⟩ := hCMok rfl
                  have hrun : runBuild env flags w =
                      emit evs1 (emit evs2 (createPhase env flags w manifestData)) := by
                    simp [runBuild, hgc, hbn, h1, hm, hrm, h2]
                  have hseenCM : latestLookup (evs1 ++ evs2) Kind.configMap
                      (flags.buildName ++ "-manifest-config") = some Lookup.notFound := by
                    rw [latestLookup_append, hCMlast]
                    rfl
                  have hseenIB : latestLookup (evs1 ++ evs2) Kind.imageBuild flags.buildName =
                      some Lookup.notFound := by
                    rw [latestLookup_append, latestLookup_of_silent evs2 _ _
                      (fun e he => hCMother e he _ _ (by simp)), hIBlast]
                    rfl
                  obtain ⟨hg, hcreates⟩ := createPhase_spec env flags w manifestData
                    (evs1 ++ evs2) hseenCM hseenIB
                  have htrace : (runBuild env flags w).trace =
                      evs1 ++ (evs2 ++ (createPhase env flags w manifestData).trace) := by
                    rw [hrun]
                    rfl
                  have hexit : (runBuild env flags w).exit =
                      (createPhase env flags w manifestData).exit := by
                    rw [hrun]
                    rfl
                  have hfm : (runBuild env flags w).trace.filterMap createTarget =
                      (createPhase env flags w manifestData).trace.filterMap createTarget := by
                    rw [htrace, List.filterMap_append, List.filterMap_append,
                      filterMap_of_noCreate _ hIBno, filterMap_of_noCreate _ hCMno]
                    rfl
                  refine ⟨?_, ?_, ?_, ?_⟩
                  · apply createsGuarded_of_guardedFrom
                    rw [htrace, guardedFrom_append]
                    refine ⟨guardedFrom_of_noCreate _ _ hIBno, ?_⟩
                    rw [guardedFrom_append]
                    refine ⟨guardedFrom_of_noCreate _ _ hCMno, ?_⟩
                    simpa using hg
                  · intro _
                    rw [htrace]
                    refine ⟨?_, ?_, ?_, ?_⟩
                    · exact List.mem_append_left _ hIBget
                    · exact List.mem_append_right _ (List.mem_append_left _ hCMget)
                    · intro h
                      exact List.mem_append_left _ (hIBdel h)
                    · intro h
                      exact List.mem_append_right _ (List.mem_append_left _ (hCMdel h))
                  · rw [hfm]
                    rcases hcreates with ⟨h, _⟩ | h
                    · exact Or.inr (Or.inl h)
                    · exact Or.inr (Or.inr h)
                  · intro h
                    rw [hfm]
                    rw [hexit] at h
                    exact createPhase_exit env flags w manifestData h

/-- Witness for C8: resubmitting the build `demo` while the old ImageBuild and
ConfigMap still exist creates each of the two exactly once. -/
theorem runBuild_creates_guarded_witness :
    (runBuild resubmitEnv exampleFlags exampleWorld).trace.filterMap createTarget =
      [(Kind.configMap, "demo-manifest-config"), (Kind.imageBuild, "demo")] :=
  (runBuild_creates_guarded resubmitEnv exampleFlags exampleWorld).2.2.2 (by decide)

/-! ### Phases of a run -/

theorem prelude_append (a b : List Event) (ha : Prelude a) (hb : Prelude b) :
    Prelude (a ++ b) := by
  intro e he
  rcases List.mem_append.1 he with h | h
  · exact ha e h
  · exact hb e h

theorem prelude_cons (e : Event) (rest : List Event) (he : e.isPrelude = true)
    (h : Prelude rest) : Prelude (e :: rest) := by
  intro x hx
  rcases List.mem_cons.1 hx with rfl | hx
  · exact he
  · exact h x hx

theorem prelude_nil : Prelude [] := by
  intro x hx
  cases hx

theorem prelude_map_get (kind : Kind) (name : String) (rs : List Lookup) :
    Prelude (rs.map (Event.get kind name)) := by
  intro e he
  obtain ⟨x, _, rfl⟩ := List.mem_map.1 he
  rfl

theorem prelude_replaceExisting (kind : Kind) (name : String) (renv : ReplaceEnv) :
    Prelude (replaceExisting kind name renv).1 := by
  unfold replaceExisting
  cases renv.initial with
  | notFound => exact prelude_cons _ _ rfl prelude_nil
  | failed msg => exact prelude_cons _ _ rfl (prelude_cons _ _ rfl prelude_nil)
  | found =>
    have h2 : Prelude [Event.get kind name Lookup.found,
        Event.print ("Deleting existing " ++ kind.label ++ " " ++ name ++ "\n")] :=
      prelude_cons _ _ rfl (prelude_cons _ _ rfl prelude_nil)
    cases renv.deleteErr with
    | some msg =>
      exact prelude_append _ _ h2 (prelude_cons _ _ rfl (prelude_cons _ _ rfl prelude_nil))
    | none =>
      have h4 := prelude_append _ _ h2 (prelude_cons (Event.delete kind name none) _ rfl
        (prelude_cons (Event.print ("Waiting for " ++ kind.label ++ " " ++ name ++
          " to be deleted...\n")) _ rfl prelude_nil))
      obtain ⟨rs, h1, _⟩ := awaitDeletion_shape kind name renv.firstPoll renv.ticks
      cases hpoll : awaitDeletion kind name renv.firstPoll renv.ticks with
      | mk polled err =>
        rw [hpoll] at h1
        simp only at h1
        subst h1
        cases err with
        | some msg =>
          exact prelude_append _ _ (prelude_append _ _ h4 (prelude_map_get _ _ _))
            (prelude_cons _ _ rfl prelude_nil)
        | none => exact prelude_append _ _ h4 (prelude_map_get _ _ _)

/-- Every run either exits inside the lookup and delete blocks or goes on to
`createPhase` after them. -/
theorem runBuild_prefix (env : BuildEnv) (flags : Flags) (w : World) :
    ∃ pre, Prelude pre ∧
      (runBuild env flags w = exit1 pre w ∨
        ∃ manifestData, env.readManifest = Except.ok manifestData ∧
          runBuild env flags w = emit pre (createPhase env flags w manifestData)) := by
  have hIB := prelude_replaceExisting Kind.imageBuild flags.buildName env.imageBuild
  have hCM := prelude_replaceExisting Kind.configMap (flags.buildName ++ "-manifest-config")
    env.configMap
  cases hgc : env.getClientErr with
  | some e =>
    exact ⟨[Event.print ("Error: " ++ e ++ "\n")], prelude_cons _ _ rfl prelude_nil,
      Or.inl (by simp [runBuild, hgc])⟩
  | none =>
    by_cases hbn : flags.buildName = ""
    · exact ⟨[Event.print "Error: --name flag is required\n"],
        prelude_cons _ _ rfl prelude_nil, Or.inl (by simp [runBuild, hgc, hbn])⟩
    · cases h1 : replaceExisting Kind.imageBuild flags.buildName env.imageBuild with
      | mk evs1 ok1 =>
        rw [h1] at hIB
        cases ok1 with
        | false => exact ⟨evs1, hIB, Or.inl (by simp [runBuild, hgc, hbn, h1])⟩
        | true =>
          by_cases hm : flags.manifest = ""
          · exact ⟨evs1 ++ [Event.print "Error: --manifest is required\n"],
              prelude_append _ _ hIB (prelude_cons _ _ rfl prelude_nil),
              Or.inl (by simp [runBuild, hgc, hbn, h1, hm, emit, exit1])⟩
          · cases hrm : env.readManifest with
            | error e =>
              exact ⟨evs1 ++ [Event.print ("Error reading manifest file: " ++ e ++ "\n")],
                prelude_append _ _ hIB (prelude_cons _ _ rfl prelude_nil),
                Or.inl (by simp [runBuild, hgc, hbn, h1, hm, hrm, emit, exit1])⟩
            | ok manifestData =>
              cases h2 : replaceExisting Kind.configMap
                  (flags.buildName ++ "-manifest-config") env.configMap with
              | mk evs2 ok2 =>
                rw [h2] at hCM
                cases ok2 with
                | false =>
                  exact ⟨evs1 ++ evs2, prelude_append _ _ hIB hCM,
                    Or.inl (by simp [runBuild, hgc, hbn, h1, hm, hrm, h2, emit, exit1])⟩
                | true =>
                  exact ⟨evs1 ++ evs2, prelude_append _ _ hIB hCM,
                    Or.inr ⟨manifestData, rfl,
                      by simp [runBuild, hgc, hbn, h1, hm, hrm, h2, emit]⟩⟩

/-- The three ways through the creations of `createPhase`. -/
theorem createPhase_cases (env : BuildEnv) (flags : Flags) (w : World) (manifestData : String) :
    createPhase env flags w manifestData =
      match env.createConfigMapErr with
      | some e =>
        exit1 [Event.print ("Creating ConfigMap " ++ (flags.buildName ++ "-manifest-config") ++
            " with manifest file " ++ filepathBase flags.manifest ++ "\n"),
          Event.createConfigMap (flags.buildName ++ "-manifest-config")
            (filepathBase flags.manifest) manifestData (some e),
          Event.print ("Error creating ConfigMap: " ++ e ++ "\n")] w
      | none =>
        match env.createImageBuildErr with
        | some e =>
          exit1 ([Event.print ("Creating ConfigMap " ++
              (flags.buildName ++ "-manifest-config") ++
              " with manifest file " ++ filepathBase flags.manifest ++ "\n"),
            Event.createConfigMap (flags.buildName ++ "-manifest-config")
              (filepathBase flags.manifest) manifestData none] ++
            (parseWarning env.unmarshal manifestData).map Event.print ++
            [Event.print ("Creating ImageBuild " ++ flags.buildName ++ "\n"),
             Event.createImageBuild (newImageBuild flags (flags.buildName ++ "-manifest-config")
               (decide (0 < (findLocalFileReferences env.unmarshal manifestData).length)))
               (some e),
             Event.print ("Error creating ImageBuild: " ++ e ++ "\n")]) w
        | none =>
          emit ([Event.print ("Creating ConfigMap " ++
              (flags.buildName ++ "-manifest-config") ++
              " with manifest file " ++ filepathBase flags.manifest ++ "\n"),
            Event.createConfigMap (flags.buildName ++ "-manifest-config")
              (filepathBase flags.manifest) manifestData none] ++
            (parseWarning env.unmarshal manifestData).map Event.print ++
            [Event.print ("Creating ImageBuild " ++ flags.buildName ++ "\n"),
             Event.createImageBuild (newImageBuild flags (flags.buildName ++ "-manifest-config")
               (decide (0 < (findLocalFileReferences env.unmarshal manifestData).length)))
               none])
            (ownerLinkPhase env flags w manifestData) := by
  have hname : (newImageBuild flags (flags.buildName ++ "-manifest-config")
      (decide (0 < (findLocalFileReferences env.unmarshal manifestData).length))).Name =
      flags.buildName := by
    unfold newImageBuild
    cases flags.download <;> rfl
  unfold createPhase ownerLinkPhase
  simp only [hname]
  cases env.createConfigMapErr with
  | some e => rfl
  | none =>
    cases env.createImageBuildErr with
    | some e => rfl
    | none =>
      cases env.refetchConfigMap with
      | notFound => simp [emit, exit1]
      | failed e => simp [emit, exit1]
      | found => simp [emit]

theorem prelude_event (e : Event) (h : e.isPrelude = true) :
    e.isUploadStep = false ∧ (∀ c o err, e ≠ Event.updateOwner c o err) ∧
      (∀ ib err, e ≠ Event.createImageBuild ib err) ∧ createTarget e = none := by
  cases e <;> simp [Event.isPrelude] at h <;>
    simp [Event.isUploadStep, createTarget]

theorem noUploadStep_append (a b : List Event) (ha : NoUploadStep a) (hb : NoUploadStep b) :
    NoUploadStep (a ++ b) := by
  intro e he
  rcases List.mem_append.1 he with h | h
  · exact ha e h
  · exact hb e h

theorem noUploadStep_cons (e : Event) (rest : List Event) (he : e.isUploadStep = false)
    (h : NoUploadStep rest) : NoUploadStep (e :: rest) := by
  intro x hx
  rcases List.mem_cons.1 hx with rfl | hx
  · exact he
  · exact h x hx

theorem noUploadStep_nil : NoUploadStep [] := by
  intro x hx
  cases hx

theorem noUploadStep_map_print (out : List String) : NoUploadStep (out.map Event.print) := by
  intro e he
  obtain ⟨x, _, rfl⟩ := List.mem_map.1 he
  rfl

/-- Every run is a list of events without upload steps followed either by an
exit before the ImageBuild was created or by `ownerLinkPhase`; an ImageBuild
creation among these events submits the object of `newImageBuild`. -/
theorem runBuild_phases (env : BuildEnv) (flags : Flags) (w : World) :
    ∃ pre, NoUploadStep pre ∧ (∀ c o err, Event.updateOwner c o err ∉ pre) ∧
      (∀ ib err, Event.createImageBuild ib err ∈ pre →
        ∃ manifestData, env.readManifest = Except.ok manifestData ∧
          ib = newImageBuild flags (flags.buildName ++ "-manifest-config")
            (decide (0 < (findLocalFileReferences env.unmarshal manifestData).length))) ∧
      ((runBuild env flags w = exit1 pre w ∧ ∀ ib, Event.createImageBuild ib none ∉ pre) ∨
        ∃ manifestData, env.readManifest = Except.ok manifestData ∧
          runBuild env flags w = emit pre (ownerLinkPhase env flags w manifestData)) := by
  obtain ⟨pre0, hpre0, hrun⟩ := runBuild_prefix env flags w
  have h0step : NoUploadStep pre0 := fun e he => (prelude_event e (hpre0 e he)).1
  have h0upd : ∀ c o err, Event.updateOwner c o err ∉ pre0 :=
    fun c o err he => (prelude_event _ (hpre0 _ he)).2.1 c o err rfl
  have h0ib : ∀ ib err, Event.createImageBuild ib err ∉ pre0 :=
    fun ib err he => (prelude_event _ (hpre0 _ he)).2.2.1 ib err rfl
  rcases hrun with hexit | ⟨md, hmd, hrun⟩
  · exact ⟨pre0, h0step, h0upd, fun ib err he => absurd he (h0ib ib err),
      Or.inl ⟨hexit, fun ib he => h0ib ib none he⟩⟩
  · rw [createPhase_cases] at hrun
    cases hcm : env.createConfigMapErr with
    | some e =>
      rw [hcm] at hrun
      refine ⟨pre0 ++ [Event.print ("Creating ConfigMap " ++
          (flags.buildName ++ "-manifest-config") ++
          " with manifest file " ++ filepathBase flags.manifest ++ "\n"),
        Event.createConfigMap (flags.buildName ++ "-manifest-config")
          (filepathBase flags.manifest) md (some e),
        Event.print ("Error creating ConfigMap: " ++ e ++ "\n")], ?_, ?_, ?_, Or.inl ⟨?_, ?_⟩⟩
      · exact noUploadStep_append _ _ h0step (noUploadStep_cons _ _ rfl
          (noUploadStep_cons _ _ rfl (noUploadStep_cons _ _ rfl noUploadStep_nil)))
      · intro c o err he
        rcases List.mem_append.1 he with h | h
        · exact h0upd c o err h
        · simp at h
      · intro ib err he
        rcases List.mem_append.1 he with h | h
        · exact absurd h (h0ib ib err)
        · simp at h
      · rw [hrun]
        simp [emit, exit1]
      · intro ib he
        rcases List.mem_append.1 he with h | h
        · exact h0ib ib none h
        · simp at h
    | none =>
      rw [hcm] at hrun
      cases hib : env.createImageBuildErr with
      | some e =>
        rw [hib] at hrun
        refine ⟨pre0 ++ ([Event.print ("Creating ConfigMap " ++
            (flags.buildName ++ "-manifest-config") ++
            " with manifest file " ++ filepathBase flags.manifest ++ "\n"),
          Event.createConfigMap (flags.buildName ++ "-manifest-config")
            (filepathBase flags.manifest) md none] ++
          (parseWarning env.unmarshal md).map Event.print ++
          [Event.print ("Creating ImageBuild " ++ flags.buildName ++ "\n"),
           Event.createImageBuild (newImageBuild flags (flags.buildName ++ "-manifest-config")
             (decide (0 < (findLocalFileReferences env.unmarshal md).length))) (some e),
           Event.print ("Error creating ImageBuild: " ++ e ++ "\n")]), ?_, ?_, ?_,
          Or.inl ⟨?_, ?_⟩⟩
        · exact noUploadStep_append _ _ h0step (noUploadStep_append _ _
            (noUploadStep_append _ _ (noUploadStep_cons _ _ rfl
              (noUploadStep_cons _ _ rfl noUploadStep_nil)) (noUploadStep_map_print _))
            (noUploadStep_cons _ _ rfl (noUploadStep_cons _ _ rfl
              (noUploadStep_cons _ _ rfl noUploadStep_nil))))
        · intro c o err he
          rcases List.mem_append.1 he with h | h
          · exact h0upd c o err h
          · simp at h
        · intro ib err he
          rcases List.mem_append.1 he with h | h
          · exact absurd h (h0ib ib err)
          · simp only [List.mem_append, List.mem_cons, List.mem_map, List.mem_singleton,
              List.not_mem_nil, or_false, Event.createImageBuild.injEq] at h
            rcases h with (h | h) | h
            · simp at h
            · obtain ⟨_, _, h⟩ := h
              cases h
            · rcases h with h | h | h
              · cases h
              · exact ⟨md, hmd, h.1⟩
              · cases h
        · rw [hrun]
          simp [emit, exit1]
        · intro ib he
          rcases List.mem_append.1 he with h | h
          · exact h0ib ib none h
          · simp at h
      | none =>
        rw [hib] at hrun
        refine ⟨pre0 ++ ([Event.print ("Creating ConfigMap " ++
            (flags.buildName ++ "-manifest-config") ++
            " with manifest file " ++ filepathBase flags.manifest ++ "\n"),
          Event.createConfigMap (flags.buildName ++ "-manifest-config")
            (filepathBase flags.manifest) md none] ++
          (parseWarning env.unmarshal md).map Event.print ++
          [Event.print ("Creating ImageBuild " ++ flags.buildName ++ "\n"),
           Event.createImageBuild (newImageBuild flags (flags.buildName ++ "-manifest-config")
             (decide (0 < (findLocalFileReferences env.unmarshal md).length))) none]),
          ?_, ?_, ?_, Or.inr ⟨md, hmd, ?_⟩⟩
        · exact noUploadStep_append _ _ h0step (noUploadStep_append _ _
            (noUploadStep_append _ _ (noUploadStep_cons _ _ rfl
              (noUploadStep_cons _ _ rfl noUploadStep_nil)) (noUploadStep_map_print _))
            (noUploadStep_cons _ _ rfl (noUploadStep_cons _ _ rfl noUploadStep_nil)))
        · intro c o err he
          rcases List.mem_append.1 he with h | h
          · exact h0upd c o err h
          · simp at h
        · intro ib err he
          rcases List.mem_append.1 he with h | h
          · exact absurd h (h0ib ib err)
          · simp only [List.mem_append, List.mem_cons, List.mem_map, List.mem_singleton,
              List.not_mem_nil, or_false, Event.createImageBuild.injEq] at h
            rcases h with (h | h) | h
            · simp at h
            · obtain ⟨_, _, h⟩ := h
              cases h
            · rcases h with h | h
              · cases h
              · exact ⟨md, hmd, h.1⟩
        · rw [hrun]
          simp [emit]

theorem waitForUploadPod_events (P : Event → Prop) (hprint : ∀ t, P (Event.print t))
    (hlist : ∀ b a r, P (Event.listPods b a r)) (buildName : String) (polls : List PodList) :
    ∀ e ∈ (waitForUploadPod buildName polls).1, P e := by
  have hcons : ∀ (e : Event) (rest : List Event), P e → (∀ x ∈ rest, P x) →
      ∀ x ∈ e :: rest, P x := by
    intro e rest he hrest x hx
    rcases List.mem_cons.1 hx with rfl | hx
    · exact he
    · exact hrest x hx
  have happ : ∀ (a b : List Event), (∀ x ∈ a, P x) → (∀ x ∈ b, P x) → ∀ x ∈ a ++ b, P x := by
    intro a b ha hb x hx
    rcases List.mem_append.1 hx with h | h
    · exact ha x h
    · exact hb x h
  have hnil : ∀ x ∈ ([] : List Event), P x := by
    intro x hx
    cases hx
  have hinv := poll_invariant (uploadPodCondition buildName)
    (fun st => ∀ x ∈ st.1, P x)
    (by
      intro st r h
      unfold uploadPodCondition
      cases r with
      | failed e => exact happ _ _ h (hcons _ _ (hlist _ _ _) hnil)
      | items pods =>
        simp only
        cases pods.find? (fun pod => decide (pod.Phase = "Running")) with
        | some pod => exact happ _ _ h (hcons _ _ (hlist _ _ _) hnil)
        | none => exact happ _ _ h (hcons _ _ (hlist _ _ _) (hcons _ _ (hprint _) hnil)))
    (polls.take 24)
    ([Event.print "Waiting for file upload server to be ready...\n"], none)
    (hcons _ _ (hprint _) hnil)
  unfold waitForUploadPod
  simp only
  cases hp : pollUntilContextTimeout (uploadPodCondition buildName)
      ([Event.print "Waiting for file upload server to be ready...\n"], none)
      (polls.take 24) with
  | mk st err =>
    rw [hp] at hinv
    obtain ⟨events, pod⟩ := st
    cases pod with
    | none =>
      cases err with
      | some e => exact hinv
      | none => exact hinv
    | some pod =>
      cases err with
      | some e => exact hinv
      | none => exact happ _ _ hinv (hcons _ _ (hprint _) hnil)

theorem markUploadsComplete_events (P : Event → Prop) (hprint : ∀ t, P (Event.print t))
    (hget : ∀ k n r, P (Event.get k n r)) (hpatch : ∀ n err, P (Event.patchUploadsComplete n err))
    (buildName : String) (got : Lookup) (patchErr : Option String) :
    ∀ e ∈ (markUploadsComplete buildName got patchErr).1, P e := by
  unfold markUploadsComplete
  cases got with
  | notFound =>
    intro e he
    simp only [List.mem_singleton] at he
    subst he
    exact hget _ _ _
  | failed msg =>
    intro e he
    simp only [List.mem_singleton] at he
    subst he
    exact hget _ _ _
  | found =>
    cases patchErr with
    | some msg =>
      intro e he
      simp only [List.mem_cons, List.mem_singleton, List.not_mem_nil, or_false] at he
      rcases he with rfl | rfl
      · exact hget _ _ _
      · exact hpatch _ _
    | none =>
      intro e he
      simp only [List.mem_cons, List.mem_singleton, List.not_mem_nil, or_false] at he
      rcases he with rfl | rfl | rfl
      · exact hget _ _ _
      · exact hpatch _ _
      · exact hprint _

theorem waitAndDownload_events (P : Event → Prop) (hprint : ∀ t, P (Event.print t))
    (hget : ∀ k n r, P (Event.get k n r)) (hexec : ∀ c, P (Event.exec c))
    (env : BuildEnv) (flags : Flags) (w : World) :
    ∀ e ∈ (waitAndDownload env flags w).trace, P e := by
  have hmapP : ∀ out : List String, ∀ x ∈ out.map Event.print, P x := by
    intro out x hx
    obtain ⟨y, _, rfl⟩ := List.mem_map.1 hx
    exact hprint _
  have hmapE : ∀ calls : List ExecCall, ∀ x ∈ calls.map Event.exec, P x := by
    intro calls x hx
    obtain ⟨y, _, rfl⟩ := List.mem_map.1 hx
    exact hexec _
  have happ : ∀ (a b : List Event), (∀ x ∈ a, P x) → (∀ x ∈ b, P x) → ∀ x ∈ a ++ b, P x := by
    intro a b ha hb x hx
    rcases List.mem_append.1 hx with h | h
    · exact ha x h
    · exact hb x h
  have hone : ∀ e : Event, P e → ∀ x ∈ [e], P x := by
    intro e he x hx
    simp only [List.mem_singleton] at hx
    subst hx
    exact he
  unfold waitAndDownload
  by_cases hw : flags.waitForBuild = true
  · simp only [hw, if_true]
    have hevents : ∀ x ∈ ([Event.print ("Waiting for build " ++ flags.buildName ++
        " to complete (timeout: " ++ toString flags.timeout ++ " minutes)...\n")] ++
        (env.buildPolls.take (waitForBuildCompletion flags.timeout env.buildPolls).gets).map
          (fun p => Event.get Kind.imageBuild flags.buildName (lookupOf p)) ++
        (waitForBuildCompletion flags.timeout env.buildPolls).out.map Event.print), P x := by
      refine happ _ _ (happ _ _ (hone _ (hprint _)) ?_) (hmapP _)
      intro e he
      obtain ⟨x, _, rfl⟩ := List.mem_map.1 he
      exact hget _ _ _
    cases (waitForBuildCompletion flags.timeout env.buildPolls).err with
    | some e => exact happ _ _ hevents (hone _ (hprint _))
    | none =>
      cases (waitForBuildCompletion flags.timeout env.buildPolls).build with
      | none => exact hevents
      | some completeBuild =>
        simp only
        split
        · exact happ _ _ (happ _ _ hevents (hmapE _)) (hmapP _)
        · exact hevents
  · simp only [hw, Bool.false_eq_true, if_false]
    intro x hx
    cases hx

theorem noCreate_ownerLinkPhase (env : BuildEnv) (flags : Flags) (w : World)
    (manifestData : String) : NoCreate (ownerLinkPhase env flags w manifestData).trace := by
  unfold ownerLinkPhase
  simp only
  cases env.refetchConfigMap with
  | notFound => exact noCreate_cons _ _ rfl (noCreate_cons _ _ rfl noCreate_nil)
  | failed e => exact noCreate_cons _ _ rfl (noCreate_cons _ _ rfl noCreate_nil)
  | found =>
    refine noCreate_emit _ _ ((noCreate_append _ _).2
      ⟨noCreate_cons _ _ rfl (noCreate_cons _ _ rfl noCreate_nil), ?_⟩)
      (noCreate_uploadPhase _ _ _ _ _)
    cases env.updateOwnerErr with
    | some e => exact noCreate_cons _ _ rfl noCreate_nil
    | none => exact noCreate_nil

/-- Every creation of an ImageBuild in a run submits the object of
`newImageBuild` for the manifest that was read. -/
theorem runBuild_created_object (env : BuildEnv) (flags : Flags) (w : World) (ib : ImageBuild)
    (err : Option String)
    (h : Event.createImageBuild ib err ∈ (runBuild env flags w).trace) :
    ∃ manifestData, env.readManifest = Except.ok manifestData ∧
      ib = newImageBuild flags (flags.buildName ++ "-manifest-config")
        (decide (0 < (findLocalFileReferences env.unmarshal manifestData).length)) := by
  obtain ⟨pre, _, _, hib, hrun⟩ := runBuild_phases env flags w
  rcases hrun with ⟨hrun, _⟩ | ⟨md, hmd, hrun⟩
  · rw [hrun] at h
    exact hib ib err h
  · rw [hrun] at h
    rcases List.mem_append.1 h with h | h
    · exact hib ib err h
    · have := noCreate_ownerLinkPhase env flags w md _ h
      simp [createTarget] at this

theorem newImageBuild_serveArtifact (flags : Flags) (configMapName : String)
    (hasLocalFiles : Bool) :
    (newImageBuild flags configMapName hasLocalFiles).Spec.ServeArtifact = flags.download := by
  unfold newImageBuild
  cases hd : flags.download <;> simp

/-- C15: whatever the wait and download flags are, the serve-artifact flag of
the ImageBuild that `runBuild` submits equals the download flag (the wait flag
has no influence on it); and when the wait flag is unset, lines 312 to 323 do
nothing and the run does not depend on anything that `downloadArtifacts` or the
completion wait would consult, so a run with download set and wait unset asks
for the artifact to be served without calling `downloadArtifacts`. -/
theorem runBuild_serve_artifact (env : BuildEnv) (flags : Flags) (w : World) :
    (∀ (waitFlag : Bool) (configMapName : String) (hasLocalFiles : Bool),
        (newImageBuild { flags with waitForBuild := waitFlag } configMapName
          hasLocalFiles).Spec.ServeArtifact = flags.download) ∧
      (∀ ib err, Event.createImageBuild ib err ∈ (runBuild env flags w).trace →
        ib.Spec.ServeArtifact = flags.download) ∧
      (flags.waitForBuild = false →
        waitAndDownload env flags w = { trace := [], world := w, exit := none } ∧
        ∀ (d : DownloadEnv) (polls : List (Except String ImageBuild)),
          runBuild { env with download := d, buildPolls := polls } flags w =
            runBuild env flags w) := by
  refine ⟨?_, ?_, ?_⟩
  · intro waitFlag configMapName hasLocalFiles
    exact newImageBuild_serveArtifact _ _ _
  · intro ib err h
    obtain ⟨md, _, rfl⟩ := runBuild_created_object env flags w ib err h
    exact newImageBuild_serveArtifact _ _ _
  · intro hw
    refine ⟨by simp [waitAndDownload, hw], ?_⟩
    intro d polls
    simp [runBuild, createPhase, uploadPhase, waitAndDownload, hw]

/-- Witness for C15: with `--download` and without `--wait` the submitted
ImageBuild asks for serving, and the run ends with the success message. -/
theorem runBuild_serve_artifact_witness :
    (∀ ib err, Event.createImageBuild ib err ∈
        (runBuild resubmitEnv downloadOnlyFlags exampleWorld).trace →
        ib.Spec.ServeArtifact = true) ∧
      (runBuild resubmitEnv downloadOnlyFlags exampleWorld).trace.getLast? =
        some (Event.print "ImageBuild demo created successfully in namespace default\n") :=
  ⟨(runBuild_serve_artifact resubmitEnv downloadOnlyFlags exampleWorld).2.1, by decide⟩

theorem copyFromPod_calls_plain (env : Env) (w : World)
    (ns podName containerName localPath podPath : String) :
    ∃ extra, (copyFromPod env w ns podName containerName localPath podPath).1.calls =
        w.calls ++ extra ∧ ∀ c ∈ extra, c.stdin = none := by
  have one : ∃ extra, w.calls ++ [plainCall ns podName containerName
      ["stat", "-c", "%s", podPath]] = w.calls ++ extra ∧ ∀ c ∈ extra, c.stdin = none :=
    ⟨[plainCall ns podName containerName ["stat", "-c", "%s", podPath]], rfl,
      by simp [plainCall]⟩
  have two : ∃ extra, w.calls ++ [plainCall ns podName containerName
      ["stat", "-c", "%s", podPath]] ++ [plainCall ns podName containerName
      ["cat", podPath]] = w.calls ++ extra ∧ ∀ c ∈ extra, c.stdin = none :=
    ⟨[plainCall ns podName containerName ["stat", "-c", "%s", podPath],
      plainCall ns podName containerName ["cat", podPath]], by simp,
      by simp [plainCall]⟩
  unfold copyFromPod
  simp only [stream]
  split
  · exact ⟨[], by simp⟩
  · split
    · exact one
    · split
      · exact one
      · split
        · exact one
        · split
          · rename_i h _
            simp_all
          · split
            · exact two
            · split
              · split
                · exact two
                · exact two
              · exact two

theorem copyFile_download_calls_plain (env : Env) (w : World)
    (ns podName containerName localPath podPath : String) :
    ∃ extra, (copyFile env w ns podName containerName localPath podPath false).1.calls =
        w.calls ++ extra ∧ ∀ c ∈ extra, c.stdin = none := by
  unfold copyFile
  cases env.clientsetErr with
  | some e => exact ⟨[], by simp⟩
  | none => simpa using copyFromPod_calls_plain env w ns podName containerName localPath podPath

theorem downloadArtifacts_calls_plain (env : Env) (denv : DownloadEnv) (w : World)
    (outputDir : String) (imageBuild : ImageBuild) :
    ∃ extra, (downloadArtifacts env denv w outputDir imageBuild).1.calls = w.calls ++ extra ∧
      ∀ c ∈ extra, c.stdin = none := by
  unfold downloadArtifacts
  split
  · exact ⟨[], by simp⟩
  · split
    · exact ⟨[], by simp⟩
    · split
      · exact ⟨[], by simp⟩
      · exact ⟨[], by simp⟩
      · split
        · exact ⟨[], by simp⟩
        · rename_i artifactPod tl _ _ _
          have hcf := copyFile_download_calls_plain env w imageBuild.Namespace artifactPod.Name
            "fileserver" (filepathJoin outputDir (artifactFileName imageBuild))
            ("/workspace/shared/" ++ artifactFileName imageBuild)
          dsimp only
          generalize copyFile env w imageBuild.Namespace artifactPod.Name "fileserver"
            (filepathJoin outputDir (artifactFileName imageBuild))
            ("/workspace/shared/" ++ artifactFileName imageBuild) false = x at hcf ⊢
          rcases x with ⟨w1, _ | e⟩ <;> exact hcf

/-- A variant of `waitAndDownload_events` that may use that the remote commands
of lines 312 to 323 have no standard input. -/
theorem waitAndDownload_events_plain (P : Event → Prop) (hprint : ∀ t, P (Event.print t))
    (hget : ∀ k n r, P (Event.get k n r)) (hexec : ∀ c, c.stdin = none → P (Event.exec c))
    (env : BuildEnv) (flags : Flags) (w : World) :
    ∀ e ∈ (waitAndDownload env flags w).trace, P e := by
  have hmapP : ∀ out : List String, ∀ x ∈ out.map Event.print, P x := by
    intro out x hx
    obtain ⟨y, _, rfl⟩ := List.mem_map.1 hx
    exact hprint _
  have happ : ∀ (a b : List Event), (∀ x ∈ a, P x) → (∀ x ∈ b, P x) → ∀ x ∈ a ++ b, P x := by
    intro a b ha hb x hx
    rcases List.mem_append.1 hx with h | h
    · exact ha x h
    · exact hb x h
  have hone : ∀ e : Event, P e → ∀ x ∈ [e], P x := by
    intro e he x hx
    simp only [List.mem_singleton] at hx
    subst hx
    exact he
  unfold waitAndDownload
  by_cases hw : flags.waitForBuild = true
  · simp only [hw, if_true]
    have hevents : ∀ x ∈ ([Event.print ("Waiting for build " ++ flags.buildName ++
        " to complete (timeout: " ++ toString flags.timeout ++ " minutes)...\n")] ++
        (env.buildPolls.take (waitForBuildCompletion flags.timeout env.buildPolls).gets).map
          (fun p => Event.get Kind.imageBuild flags.buildName (lookupOf p)) ++
        (waitForBuildCompletion flags.timeout env.buildPolls).out.map Event.print), P x := by
      refine happ _ _ (happ _ _ (hone _ (hprint _)) ?_) (hmapP _)
      intro e he
      obtain ⟨x, _, rfl⟩ := List.mem_map.1 he
      exact hget _ _ _
    cases (waitForBuildCompletion flags.timeout env.buildPolls).err with
    | some e => exact happ _ _ hevents (hone _ (hprint _))
    | none =>
      cases (waitForBuildCompletion flags.timeout env.buildPolls).build with
      | none => exact hevents
      | some completeBuild =>
        simp only
        split
        · have hE : ∀ x ∈ ((downloadArtifacts env.remote env.download w flags.outputDir
              completeBuild).1.calls.drop w.calls.length).map Event.exec, P x := by
            obtain ⟨extra, h1, h2⟩ := downloadArtifacts_calls_plain env.remote env.download w
              flags.outputDir completeBuild
            rw [h1, List.drop_left]
            intro x hx
            obtain ⟨y, hy, rfl⟩ := List.mem_map.1 hx
            exact hexec _ (h2 y hy)
          exact happ _ _ (happ _ _ hevents hE) (hmapP _)
        · exact hevents
  · simp only [hw, Bool.false_eq_true, if_false]
    intro x hx
    cases hx

theorem ownerLinkPhase_cases (env : BuildEnv) (flags : Flags) (w : World)
    (manifestData : String) :
    ∃ mid, NoUploadStep mid ∧
      (ownerLinkPhase env flags w manifestData = exit1 mid w ∨
        ownerLinkPhase env flags w manifestData =
          emit mid (uploadPhase env flags w manifestData
            (decide (0 < (findLocalFileReferences env.unmarshal manifestData).length)))) := by
  unfold ownerLinkPhase
  simp only
  cases env.refetchConfigMap with
  | notFound =>
    exact ⟨[Event.get Kind.configMap (flags.buildName ++ "-manifest-config") Lookup.notFound,
        Event.print "Error retrieving ConfigMap for owner update: not found\n"],
      noUploadStep_cons _ _ rfl (noUploadStep_cons _ _ rfl noUploadStep_nil), Or.inl rfl⟩
  | failed e =>
    exact ⟨[Event.get Kind.configMap (flags.buildName ++ "-manifest-config") (Lookup.failed e),
        Event.print ("Error retrieving ConfigMap for owner update: " ++ e ++ "\n")],
      noUploadStep_cons _ _ rfl (noUploadStep_cons _ _ rfl noUploadStep_nil), Or.inl rfl⟩
  | found =>
    refine ⟨[Event.get Kind.configMap (flags.buildName ++ "-manifest-config") Lookup.found,
        Event.updateOwner (flags.buildName ++ "-manifest-config")
          (newImageBuild flags (flags.buildName ++ "-manifest-config")
            (decide (0 < (findLocalFileReferences env.unmarshal manifestData).length))).Name
          env.updateOwnerErr] ++
        (match env.updateOwnerErr with
          | some e => [Event.print
              ("Warning: Failed to update ConfigMap with owner reference: " ++ e ++ "\n")]
          | none => []), ?_, Or.inr rfl⟩
    refine noUploadStep_append _ _
      (noUploadStep_cons _ _ rfl (noUploadStep_cons _ _ rfl noUploadStep_nil)) ?_
    cases env.updateOwnerErr with
    | some e => exact noUploadStep_cons _ _ rfl noUploadStep_nil
    | none => exact noUploadStep_nil

/-- Every run consists of events without upload steps followed either by an
exit or by `uploadPhase`. -/
theorem runBuild_upload_split (env : BuildEnv) (flags : Flags) (w : World) :
    ∃ pre, NoUploadStep pre ∧
      (runBuild env flags w = exit1 pre w ∨
        ∃ manifestData, env.readManifest = Except.ok manifestData ∧
          runBuild env flags w = emit pre (uploadPhase env flags w manifestData
            (decide (0 < (findLocalFileReferences env.unmarshal manifestData).length)))) := by
  obtain ⟨pre, hpre, _, _, hrun⟩ := runBuild_phases env flags w
  rcases hrun with ⟨hrun, _⟩ | ⟨md, hmd, hrun⟩
  · exact ⟨pre, hpre, Or.inl hrun⟩
  · obtain ⟨mid, hmid, hcase⟩ := ownerLinkPhase_cases env flags w md
    refine ⟨pre ++ mid, noUploadStep_append _ _ hpre hmid, ?_⟩
    rcases hcase with h | h
    · exact Or.inl (by rw [hrun, h]; simp [emit, exit1])
    · exact Or.inr ⟨md, hmd, by rw [hrun, h]; simp [emit]⟩

theorem findLocalFileReferences_parse_error (unmarshal : String → Except String Mapping)
    (manifestContent e : String) (h : unmarshal manifestContent = Except.error e) :
    findLocalFileReferences unmarshal manifestContent = [] := by
  simp [findLocalFileReferences, h]

/-- C13: when the manifest that was read fails to parse,
`findLocalFileReferences` returns the empty list (it has no error result), every
ImageBuild that the run submits has the input-files flag false, and the run
consists of events that are no sandbox poll, no remote command and no marker
patch, followed either by an exit or directly by lines 312 to 323 in the
unchanged state; no event of the whole run is a sandbox poll or a marker patch
and no remote command of it carries an archive. -/
theorem runBuild_parse_failure (env : BuildEnv) (flags : Flags) (w : World)
    (manifestData e : String) (hread : env.readManifest = Except.ok manifestData)
    (hparse : env.unmarshal manifestData = Except.error e) :
    findLocalFileReferences env.unmarshal manifestData = [] ∧
      (∀ ib err, Event.createImageBuild ib err ∈ (runBuild env flags w).trace →
        ib.Spec.InputFilesServer = false) ∧
      (∃ pre, NoUploadStep pre ∧
        (runBuild env flags w = exit1 pre w ∨
          runBuild env flags w = emit pre (waitAndDownload env flags w))) ∧
      (∀ ev ∈ (runBuild env flags w).trace,
        (∀ b a r, ev ≠ Event.listPods b a r) ∧
        (∀ n err, ev ≠ Event.patchUploadsComplete n err) ∧
        (∀ c, ev = Event.exec c → c.stdin = none)) := by
  have hrefs := findLocalFileReferences_parse_error env.unmarshal manifestData e hparse
  have hsplit : ∃ pre, NoUploadStep pre ∧
      (runBuild env flags w = exit1 pre w ∨
        runBuild env flags w = emit pre (waitAndDownload env flags w)) := by
    obtain ⟨pre, hpre, hrun⟩ := runBuild_upload_split env flags w
    rcases hrun with hrun | ⟨md, hmd, hrun⟩
    · exact ⟨pre, hpre, Or.inl hrun⟩
    · rw [hread] at hmd
      cases hmd
      refine ⟨pre ++ [Event.print ("ImageBuild " ++ flags.buildName ++
        " created successfully in namespace " ++ flags.namespaceName ++ "\n")],
        noUploadStep_append _ _ hpre (noUploadStep_cons _ _ rfl noUploadStep_nil), Or.inr ?_⟩
      rw [hrun]
      simp [uploadPhase, hrefs, emit]
  refine ⟨hrefs, ?_, hsplit, ?_⟩
  · intro ib err h
    obtain ⟨md, hmd, rfl⟩ := runBuild_created_object env flags w ib err h
    rw [hread] at hmd
    cases hmd
    unfold newImageBuild
    cases flags.download <;> simp [hrefs]
  · obtain ⟨pre, hpre, hrun⟩ := hsplit
    have hpreOk : ∀ ev ∈ pre, (∀ b a r, ev ≠ Event.listPods b a r) ∧
        (∀ n err, ev ≠ Event.patchUploadsComplete n err) ∧
        (∀ c, ev = Event.exec c → c.stdin = none) := by
      intro ev hev
      have := hpre ev hev
      refine ⟨?_, ?_, ?_⟩
      · rintro b a r rfl
        simp [Event.isUploadStep] at this
      · rintro n err rfl
        simp [Event.isUploadStep] at this
      · rintro c rfl
        simp [Event.isUploadStep] at this
    rcases hrun with hrun | hrun
    · rw [hrun]
      exact hpreOk
    · rw [hrun]
      intro ev hev
      rcases List.mem_append.1 hev with h | h
      · exact hpreOk ev h
      · refine ⟨?_, ?_, ?_⟩
        · exact waitAndDownload_events (fun x => ∀ b a r, x ≠ Event.listPods b a r)
            (fun _ _ _ _ h => by cases h) (fun _ _ _ _ _ _ h => by cases h)
            (fun _ _ _ _ h => by cases h) env flags w ev h
        · exact waitAndDownload_events (fun x => ∀ n err, x ≠ Event.patchUploadsComplete n err)
            (fun _ _ _ h => by cases h) (fun _ _ _ _ _ h => by cases h)
            (fun _ _ _ h => by cases h) env flags w ev h
        · exact waitAndDownload_events_plain (fun x => ∀ c, x = Event.exec c → c.stdin = none)
            (fun _ _ h => by cases h) (fun _ _ _ _ h => by cases h)
            (fun c hc c2 h => by cases h; exact hc) env flags w ev h

/-- Witness for C13: the manifest `content: [` does not parse; the run creates
the ImageBuild `demo` without the input-files flag and returns. -/
theorem runBuild_parse_failure_witness :
    (∀ ib err, Event.createImageBuild ib err ∈
        (runBuild parseFailEnv exampleFlags exampleWorld).trace →
        ib.Spec.InputFilesServer = false) ∧
      (runBuild parseFailEnv exampleFlags exampleWorld).exit = none :=
  ⟨(runBuild_parse_failure parseFailEnv exampleFlags exampleWorld "content: ["
      "yaml: line 1: did not find expected node content" rfl rfl).2.1, by decide⟩

theorem newImageBuild_name (flags : Flags) (configMapName : String) (hasLocalFiles : Bool) :
    (newImageBuild flags configMapName hasLocalFiles).Name = flags.buildName := by
  unfold newImageBuild
  cases flags.download <;> rfl

/-- C12 as stated fails: in this run the ImageBuild is created, the ConfigMap
cannot be fetched again, and the run prints an error and exits with status 1
without any upload step. -/
theorem runBuild_refetch_failure_fatal :
    Event.createImageBuild (newImageBuild exampleFlags "demo-manifest-config" false) none ∈
        (runBuild refetchFailEnv exampleFlags exampleWorld).trace ∧
      (runBuild refetchFailEnv exampleFlags exampleWorld).exit = some 1 ∧
      (runBuild refetchFailEnv exampleFlags exampleWorld).trace.getLast? = some (Event.print
        "Error retrieving ConfigMap for owner update: context deadline exceeded\n") ∧
      (runBuild refetchFailEnv exampleFlags exampleWorld).trace.all
        (fun ev => !ev.isUploadStep) = true := by
  decide

/-- C12, amended: in a run in which the ImageBuild was created, a failure to
fetch the ConfigMap again is fatal (an error line is the last event, the exit
status is 1, and there is neither an owner update nor an upload step), whereas a
failure of the update that writes the owner reference is reported as a warning
only, after which the run continues with lines 285 to 323 (uploads, final
message, wait and download). -/
theorem runBuild_owner_update_warning (env : BuildEnv) (flags : Flags) (w : World)
    (ib : ImageBuild)
    (hcreated : Event.createImageBuild ib none ∈ (runBuild env flags w).trace) :
    (env.refetchConfigMap ≠ Lookup.found →
        (runBuild env flags w).exit = some 1 ∧
        NoUploadStep (runBuild env flags w).trace ∧
        (∀ c o err, Event.updateOwner c o err ∉ (runBuild env flags w).trace) ∧
        ∃ t, (runBuild env flags w).trace.getLast? =
          some (Event.print ("Error retrieving ConfigMap for owner update: " ++ t ++ "\n"))) ∧
      (env.refetchConfigMap = Lookup.found → ∀ e, env.updateOwnerErr = some e →
        ∃ pre manifestData, env.readManifest = Except.ok manifestData ∧
          (∀ c o err, Event.updateOwner c o err ∉ pre) ∧
          runBuild env flags w =
            emit (pre ++ [Event.get Kind.configMap (flags.buildName ++ "-manifest-config")
                Lookup.found,
              Event.updateOwner (flags.buildName ++ "-manifest-config") flags.buildName (some e),
              Event.print
                ("Warning: Failed to update ConfigMap with owner reference: " ++ e ++ "\n")])
              (uploadPhase env flags w manifestData
                (decide (0 < (findLocalFileReferences env.unmarshal manifestData).length)))) := by
  obtain ⟨pre, hpre, hnoUpd, _, hrun⟩ := runBuild_phases env flags w
  rcases hrun with ⟨hrun, hno⟩ | ⟨md, hmd, hrun⟩
  · exfalso
    rw [hrun] at hcreated
    exact hno ib hcreated
  · unfold ownerLinkPhase at hrun
    simp only at hrun
    constructor
    · intro hne
      have key : ∀ t, runBuild env flags w = emit pre
          (exit1 [Event.get Kind.configMap (flags.buildName ++ "-manifest-config")
              env.refetchConfigMap,
            Event.print ("Error retrieving ConfigMap for owner update: " ++ t ++ "\n")] w) →
          (runBuild env flags w).exit = some 1 ∧
          NoUploadStep (runBuild env flags w).trace ∧
          (∀ c o err, Event.updateOwner c o err ∉ (runBuild env flags w).trace) ∧
          ∃ t, (runBuild env flags w).trace.getLast? =
            some (Event.print
              ("Error retrieving ConfigMap for owner update: " ++ t ++ "\n")) := by
        intro t ht
        rw [ht]
        refine ⟨rfl, ?_, ?_, t, ?_⟩
        · exact noUploadStep_append _ _ hpre
            (noUploadStep_cons _ _ rfl (noUploadStep_cons _ _ rfl noUploadStep_nil))
        · intro c o err hmem
          simp only [emit, exit1, List.mem_append, List.mem_cons, List.mem_singleton,
            List.not_mem_nil, or_false] at hmem
          rcases hmem with h | h | h
          · exact hnoUpd c o err h
          · cases h
          · cases h
        · simp [emit, exit1]
      cases hre : env.refetchConfigMap with
      | found => exact absurd hre hne
      | notFound =>
        rw [hre] at hrun key
        exact key "not found" hrun
      | failed t =>
        rw [hre] at hrun key
        exact key t hrun
    · intro hre e hupd
      rw [hre, hupd] at hrun
      refine ⟨pre, md, hmd, hnoUpd, ?_⟩
      rw [hrun, newImageBuild_name]
      simp [emit]

/-- Witness for C12: the update of the ConfigMap is rejected with `conflict`;
the run warns and returns normally. -/
theorem runBuild_owner_update_warning_witness :
    (∃ pre manifestData, ownerUpdateFailEnv.readManifest = Except.ok manifestData ∧
        (∀ c o err, Event.updateOwner c o err ∉ pre) ∧
        runBuild ownerUpdateFailEnv exampleFlags exampleWorld =
          emit (pre ++ [Event.get Kind.configMap (exampleFlags.buildName ++ "-manifest-config")
              Lookup.found,
            Event.updateOwner (exampleFlags.buildName ++ "-manifest-config")
              exampleFlags.buildName (some "conflict"),
            Event.print
              ("Warning: Failed to update ConfigMap with owner reference: " ++ "conflict" ++
                "\n")])
            (uploadPhase ownerUpdateFailEnv exampleFlags exampleWorld manifestData
              (decide (0 < (findLocalFileReferences ownerUpdateFailEnv.unmarshal
                manifestData).length)))) ∧
      (runBuild ownerUpdateFailEnv exampleFlags exampleWorld).exit = none :=
  ⟨(runBuild_owner_update_warning ownerUpdateFailEnv exampleFlags exampleWorld
      (newImageBuild exampleFlags "demo-manifest-config" false) (by decide)).2 rfl "conflict" rfl,
    by decide⟩

theorem uploadLoop_prefix_ok (env : Env) (ns : String) (pod : Pod) (files : List FileRef)
    (w : World) (hok : (uploadLoop env ns pod w files).2 = none) (i : Nat) (fileRef : FileRef)
    (hi : files[i]? = some fileRef) :
    (uploadLoop env ns pod w (files.take i)).2 = none ∧
      (uploadFile env (uploadLoop env ns pod w (files.take i)).1 ns pod fileRef).2 = none := by
  induction files generalizing w i with
  | nil => simp at hi
  | cons f rest ih =>
    unfold uploadLoop at hok
    cases hone : uploadFile env w ns pod f with
    | mk w1 err =>
      cases err with
      | some e => simp [hone] at hok
      | none =>
        simp only [hone] at hok
        cases i with
        | zero =>
          simp only [List.getElem?_cons_zero, Option.some.injEq] at hi
          subst hi
          simp [uploadLoop, hone]
        | succ j =>
          simp only [List.getElem?_cons_succ] at hi
          have := ih w1 hok j hi
          simpa [uploadLoop, hone] using this

theorem uploadLoop_stop (env : Env) (ns : String) (pod : Pod) (files : List FileRef)
    (w : World) (i : Nat) (fileRef : FileRef) (hi : files[i]? = some fileRef)
    (hbefore : (uploadLoop env ns pod w (files.take i)).2 = none)
    (hfail : (uploadFile env (uploadLoop env ns pod w (files.take i)).1 ns pod fileRef).2 ≠ none) :
    uploadLoop env ns pod w files =
      uploadFile env (uploadLoop env ns pod w (files.take i)).1 ns pod fileRef := by
  induction files generalizing w i with
  | nil => simp at hi
  | cons f rest ih =>
    cases i with
    | zero =>
      simp only [List.getElem?_cons_zero, Option.some.injEq] at hi
      subst hi
      simp only [List.take_zero, uploadLoop] at hfail ⊢
      cases hone : uploadFile env w ns pod f with
      | mk w1 err =>
        cases err with
        | some e => rfl
        | none => simp [hone] at hfail
    | succ j =>
      simp only [List.getElem?_cons_succ] at hi
      simp only [List.take_succ_cons, uploadLoop] at hbefore hfail ⊢
      cases hone : uploadFile env w ns pod f with
      | mk w1 err =>
        cases err with
        | some e => simp [hone] at hbefore
        | none =>
          simp only [hone] at hbefore hfail ⊢
          exact ih w1 j hi hbefore hfail

theorem uploadLoop_ok_container (env : Env) (ns : String) (pod : Pod) (files : List FileRef)
    (w : World) (hfiles : 0 < files.length) (hok : (uploadLoop env ns pod w files).2 = none) :
    ∃ container, pod.Containers.head? = some container := by
  cases files with
  | nil => simp at hfiles
  | cons f rest =>
    cases hc : pod.Containers.head? with
    | some container => exact ⟨container, rfl⟩
    | none =>
      exfalso
      simp [uploadLoop, uploadFile, hc] at hok

theorem uploadLocalFiles_ok (env : Env) (w : World) (ns : String) (files : List FileRef)
    (pod : Pod) (hok : (uploadLocalFiles env w ns files pod).2 = none) :
    env.restConfigErr = none ∧
      ∀ fs, uploadLocalFiles env w ns fs pod = uploadLoop env ns pod w fs := by
  unfold uploadLocalFiles at hok
  cases hr : env.restConfigErr with
  | some e => simp [hr] at hok
  | none =>
    refine ⟨rfl, ?_⟩
    intro fs
    simp [uploadLocalFiles, hr]

/-- The pod that `waitForUploadPod` returns has the phase `Running`. -/
theorem waitForUploadPod_running (buildName : String) (polls : List PodList)
    (waited : List Event) (pod : Pod)
    (h : waitForUploadPod buildName polls = (waited, Except.ok pod)) : pod.Phase = "Running" := by
  have hinv := poll_invariant (uploadPodCondition buildName)
    (fun st => ∀ p, st.2 = some p → p.Phase = "Running")
    (by
      intro st r hst
      unfold uploadPodCondition
      cases r with
      | failed e => exact hst
      | items pods =>
        simp only
        cases hf : pods.find? (fun pod => decide (pod.Phase = "Running")) with
        | some q =>
          intro p hp
          simp only [Option.some.injEq] at hp
          subst hp
          simpa using List.find?_some hf
        | none => exact hst)
    (polls.take 24)
    ([Event.print "Waiting for file upload server to be ready...\n"], none)
    (by intro p hp; cases hp)
  unfold waitForUploadPod at h
  simp only at h
  cases hp : pollUntilContextTimeout (uploadPodCondition buildName)
      ([Event.print "Waiting for file upload server to be ready...\n"], none)
      (polls.take 24) with
  | mk st err =>
    rw [hp] at hinv h
    obtain ⟨events, found⟩ := st
    cases found with
    | none => cases err <;> simp at h
    | some q =>
      cases err with
      | some e => simp at h
      | none =>
        simp only [Prod.mk.injEq, Except.ok.injEq] at h
        rw [← h.2]
        exact hinv q rfl

theorem newImageBuild_withoutWait (flags : Flags) (configMapName : String)
    (hasLocalFiles : Bool) :
    newImageBuild flags.withoutWait configMapName hasLocalFiles =
      newImageBuild flags configMapName hasLocalFiles := by
  unfold newImageBuild Flags.withoutWait
  cases hd : flags.download <;> simp

/-- A run whose upload phase does not depend on `--wait` does not depend on it
at all. -/
theorem runBuild_withoutWait (env : BuildEnv) (flags : Flags) (w : World)
    (h : ∀ manifestData, env.readManifest = Except.ok manifestData →
      uploadPhase env flags.withoutWait w manifestData
          (decide (0 < (findLocalFileReferences env.unmarshal manifestData).length)) =
        uploadPhase env flags w manifestData
          (decide (0 < (findLocalFileReferences env.unmarshal manifestData).length))) :
    runBuild env flags.withoutWait w = runBuild env flags w := by
  have hib := newImageBuild_withoutWait flags
  cases hr : env.readManifest with
  | error e => simp [runBuild, hr, Flags.withoutWait]
  | ok md =>
    have hup := h md hr
    have hname : flags.withoutWait.buildName = flags.buildName := rfl
    have hman : flags.withoutWait.manifest = flags.manifest := rfl
    simp only [runBuild, createPhase, hr, hib, hup, hname, hman]

theorem uploadPhase_wait_failed (env : BuildEnv) (flags : Flags) (w : World)
    (manifestData : String) (waited : List Event) (e : String)
    (hrefs : 0 < (findLocalFileReferences env.unmarshal manifestData).length)
    (hwait : waitForUploadPod flags.buildName env.uploadPodPolls = (waited, Except.error e)) :
    uploadPhase env flags w manifestData
        (decide (0 < (findLocalFileReferences env.unmarshal manifestData).length)) =
      exit1 (waited ++ [Event.print ("Error: " ++ e ++ "\n")]) w := by
  simp [uploadPhase, hrefs, hwait]

theorem uploadPhase_upload_failed (env : BuildEnv) (flags : Flags) (w : World)
    (manifestData : String) (waited : List Event) (pod : Pod) (w1 : World) (e : String)
    (hrefs : 0 < (findLocalFileReferences env.unmarshal manifestData).length)
    (hwait : waitForUploadPod flags.buildName env.uploadPodPolls = (waited, Except.ok pod))
    (hup : uploadLocalFiles env.remote w flags.namespaceName
      (findLocalFileReferences env.unmarshal manifestData) pod = (w1, some e)) :
    uploadPhase env flags w manifestData
        (decide (0 < (findLocalFileReferences env.unmarshal manifestData).length)) =
      exit1 (waited ++ [Event.print "Found local file references in manifest.\n",
          Event.print "Uploading local files to artifact server...\n"] ++
        (w1.calls.drop w.calls.length).map Event.exec ++
        [Event.print ("Error uploading files: " ++ e ++ "\n")]) w1 := by
  simp [uploadPhase, hrefs, hwait, hup]

/-- In an upload phase whose uploads succeeded, a patch of the marker is the
patch made by `markUploadsComplete` right after the uploads. -/
theorem uploadPhase_patch (env : BuildEnv) (flags : Flags) (w : World)
    (manifestData : String) (waited : List Event) (pod : Pod) (w1 : World)
    (hrefs : 0 < (findLocalFileReferences env.unmarshal manifestData).length)
    (hwait : waitForUploadPod flags.buildName env.uploadPodPolls = (waited, Except.ok pod))
    (hup : uploadLocalFiles env.remote w flags.namespaceName
      (findLocalFileReferences env.unmarshal manifestData) pod = (w1, none))
    (n : String) (err : Option String)
    (hmem : Event.patchUploadsComplete n err ∈ (uploadPhase env flags w manifestData
        (decide (0 < (findLocalFileReferences env.unmarshal manifestData).length))).trace) :
    ∃ post, (uploadPhase env flags w manifestData
        (decide (0 < (findLocalFileReferences env.unmarshal manifestData).length))).trace =
      waited ++ [Event.print "Found local file references in manifest.\n",
          Event.print "Uploading local files to artifact server...\n"] ++
        (w1.calls.drop w.calls.length).map Event.exec ++
        [Event.print "Files uploaded successfully.\n",
          Event.get Kind.imageBuild flags.buildName Lookup.found,
          Event.patchUploadsComplete n err] ++ post := by
  have hw : ∀ n err, Event.patchUploadsComplete n err ∉ waited := by
    intro n err hin
    have := waitForUploadPod_events (fun ev => ∀ n err, ev ≠ Event.patchUploadsComplete n err)
      (fun _ _ _ h => by cases h) (fun _ _ _ _ _ h => by cases h)
      flags.buildName env.uploadPodPolls
    rw [hwait] at this
    exact this _ hin n err rfl
  have hd : ∀ n err, Event.patchUploadsComplete n err ∉ (waitAndDownload env flags w1).trace := by
    intro n err hin
    exact waitAndDownload_events (fun ev => ∀ n err, ev ≠ Event.patchUploadsComplete n err)
      (fun _ _ _ h => by cases h) (fun _ _ _ _ _ h => by cases h)
      (fun _ _ _ h => by cases h) env flags w1 _ hin n err rfl
  simp only [uploadPhase, hrefs, decide_True, and_self, if_true, hwait, hup,
    markUploadsComplete] at hmem ⊢
  have hx : ∀ n err, Event.patchUploadsComplete n err ∉
      (w1.calls.drop w.calls.length).map Event.exec := by
    intro n err hin
    obtain ⟨c, _, hc⟩ := List.mem_map.1 hin
    cases hc
  generalize (w1.calls.drop w.calls.length).map Event.exec = execs at hmem hx ⊢
  cases hg : env.markGet with
  | notFound =>
    rw [hg] at hmem
    simp [exit1, hw, hx] at hmem
  | failed msg =>
    rw [hg] at hmem
    simp [exit1, hw, hx] at hmem
  | found =>
    rw [hg] at hmem
    cases hp : env.markPatchErr with
    | some msg =>
      rw [hp] at hmem
      simp [exit1, hw, hx] at hmem
      obtain ⟨rfl, rfl⟩ := hmem
      exact ⟨[Event.print ("Error marking uploads as complete: " ++
        ("error patching ImageBuild with completion annotation: " ++ msg) ++ "\n")],
        by simp [exit1]⟩
    | none =>
      rw [hp] at hmem
      simp [emit, hw, hd, hx] at hmem
      obtain ⟨rfl, rfl⟩ := hmem
      exact ⟨[Event.print "File uploads marked as complete. Build will proceed.\n",
        Event.print ("ImageBuild " ++ flags.buildName ++ " created successfully in namespace " ++
          flags.namespaceName ++ "\n")] ++ (waitAndDownload env flags w1).trace,
        by simp [emit]⟩

theorem noUploadStep_classify (pre : List Event) (h : NoUploadStep pre) :
    (∀ c, Event.exec c ∉ pre) ∧ (∀ n err, Event.patchUploadsComplete n err ∉ pre) ∧
      ∀ b a r, Event.listPods b a r ∉ pre := by
  refine ⟨?_, ?_, ?_⟩
  · intro c hc
    have := h _ hc
    simp [Event.isUploadStep] at this
  · intro n err hc
    have := h _ hc
    simp [Event.isUploadStep] at this
  · intro b a r hc
    have := h _ hc
    simp [Event.isUploadStep] at this

/-- C11: in a run whose manifest yields at least one local file reference,
(1) every patch of the uploads-complete marker comes after a sandbox wait that
returned a pod in phase `Running` and after the uploads of all referenced
files, each of which returned success in the state left by the files before it,
their remote commands standing in list order between the wait and the patch;
(2) when the sandbox wait fails, the run exits with status 1 in the unchanged
state, runs no remote command, never patches the marker, and is the same run as
without `--wait`; (3) when an upload fails, the run exits with status 1, never
patches the marker, is the same run as without `--wait`, and the result of
`uploadLocalFiles` is that of the first failing file, so no later file is
uploaded. -/
theorem runBuild_uploads_complete (env : BuildEnv) (flags : Flags) (w : World)
    (manifestData : String) (hread : env.readManifest = Except.ok manifestData)
    (hrefs : 0 < (findLocalFileReferences env.unmarshal manifestData).length) :
    (∀ n err, Event.patchUploadsComplete n err ∈ (runBuild env flags w).trace →
        ∃ pre waited pod container w1 post,
          waitForUploadPod flags.buildName env.uploadPodPolls = (waited, Except.ok pod) ∧
          pod.Phase = "Running" ∧ pod.Containers.head? = some container ∧
          uploadLocalFiles env.remote w flags.namespaceName
            (findLocalFileReferences env.unmarshal manifestData) pod = (w1, none) ∧
          (∀ i fileRef, (findLocalFileReferences env.unmarshal manifestData)[i]? = some fileRef →
            (uploadFile env.remote (uploadLocalFiles env.remote w flags.namespaceName
              ((findLocalFileReferences env.unmarshal manifestData).take i) pod).1
              flags.namespaceName pod fileRef).2 = none) ∧
          NoUploadStep pre ∧
          (runBuild env flags w).trace =
            pre ++ waited ++ [Event.print "Found local file references in manifest.\n",
                Event.print "Uploading local files to artifact server...\n"] ++
              ((findLocalFileReferences env.unmarshal manifestData).flatMap
                (uploadCallsFor env.remote w.fs flags.namespaceName pod.Name container)).map
                Event.exec ++
              [Event.print "Files uploaded successfully.\n",
                Event.get Kind.imageBuild flags.buildName Lookup.found,
                Event.patchUploadsComplete n err] ++ post) ∧
      (∀ waited e,
        waitForUploadPod flags.buildName env.uploadPodPolls = (waited, Except.error e) →
          (runBuild env flags w).exit = some 1 ∧
          (runBuild env flags w).world = w ∧
          (∀ c, Event.exec c ∉ (runBuild env flags w).trace) ∧
          (∀ n err, Event.patchUploadsComplete n err ∉ (runBuild env flags w).trace) ∧
          runBuild env flags.withoutWait w = runBuild env flags w) ∧
      (∀ waited pod w1 e,
        waitForUploadPod flags.buildName env.uploadPodPolls = (waited, Except.ok pod) →
        uploadLocalFiles env.remote w flags.namespaceName
          (findLocalFileReferences env.unmarshal manifestData) pod = (w1, some e) →
          (runBuild env flags w).exit = some 1 ∧
          (∀ n err, Event.patchUploadsComplete n err ∉ (runBuild env flags w).trace) ∧
          runBuild env flags.withoutWait w = runBuild env flags w ∧
          (∀ i fileRef, (findLocalFileReferences env.unmarshal manifestData)[i]? = some fileRef →
            (uploadLocalFiles env.remote w flags.namespaceName
              ((findLocalFileReferences env.unmarshal manifestData).take i) pod).2 = none →
            (uploadFile env.remote (uploadLocalFiles env.remote w flags.namespaceName
              ((findLocalFileReferences env.unmarshal manifestData).take i) pod).1
              flags.namespaceName pod fileRef).2 ≠ none →
            uploadLocalFiles env.remote w flags.namespaceName
                (findLocalFileReferences env.unmarshal manifestData) pod =
              uploadFile env.remote (uploadLocalFiles env.remote w flags.namespaceName
                ((findLocalFileReferences env.unmarshal manifestData).take i) pod).1
                flags.namespaceName pod fileRef) ∧
          ∃ pre, NoUploadStep pre ∧
            (runBuild env flags w = exit1 pre w ∨
              runBuild env flags w =
                exit1 (pre ++ (waited ++
                  [Event.print "Found local file references in manifest.\n",
                    Event.print "Uploading local files to artifact server...\n"] ++
                  (w1.calls.drop w.calls.length).map Event.exec ++
                  [Event.print ("Error uploading files: " ++ e ++ "\n")])) w1)) := by
  obtain ⟨pre, hpre, hrun⟩ := runBuild_upload_split env flags w
  obtain ⟨hpreExec, hprePatch, _⟩ := noUploadStep_classify pre hpre
  have hphase : runBuild env flags w = exit1 pre w ∨
      runBuild env flags w = emit pre (uploadPhase env flags w manifestData
        (decide (0 < (findLocalFileReferences env.unmarshal manifestData).length))) := by
    rcases hrun with h | ⟨md, hmd, h⟩
    · exact Or.inl h
    · rw [hread] at hmd
      cases hmd
      exact Or.inr h
  have hwaitedNo : ∀ waited r,
      waitForUploadPod flags.buildName env.uploadPodPolls = (waited, r) →
      (∀ c, Event.exec c ∉ waited) ∧ ∀ n err, Event.patchUploadsComplete n err ∉ waited := by
    intro waited r hwait
    constructor
    · intro c hin
      have := waitForUploadPod_events (fun ev => ∀ c, ev ≠ Event.exec c)
        (fun _ _ h => by cases h) (fun _ _ _ _ h => by cases h)
        flags.buildName env.uploadPodPolls
      rw [hwait] at this
      exact this _ hin c rfl
    · intro n err hin
      have := waitForUploadPod_events (fun ev => ∀ n err, ev ≠ Event.patchUploadsComplete n err)
        (fun _ _ _ h => by cases h) (fun _ _ _ _ _ h => by cases h)
        flags.buildName env.uploadPodPolls
      rw [hwait] at this
      exact this _ hin n err rfl
  refine ⟨?_, ?_, ?_⟩
  · intro n err hmem
    rcases hphase with h | h
    · rw [h] at hmem
      exact absurd hmem (hprePatch n err)
    · cases hwait : waitForUploadPod flags.buildName env.uploadPodPolls with
      | mk waited r =>
        obtain ⟨_, hwPatch⟩ := hwaitedNo waited r hwait
        cases r with
        | error e =>
          rw [h, uploadPhase_wait_failed env flags w manifestData waited e hrefs hwait] at hmem
          simp [-List.map_drop, emit, exit1, hprePatch, hwPatch] at hmem
        | ok pod =>
          cases hup : uploadLocalFiles env.remote w flags.namespaceName
              (findLocalFileReferences env.unmarshal manifestData) pod with
          | mk w1 res =>
            cases res with
            | some e =>
              rw [h, uploadPhase_upload_failed env flags w manifestData waited pod w1 e hrefs
                hwait hup] at hmem
              simp [-List.map_drop, emit, exit1, hprePatch, hwPatch] at hmem
            | none =>
              have hmem2 : Event.patchUploadsComplete n err ∈
                  (uploadPhase env flags w manifestData (decide
                    (0 < (findLocalFileReferences env.unmarshal manifestData).length))).trace := by
                rw [h] at hmem
                rcases List.mem_append.1 hmem with h1 | h1
                · exact absurd h1 (hprePatch n err)
                · exact h1
              obtain ⟨post, hpost⟩ := uploadPhase_patch env flags w manifestData waited pod w1
                hrefs hwait hup n err hmem2
              obtain ⟨_, hloop⟩ := uploadLocalFiles_ok env.remote w flags.namespaceName
                (findLocalFileReferences env.unmarshal manifestData) pod (by rw [hup])
              have hok : (uploadLoop env.remote flags.namespaceName pod w
                  (findLocalFileReferences env.unmarshal manifestData)).2 = none := by
                rw [← hloop, hup]
              obtain ⟨container, hcontainer⟩ := uploadLoop_ok_container env.remote
                flags.namespaceName pod _ w hrefs hok
              have hw1 := uploadLoop_ok env.remote flags.namespaceName pod container hcontainer
                _ w hok
              rw [← hloop, hup] at hw1
              simp only at hw1
              refine ⟨pre, waited, pod, container, w1, post, rfl,
                waitForUploadPod_running _ _ _ _ hwait, hcontainer, hup, ?_, hpre, ?_⟩
              · intro i fileRef hi
                rw [hloop]
                exact (uploadLoop_prefix_ok env.remote flags.namespaceName pod _ w hok i
                  fileRef hi).2
              · rw [h]
                show pre ++ (uploadPhase env flags w manifestData (decide
                  (0 < (findLocalFileReferences env.unmarshal manifestData).length))).trace = _
                rw [hpost, hw1]
                simp only [List.drop_left, List.append_assoc]
  · intro waited e hwait
    obtain ⟨hwExec, hwPatch⟩ := hwaitedNo waited _ hwait
    have hsame : runBuild env flags.withoutWait w = runBuild env flags w := by
      apply runBuild_withoutWait
      intro md hmd
      rw [hread] at hmd
      cases hmd
      rw [uploadPhase_wait_failed env flags w manifestData waited e hrefs hwait,
        uploadPhase_wait_failed env flags.withoutWait w manifestData waited e hrefs hwait]
    rcases hphase with h | h
    · rw [h]
      exact ⟨rfl, rfl, hpreExec, hprePatch, by rw [← h]; exact hsame⟩
    · rw [uploadPhase_wait_failed env flags w manifestData waited e hrefs hwait] at h
      rw [h]
      refine ⟨rfl, rfl, ?_, ?_, by rw [← h]; exact hsame⟩
      · intro c hc
        simp [emit, exit1, hpreExec, hwExec] at hc
      · intro n err hc
        simp [-List.map_drop, emit, exit1, hprePatch, hwPatch] at hc
  · intro waited pod w1 e hwait hup
    obtain ⟨_, hwPatch⟩ := hwaitedNo waited _ hwait
    have hsame : runBuild env flags.withoutWait w = runBuild env flags w := by
      apply runBuild_withoutWait
      intro md hmd
      rw [hread] at hmd
      cases hmd
      rw [uploadPhase_upload_failed env flags w manifestData waited pod w1 e hrefs hwait hup,
        uploadPhase_upload_failed env flags.withoutWait w manifestData waited pod w1 e hrefs
          hwait hup]
    have hstop : ∀ i fileRef,
        (findLocalFileReferences env.unmarshal manifestData)[i]? = some fileRef →
        (uploadLocalFiles env.remote w flags.namespaceName
          ((findLocalFileReferences env.unmarshal manifestData).take i) pod).2 = none →
        (uploadFile env.remote (uploadLocalFiles env.remote w flags.namespaceName
          ((findLocalFileReferences env.unmarshal manifestData).take i) pod).1
          flags.namespaceName pod fileRef).2 ≠ none →
        uploadLocalFiles env.remote w flags.namespaceName
            (findLocalFileReferences env.unmarshal manifestData) pod =
          uploadFile env.remote (uploadLocalFiles env.remote w flags.namespaceName
            ((findLocalFileReferences env.unmarshal manifestData).take i) pod).1
            flags.namespaceName pod fileRef := by
      intro i fileRef hi hbefore hfail
      obtain ⟨_, hloop⟩ := uploadLocalFiles_ok env.remote w flags.namespaceName _ pod hbefore
      rw [hloop] at hbefore hfail ⊢
      rw [hloop]
      exact uploadLoop_stop env.remote flags.namespaceName pod _ w i fileRef hi hbefore hfail
    rcases hphase with h | h
    · rw [h]
      exact ⟨rfl, hprePatch, by rw [← h]; exact hsame, hstop, pre, hpre, Or.inl rfl⟩
    · rw [uploadPhase_upload_failed env flags w manifestData waited pod w1 e hrefs hwait hup]
        at h
      rw [h]
      refine ⟨rfl, ?_, by rw [← h]; exact hsame, hstop, pre, hpre, Or.inr rfl⟩
      intro n err hc
      simp [-List.map_drop, emit, exit1, hprePatch, hwPatch] at hc

/-- Witness for C11: the manifest refers to `files/a.conf`, the upload pod runs
at the first poll and the upload succeeds; the marker is patched, after a wait
that returned a running pod. -/
theorem runBuild_uploads_complete_witness :
    Event.patchUploadsComplete "demo" none ∈
        (runBuild uploadEnv exampleFlags exampleWorld).trace ∧
      ∃ waited pod, waitForUploadPod "demo" uploadEnv.uploadPodPolls =
        (waited, Except.ok pod) ∧ pod.Phase = "Running" := by
  refine ⟨by decide, ?_⟩
  obtain ⟨_, waited, pod, _, _, _, h1, h2, _⟩ :=
    (runBuild_uploads_complete uploadEnv exampleFlags exampleWorld "content" rfl
      (by decide)).1 "demo" none (by decide)
  exact ⟨waited, pod, h1, h2⟩

theorem digit_toNat (k : Nat) (hk : k < 10) : (UInt8.ofNat (48 + k)).toNat - 48 = k := by
  interval_cases k <;> rfl

theorem digit_range (k : Nat) (hk : k < 10) :
    (0x30 : UInt8) ≤ UInt8.ofNat (48 + k) ∧ UInt8.ofNat (48 + k) ≤ (0x39 : UInt8) := by
  interval_cases k <;> decide

theorem revDigits_digits (fuel n : Nat) :
    ∀ d ∈ revDigits fuel n, ∃ k, k < 10 ∧ d = UInt8.ofNat (48 + k) := by
  induction fuel generalizing n with
  | zero => simp [revDigits]
  | succ fuel ih =>
    intro d hd
    unfold revDigits at hd
    rcases List.mem_cons.1 hd with rfl | hd
    · exact ⟨n % 10, Nat.mod_lt _ (by decide), rfl⟩
    · by_cases h : n / 10 = 0
      · simp [h] at hd
      · rw [if_neg h] at hd
        exact ih _ d hd

theorem revDigits_value (fuel n : Nat) (h : n < fuel) :
    (revDigits fuel n).foldr (fun d a => a * 10 + (d.toNat - 48)) 0 = n := by
  induction fuel generalizing n with
  | zero => omega
  | succ fuel ih =>
    unfold revDigits
    simp only [List.foldr_cons]
    rw [digit_toNat (n % 10) (Nat.mod_lt _ (by decide))]
    by_cases h0 : n / 10 = 0
    · rw [if_pos h0]
      simp only [List.foldr_nil]
      omega
    · rw [if_neg h0, ih (n / 10) (by omega)]
      omega

theorem parseDigits_eq (ds : Bytes) (hne : ds ≠ [])
    (hdig : ∀ d ∈ ds, (0x30 : UInt8) ≤ d ∧ d ≤ (0x39 : UInt8)) (acc : Nat) :
    parseDigits acc ds = some (ds.foldl (fun a d => a * 10 + (d.toNat - 48)) acc) := by
  induction ds generalizing acc with
  | nil => exact absurd rfl hne
  | cons d tl ih =>
    have hd := hdig d (List.mem_cons_self _ _)
    cases tl with
    | nil => simp [parseDigits, hd]
    | cons e rest =>
      have := ih (by simp) (fun x hx => hdig x (List.mem_cons_of_mem _ hx))
        (acc * 10 + (d.toNat - 48))
      simp only [parseDigits, hd, and_self, if_true, List.foldl_cons] at this ⊢
      exact this

theorem decimal_spec (n : Nat) :
    decimal n ≠ [] ∧ (∀ d ∈ decimal n, ∃ k, k < 10 ∧ d = UInt8.ofNat (48 + k)) ∧
      parseDigits 0 (decimal n) = some n := by
  have hne : decimal n ≠ [] := by
    unfold decimal revDigits
    simp
  have hdig : ∀ d ∈ decimal n, ∃ k, k < 10 ∧ d = UInt8.ofNat (48 + k) := by
    intro d hd
    exact revDigits_digits (n + 1) n d (List.mem_reverse.1 hd)
  refine ⟨hne, hdig, ?_⟩
  rw [parseDigits_eq (decimal n) hne]
  · unfold decimal
    rw [List.foldl_reverse, revDigits_value (n + 1) n (by omega)]
  · intro d hd
    obtain ⟨k, hk, rfl⟩ := hdig d hd
    exact digit_range k hk

theorem stripAll_of_none (seqs : List Bytes) (fuel : Nat) (s : Bytes)
    (h : stripOne seqs s = none) : stripAll seqs fuel s = s := by
  cases fuel with
  | zero => rfl
  | succ fuel => simp [stripAll, h]

theorem stripOne_digit (k : Nat) (hk : k < 10) (rest : Bytes) :
    stripOne spaceSeqs (UInt8.ofNat (48 + k) :: rest) = none ∧
      stripOne (spaceSeqs.map List.reverse) (UInt8.ofNat (48 + k) :: rest) = none := by
  interval_cases k <;>
    simp +decide [stripOne, spaceSeqs, List.findSome?, List.isPrefixOf]

theorem stripOne_newline (rest : Bytes) :
    stripOne (spaceSeqs.map List.reverse) (0x0A :: rest) = some rest := by
  simp +decide [stripOne, spaceSeqs, List.findSome?, List.isPrefixOf]

theorem trimSpace_digits_newline (ds : Bytes) (hne : ds ≠ [])
    (hdig : ∀ d ∈ ds, ∃ k, k < 10 ∧ d = UInt8.ofNat (48 + k)) :
    trimSpace (ds ++ [0x0A]) = ds := by
  have hfront : stripOne spaceSeqs (ds ++ [0x0A]) = none := by
    cases ds with
    | nil => exact absurd rfl hne
    | cons d tl =>
      obtain ⟨k, hk, rfl⟩ := hdig d (List.mem_cons_self _ _)
      exact (stripOne_digit k hk _).1
  have hback : stripOne (spaceSeqs.map List.reverse) ds.reverse = none := by
    cases hr : ds.reverse with
    | nil => exact absurd (List.reverse_eq_nil_iff.1 hr) hne
    | cons d tl =>
      have hd : d ∈ ds := by
        rw [← List.mem_reverse, hr]
        exact List.mem_cons_self _ _
      obtain ⟨k, hk, rfl⟩ := hdig d hd
      exact (stripOne_digit k hk _).2
  have hlen : (ds ++ [0x0A]).length = ds.length + 1 := by simp
  unfold trimSpace
  simp only [stripAll_of_none _ _ _ hfront, List.reverse_append, List.reverse_cons,
    List.reverse_nil, List.nil_append, List.singleton_append, hlen, stripAll,
    stripOne_newline, stripAll_of_none _ _ _ hback, List.reverse_reverse]

/-- The size line that `stat -c %s` prints for a file of `n` bytes is read back
as `n`. -/
theorem parseInt64_decimal (n : Nat) (hn : n < 2 ^ 63) :
    parseInt64 (trimSpace (decimal n ++ [0x0A])) = some (n : Int) := by
  obtain ⟨hne, hdig, hparse⟩ := decimal_spec n
  rw [trimSpace_digits_newline (decimal n) hne hdig]
  cases hds : decimal n with
  | nil => exact absurd hds hne
  | cons d tl =>
    rw [hds] at hparse hdig
    obtain ⟨k, hk, rfl⟩ := hdig d (List.mem_cons_self _ _)
    unfold parseInt64
    have hn2 : n < 9223372036854775808 := by
      have h63 : (2 : Nat) ^ 63 = 9223372036854775808 := by norm_num
      omega
    interval_cases k <;> simp +decide at hparse ⊢ <;> simp [hparse, hn2]

/-- A successful upload ran `mkdir -p` and then `tar`, and `tar` reported no
error. -/
theorem copyFile_upload_exec (env : Env) (w : World)
    (ns podName containerName localPath podPath : String)
    (hok : (copyFile env w ns podName containerName localPath podPath true).2 = none) :
    env.clientsetErr = none ∧ env.executorErr = none ∧
      ∃ (content : Bytes) (info : FileMeta), w.fs.read localPath = some content ∧
        env.stat localPath = Except.ok info ∧
        (env.exec (w.calls ++
            [plainCall ns podName containerName ["mkdir", "-p", filepathDir podPath]])
          (tarCall ns podName containerName (filepathDir podPath)
            [⟨⟨filepathBase podPath, content.length, info.mode, info.modTime⟩,
              content⟩])).err = none ∧
        (copyFile env w ns podName containerName localPath podPath true).1 =
          { fs := w.fs,
            calls := w.calls ++
              [plainCall ns podName containerName ["mkdir", "-p", filepathDir podPath],
               tarCall ns podName containerName (filepathDir podPath)
                 [⟨⟨filepathBase podPath, content.length, info.mode, info.modTime⟩,
                   content⟩]] } := by
  obtain ⟨content, info, hread, hstat, hres⟩ :=
    copyFile_upload_ok env w ns podName containerName localPath podPath hok
  unfold copyFile at hok
  cases hcs : env.clientsetErr with
  | some e => simp [hcs] at hok
  | none =>
    simp only [hcs, if_true] at hok
    have hname : (filepathBase podPath).data.getLast? ≠ some '/' ∨ content = [] := by
      by_contra hn
      rw [copyToPod_directory_header env w ns podName containerName localPath podPath
        content info hread hstat hn] at hok
      simp at hok
    rw [copyToPod_eq env w ns podName containerName localPath podPath content info
      hread hstat hname] at hok
    rcases execInPod_cases env w ns podName containerName
      ["mkdir", "-p", filepathDir podPath] with ⟨e, h⟩ | ⟨e, h, _⟩ | ⟨h, hex, _⟩
    · simp [h] at hok
    · simp [h] at hok
    · rw [h] at hok
      simp only [hex] at hok
      cases herr : (env.exec (w.calls ++
          [plainCall ns podName containerName ["mkdir", "-p", filepathDir podPath]])
        (tarCall ns podName containerName (filepathDir podPath)
          [⟨⟨filepathBase podPath, content.length, info.mode, info.modTime⟩,
            content⟩])).err with
      | some e => simp [herr] at hok
      | none => exact ⟨rfl, hex, content, info, hread, hstat, herr, hres⟩

/-- A download succeeds and stores `data` when the size command reports the
length of `data` and `cat` streams `data`. -/
theorem copyFromPod_ok (env : Env) (w : World)
    (ns podName containerName localPath podPath : String) (data : Bytes)
    (hexe : env.executorErr = none)
    (hs1 : (env.exec w.calls
      (plainCall ns podName containerName ["stat", "-c", "%s", podPath])).err = none)
    (hs2 : parseInt64 (trimSpace (env.exec w.calls
      (plainCall ns podName containerName ["stat", "-c", "%s", podPath])).stdout) =
        some (data.length : Int))
    (hcreate : env.createErr localPath = none)
    (hc1 : (env.exec (w.calls ++
        [plainCall ns podName containerName ["stat", "-c", "%s", podPath]])
      (plainCall ns podName containerName ["cat", podPath])).err = none)
    (hc2 : (env.exec (w.calls ++
        [plainCall ns podName containerName ["stat", "-c", "%s", podPath]])
      (plainCall ns podName containerName ["cat", podPath])).stdout = data) :
    (copyFromPod env w ns podName containerName localPath podPath).2 = none ∧
      (copyFromPod env w ns podName containerName localPath podPath).1.fs.read localPath =
        some data := by
  unfold copyFromPod
  simp only [stream, hexe, hs1, hs2, hcreate, hc1, hc2]
  cases env.stat localPath <;> simp [read_write]

theorem splitSlash_no_slash (cs : List Char) : ∀ piece ∈ splitSlash cs, '/' ∉ piece := by
  induction cs with
  | nil => simp [splitSlash]
  | cons c cs ih =>
    unfold splitSlash
    by_cases hc : c = '/'
    · rw [if_pos hc]
      intro piece hp
      rcases List.mem_cons.1 hp with rfl | hp
      · simp
      · exact ih piece hp
    · rw [if_neg hc]
      cases hs : splitSlash cs with
      | nil =>
        intro piece hp
        simp only [List.mem_singleton] at hp
        subst hp
        simpa using fun h => hc h.symm
      | cons first pieces =>
        rw [hs] at ih
        intro piece hp
        rcases List.mem_cons.1 hp with rfl | hp
        · intro hmem
          rcases List.mem_cons.1 hmem with h | h
          · exact hc h.symm
          · exact ih first (List.mem_cons_self _ _) h
        · exact ih piece (List.mem_cons_of_mem _ hp)

theorem splitSlash_slash_free (b : List Char) (h : '/' ∉ b) : splitSlash b = [b] := by
  induction b with
  | nil => rfl
  | cons c cs ih =>
    have hc : c ≠ '/' := fun hc => h (hc ▸ List.mem_cons_self _ _)
    have hcs : '/' ∉ cs := fun hm => h (List.mem_cons_of_mem _ hm)
    simp [splitSlash, hc, ih hcs]

theorem splitSlash_ne_nil (cs : List Char) : splitSlash cs ≠ [] := by
  cases cs with
  | nil => simp [splitSlash]
  | cons c cs =>
    unfold splitSlash
    by_cases hc : c = '/'
    · simp [hc]
    · rw [if_neg hc]
      cases splitSlash cs <;> simp

theorem splitSlash_append_slash (a b : List Char) :
    splitSlash (a ++ '/' :: b) = splitSlash a ++ splitSlash b := by
  induction a with
  | nil => simp [splitSlash]
  | cons c cs ih =>
    by_cases hc : c = '/'
    · simp [splitSlash, hc, ih]
    · simp only [List.cons_append, splitSlash, if_neg hc]
      show (match splitSlash (cs ++ '/' :: b) with
        | [] => [[c]]
        | piece :: pieces => (c :: piece) :: pieces) = _
      rw [ih]
      cases hs : splitSlash cs with
      | nil => exact absurd hs (splitSlash_ne_nil cs)
      | cons piece pieces => rfl

theorem splitSlash_intercalate (kept : List (List Char)) (hne : kept ≠ [])
    (hkept : ∀ piece ∈ kept, '/' ∉ piece) :
    splitSlash (List.intercalate ['/'] kept) = kept := by
  induction kept with
  | nil => exact absurd rfl hne
  | cons p rest ih =>
    cases rest with
    | nil =>
      simpa [List.intercalate, List.intersperse] using
        splitSlash_slash_free p (hkept p (List.mem_cons_self _ _))
    | cons q rest =>
      have h := ih (by simp) (fun x hx => hkept x (List.mem_cons_of_mem _ hx))
      have hp := splitSlash_slash_free p (hkept p (List.mem_cons_self _ _))
      have hunfold : List.intercalate ['/'] (p :: q :: rest) =
          p ++ '/' :: List.intercalate ['/'] (q :: rest) := by
        simp [List.intercalate, List.intersperse]
      rw [hunfold, splitSlash_append_slash, hp, h]
      rfl

theorem cleanFold_no_dotdot (rooted : Bool) (pieces : List (List Char))
    (h : ∀ p ∈ pieces, p ≠ ['.', '.']) (acc : List (List Char)) :
    pieces.foldl (cleanStep rooted) acc = (pieces.filter isNamed).reverse ++ acc := by
  induction pieces generalizing acc with
  | nil => rfl
  | cons piece rest ih =>
    have hp : piece ≠ ['.', '.'] := h piece (List.mem_cons_self _ _)
    rw [List.foldl_cons, ih (fun p hp => h p (List.mem_cons_of_mem _ hp))]
    unfold cleanStep
    by_cases h1 : piece = [] ∨ piece = ['.']
    · rw [if_pos h1]
      simp [List.filter_cons, isNamed, h1]
    · rw [if_neg h1, if_neg hp]
      simp [List.filter_cons, isNamed, h1]

theorem filter_isNamed_of_named (kept : List (List Char))
    (h : ∀ piece ∈ kept, isNamed piece = true) : kept.filter isNamed = kept :=
  List.filter_eq_self.2 h

/-- For a path without an element `..`, `filepath.Clean` keeps the names of the
path in their order, keeps the path absolute or relative, and is not empty. -/
theorem filepathClean_pieces (q : List Char) (hq : ∀ p ∈ splitSlash q, p ≠ ['.', '.']) :
    (splitSlash (filepathClean (String.mk q)).data).filter isNamed =
        (splitSlash q).filter isNamed ∧
      ((filepathClean (String.mk q)).data.head? = some '/' ↔ q.head? = some '/') ∧
      filepathClean (String.mk q) ≠ "" := by
  unfold filepathClean
  by_cases h0 : String.mk q = ""
  · have hq0 : q = [] := by
      have := congrArg String.data h0
      simpa using this
    subst hq0
    rw [if_pos h0]
    exact ⟨by decide, by decide, by decide⟩
  · rw [if_neg h0]
    simp only
    have hfold := cleanFold_no_dotdot (decide (q.head? = some '/')) (splitSlash q) hq []
    simp only [List.append_nil] at hfold
    rw [hfold, List.reverse_reverse]
    have hnamed : ∀ piece ∈ (splitSlash q).filter isNamed, isNamed piece = true :=
      fun piece hp => (List.mem_filter.1 hp).2
    have hfree : ∀ piece ∈ (splitSlash q).filter isNamed, '/' ∉ piece :=
      fun piece hp => splitSlash_no_slash q piece (List.mem_filter.1 hp).1
    generalize (splitSlash q).filter isNamed = kept at hnamed hfree
    have hsplit : kept ≠ [] → splitSlash (List.intercalate ['/'] kept) = kept :=
      fun hne => splitSlash_intercalate kept hne hfree
    have hempty : ¬ ([] : List Char) ∈ kept := by
      intro hmem
      have := hnamed [] hmem
      simp [isNamed] at this
    have hbody : List.intercalate ['/'] kept = [] → kept = [] := by
      intro hb
      by_contra hne
      have h1 := hsplit hne
      rw [hb] at h1
      have : ([] : List Char) ∈ kept := by
        rw [← h1]
        simp [splitSlash]
      exact hempty this
    by_cases hr : q.head? = some '/'
    · simp only [hr, decide_True, if_true]
      refine ⟨?_, by simp, by simp [String.ext_iff]⟩
      by_cases hk : kept = []
      · subst hk
        decide
      · show (splitSlash ('/' :: List.intercalate ['/'] kept)).filter isNamed = kept
        simp only [splitSlash, if_true, hsplit hk]
        rw [List.filter_cons_of_neg (by simp [isNamed])]
        exact filter_isNamed_of_named kept hnamed
    · simp only [hr, decide_False, Bool.false_eq_true, if_false]
      by_cases hb : List.intercalate ['/'] kept = []
      · rw [if_pos hb]
        have hk := hbody hb
        subst hk
        exact ⟨by decide, by decide, by decide⟩
      · rw [if_neg hb]
        have hk : kept ≠ [] := by
          rintro rfl
          exact hb rfl
        refine ⟨?_, ?_, by simpa [String.ext_iff] using hb⟩
        · show (splitSlash (List.intercalate ['/'] kept)).filter isNamed = kept
          rw [hsplit hk]
          exact filter_isNamed_of_named kept hnamed
        · constructor
          · intro hh
            exfalso
            have hh2 : (List.intercalate ['/'] kept).head? = some '/' := hh
            obtain ⟨t, ht⟩ : ∃ t, List.intercalate ['/'] kept = '/' :: t := by
              cases hl : List.intercalate ['/'] kept with
              | nil => exact absurd hl hb
              | cons c t =>
                rw [hl] at hh2
                simp only [List.head?_cons, Option.some.injEq] at hh2
                exact ⟨t, by rw [hh2]⟩
            have h1 := hsplit hk
            rw [ht] at h1
            simp only [splitSlash, if_true] at h1
            exact hempty (by rw [← h1]; exact List.mem_cons_self _ _)
          · intro hh
            exact hh.elim

theorem walk_skip (fs : PodFS) (cur : String) (piece : List Char) (rest : List (List Char))
    (h : isNamed piece = false) : fs.walk cur (piece :: rest) = fs.walk cur rest := by
  have h1 : piece = [] ∨ piece = ['.'] := by
    by_contra hc
    simp [isNamed, hc] at h
  simp only [PodFS.walk]
  rw [if_pos h1]

/-- A walk that ends in a directory ignores the elements that are no names. -/
theorem walk_filter (fs : PodFS) (pieces : List (List Char)) (cur key : String) :
    fs.walk cur pieces = Except.ok (key, PodNode.dir) ↔
      fs.walk cur (pieces.filter isNamed) = Except.ok (key, PodNode.dir) := by
  induction pieces generalizing cur with
  | nil => rfl
  | cons piece rest ih =>
    by_cases hn : isNamed piece = true
    · rw [List.filter_cons_of_pos hn]
      have h1 : ¬ (piece = [] ∨ piece = ['.']) := by simpa [isNamed] using hn
      simp only [PodFS.walk]
      rw [if_neg h1, if_neg h1]
      by_cases h2 : piece = ['.', '.']
      · rw [if_pos h2, if_pos h2]
        exact ih _
      · rw [if_neg h2, if_neg h2]
        cases fs.node (childKey cur (String.mk piece)) with
        | none => simp
        | some node =>
          cases node with
          | dir => exact ih _
          | file data mode =>
            simp only
            constructor
            · intro h
              split at h <;> simp at h
            · intro h
              split at h <;> simp at h
    · have hn2 : isNamed piece = false := by simpa using hn
      rw [List.filter_cons_of_neg hn, walk_skip fs cur piece rest hn2]
      exact ih cur

/-- A walk that ends in a directory goes on from there. -/
theorem walk_append (fs : PodFS) (pieces more : List (List Char)) (cur key : String)
    (h : fs.walk cur pieces = Except.ok (key, PodNode.dir)) :
    fs.walk cur (pieces ++ more) = fs.walk key more := by
  induction pieces generalizing cur with
  | nil =>
    simp only [PodFS.walk, Except.ok.injEq, Prod.mk.injEq, and_true] at h
    rw [h]
    rfl
  | cons piece rest ih =>
    simp only [PodFS.walk, List.cons_append] at h ⊢
    by_cases h1 : piece = [] ∨ piece = ['.']
    · rw [if_pos h1] at h ⊢
      exact ih _ h
    · rw [if_neg h1] at h ⊢
      by_cases h2 : piece = ['.', '.']
      · rw [if_pos h2] at h ⊢
        exact ih _ h
      · rw [if_neg h2] at h ⊢
        cases hnode : fs.node (childKey cur (String.mk piece)) with
        | none => simp [hnode] at h
        | some node =>
          cases node with
          | dir =>
            simp only [hnode] at h ⊢
            exact ih _ h
          | file data mode =>
            simp only [hnode] at h
            split at h <;> simp at h

theorem lookup_filter_ne (fs : PodFS) (key target : String) (h : key ≠ target) :
    List.lookup key (fs.filter (fun kv => kv.1 ≠ target)) = List.lookup key fs := by
  induction fs with
  | nil => rfl
  | cons kv rest ih =>
    obtain ⟨k, v⟩ := kv
    by_cases hk : k = target
    · have hne : (key == k) = false := by
        rw [hk]
        simpa using h
      rw [List.filter_cons_of_neg (by simp [hk]), ih]
      simp only [List.lookup, hne]
    · rw [List.filter_cons_of_pos (by simp [hk])]
      by_cases hkk : key = k
      · simp [List.lookup, hkk]
      · have hne : (key == k) = false := by simpa using hkk
        simp only [List.lookup, hne]
        exact ih

/-- Writing a node at `target` changes no other node. -/
theorem node_write_ne (fs : PodFS) (key target : String) (node : PodNode)
    (h : key ≠ target) :
    PodFS.node ((target, node) :: fs.filter (fun kv => kv.1 ≠ target)) key = fs.node key := by
  unfold PodFS.node
  by_cases hr : key = "/"
  · simp [hr]
  · have hne : (key == target) = false := by simpa using h
    simp only [if_neg hr, List.lookup, hne]
    exact lookup_filter_ne fs key target h

theorem node_write_eq (fs : PodFS) (target : String) (node : PodNode) (h : target ≠ "/") :
    PodFS.node ((target, node) :: fs.filter (fun kv => kv.1 ≠ target)) target = some node := by
  simp [PodFS.node, h, List.lookup]

/-- A walk that ends in a directory is not changed by writing a regular file
where no directory was. -/
theorem walk_stable (fs : PodFS) (target : String) (node : PodNode)
    (htarget : fs.node target ≠ some PodNode.dir) (pieces : List (List Char))
    (cur key : String) (h : fs.walk cur pieces = Except.ok (key, PodNode.dir)) :
    PodFS.walk ((target, node) :: fs.filter (fun kv => kv.1 ≠ target)) cur pieces =
      Except.ok (key, PodNode.dir) := by
  induction pieces generalizing cur with
  | nil => exact h
  | cons piece rest ih =>
    simp only [PodFS.walk] at h ⊢
    by_cases h1 : piece = [] ∨ piece = ['.']
    · rw [if_pos h1] at h ⊢
      exact ih _ h
    · rw [if_neg h1] at h ⊢
      by_cases h2 : piece = ['.', '.']
      · rw [if_pos h2] at h ⊢
        exact ih _ h
      · rw [if_neg h2] at h ⊢
        cases hnode : fs.node (childKey cur (String.mk piece)) with
        | none => simp [hnode] at h
        | some found =>
          cases found with
          | dir =>
            have hne : childKey cur (String.mk piece) ≠ target := by
              intro heq
              rw [heq] at hnode
              exact htarget hnode
            rw [node_write_ne fs _ target node hne, hnode]
            simp only [hnode] at h ⊢
            exact ih _ h
          | file data mode =>
            simp only [hnode] at h
            split at h <;> simp at h

theorem dropWhile_not_slash (l : List Char) :
    l.dropWhile (fun c => c ≠ '/') = [] ∨ ∃ t, l.dropWhile (fun c => c ≠ '/') = '/' :: t := by
  induction l with
  | nil => exact Or.inl rfl
  | cons c cs ih =>
    by_cases hc : c = '/'
    · exact Or.inr ⟨cs, by simp [List.dropWhile, hc]⟩
    · simpa [List.dropWhile, hc] using ih

theorem takeWhile_not_slash_free (l : List Char) : '/' ∉ l.takeWhile (fun c => c ≠ '/') := by
  induction l with
  | nil => simp
  | cons c cs ih =>
    by_cases hc : c = '/'
    · simp [List.takeWhile, hc]
    · simp only [List.takeWhile, ne_eq, hc, not_false_eq_true, decide_True, List.mem_cons,
        not_or]
      exact ⟨fun h => hc h.symm, ih⟩

/-- How `Dir` and `Base` take apart a path that is not empty and does not end
in a slash: `Base` is the text `base` after the last slash, `Dir` is
`filepath.Clean` of the text `q` before it, and the elements of the path are
those of `q`, up to elements that are no names, followed by `base`. -/
theorem destination_split (podPath : String) (hne : podPath ≠ "")
    (hslash : podPath.data.getLast? ≠ some '/') :
    ∃ (before : List (List Char)) (base q : List Char),
      base ≠ [] ∧ '/' ∉ base ∧
      filepathBase podPath = String.mk base ∧
      filepathDir podPath = filepathClean (String.mk q) ∧
      splitSlash podPath.data = before ++ [base] ∧
      (splitSlash q).filter isNamed = before.filter isNamed ∧
      (∀ piece ∈ splitSlash q, piece = [] ∨ piece ∈ before) ∧
      (q.head? = some '/' ↔ podPath.data.head? = some '/') := by
  obtain ⟨cs⟩ := podPath
  have hcs : cs ≠ [] := by
    intro h
    exact hne (by rw [h])
  simp only at hslash ⊢
  obtain ⟨x, xs, hx⟩ : ∃ x xs, cs.reverse = x :: xs := by
    cases hr : cs.reverse with
    | nil => exact absurd (List.reverse_eq_nil_iff.1 hr) hcs
    | cons x xs => exact ⟨x, xs, rfl⟩
  have hxne : x ≠ '/' := by
    intro h
    apply hslash
    rw [← List.reverse_reverse cs, hx, List.getLast?_reverse]
    simp [h]
  have hbase : filepathBase (String.mk cs) =
      String.mk (cs.reverse.takeWhile (fun c => c ≠ '/')).reverse := by
    unfold filepathBase
    rw [if_neg hne]
    simp only
    have hdrop : cs.reverse.dropWhile (fun c => decide (c = '/')) = cs.reverse := by
      rw [hx]
      simp [List.dropWhile, hxne]
    rw [hdrop]
    have hlast : (cs.reverse.takeWhile (fun c => decide (c ≠ '/'))).reverse ≠ [] := by
      rw [hx]
      simp [List.takeWhile, hxne]
    rw [if_neg hlast]
  have hjoin : cs = (cs.reverse.dropWhile (fun c => c ≠ '/')).reverse ++
      (cs.reverse.takeWhile (fun c => c ≠ '/')).reverse := by
    rw [← List.reverse_append, List.takeWhile_append_dropWhile, List.reverse_reverse]
  have hfree : '/' ∉ (cs.reverse.takeWhile (fun c => c ≠ '/')).reverse := by
    rw [List.mem_reverse]
    exact takeWhile_not_slash_free _
  have hbne : (cs.reverse.takeWhile (fun c => c ≠ '/')).reverse ≠ [] := by
    rw [hx]
    simp [List.takeWhile, hxne]
  generalize (cs.reverse.takeWhile (fun c => c ≠ '/')).reverse = base at hbase hjoin hfree hbne
  rcases dropWhile_not_slash cs.reverse with hq | ⟨t, hq⟩
  · refine ⟨[], base, [], hbne, hfree, hbase, ?_, ?_, by decide, ?_, ?_⟩
    · unfold filepathDir
      simp only
      rw [hq]
      rfl
    · rw [hq] at hjoin
      simp only [List.reverse_nil, List.nil_append] at hjoin
      rw [hjoin]
      exact splitSlash_slash_free base hfree
    · intro piece hp
      simp only [splitSlash, List.mem_singleton] at hp
      exact Or.inl hp
    · rw [hq] at hjoin
      simp only [List.reverse_nil, List.nil_append] at hjoin
      rw [hjoin]
      constructor
      · intro h
        simp at h
      · intro h
        exfalso
        cases base with
        | nil => exact hbne rfl
        | cons b bs =>
          simp only [List.head?_cons, Option.some.injEq] at h
          exact hfree (h ▸ List.mem_cons_self _ _)
  · refine ⟨splitSlash t.reverse, base, t.reverse ++ ['/'], hbne, hfree, hbase, ?_, ?_, ?_, ?_,
      ?_⟩
    · unfold filepathDir
      simp only
      rw [hq]
      simp
    · rw [hq] at hjoin
      simp only [List.reverse_cons, List.append_assoc, List.singleton_append] at hjoin
      rw [hjoin, splitSlash_append_slash, splitSlash_slash_free base hfree]
    · rw [splitSlash_append_slash]
      simp [splitSlash, List.filter_append, isNamed]
    · intro piece hp
      rw [splitSlash_append_slash] at hp
      rcases List.mem_append.1 hp with h | h
      · exact Or.inr h
      · simp only [splitSlash, List.mem_singleton] at h
        exact Or.inl h
    · rw [hq] at hjoin
      simp only [List.reverse_cons, List.append_assoc, List.singleton_append] at hjoin
      rw [hjoin]
      cases t.reverse with
      | nil => simp
      | cons c cs2 => simp

theorem podRun_append (m : PodModel) (history : List ExecCall) (call : ExecCall) :
    podRun m (history ++ [call]) = (podStep m (podRun m history) call).1 := by
  simp [podRun, List.foldl_append]

theorem podRun_filter_snoc (m : PodModel) (history : List ExecCall) (a call : ExecCall)
    (h : sameContainer call a = true) :
    podRun m ((history ++ [a]).filter (sameContainer call)) =
      (podStep m (podRun m (history.filter (sameContainer call))) a).1 := by
  rw [List.filter_append, List.filter_cons_of_pos h, List.filter_nil, podRun_append]

/-- A successful extraction of a single entry found the directory, took the
name as a plain one, found no directory of that name and wrote the file. -/
theorem podStep_tar (m : PodModel) (fs : PodFS) (ns podName containerName dir : String)
    (entry : TarEntry)
    (hok : (podStep m fs (tarCall ns podName containerName dir [entry])).2.err = none) :
    ∃ key, fs.lookupPath m.cwd dir = Except.ok (key, PodNode.dir) ∧
      plainName entry.header.Name = true ∧
      fs.node (childKey key entry.header.Name) ≠ some PodNode.dir ∧
      (podStep m fs (tarCall ns podName containerName dir [entry])).1 =
        (childKey key entry.header.Name, PodNode.file entry.data entry.header.Mode) ::
          fs.filter (fun kv => kv.1 ≠ childKey key entry.header.Name) := by
  unfold podStep tarCall at hok ⊢
  simp only at hok ⊢
  cases h1 : fs.lookupPath m.cwd dir with
  | error e => simp [h1, podFailure] at hok
  | ok found =>
    obtain ⟨key, node⟩ := found
    cases node with
    | file data mode => simp [h1, podFailure] at hok
    | dir =>
      refine ⟨key, rfl, ?_⟩
      simp only [h1, PodFS.extractInto] at hok ⊢
      by_cases hplain : plainName entry.header.Name = true
      · simp only [hplain, if_true] at hok ⊢
        cases h2 : fs.node (childKey key entry.header.Name) with
        | none => simp [podSuccess]
        | some target =>
          cases target with
          | dir => simp [h2, podFailure] at hok
          | file old mode => simp [podSuccess]
      · simp [hplain, podFailure] at hok

theorem podStep_stat (m : PodModel) (fs : PodFS) (ns podName containerName path key : String)
    (data : Bytes) (mode : Nat)
    (hlookup : fs.lookupPath m.cwd path = Except.ok (key, PodNode.file data mode))
    (hopt : path.data.head? ≠ some '-') :
    podStep m fs (plainCall ns podName containerName ["stat", "-c", "%s", path]) =
      (fs, podSuccess (decimal data.length ++ [0x0A])) := by
  simp [podStep, plainCall, isOption, hopt, hlookup]

theorem podStep_cat (m : PodModel) (fs : PodFS) (ns podName containerName path key : String)
    (data : Bytes) (mode : Nat)
    (hlookup : fs.lookupPath m.cwd path = Except.ok (key, PodNode.file data mode))
    (hopt : path.data.head? ≠ some '-') (hread : mayRead m.root mode = true) :
    podStep m fs (plainCall ns podName containerName ["cat", path]) =
      (fs, podSuccess data) := by
  simp [podStep, plainCall, isOption, hopt, hlookup, hread]

/-- After `tar` wrote the entry named `Base` into the directory named `Dir`, a
plain destination path names the file that was written. -/
theorem lookupPath_after_extract (fs : PodFS) (cwd podPath key : String) (node : PodNode)
    (hplainPath : PlainDestination podPath)
    (hdir : fs.lookupPath cwd (filepathDir podPath) = Except.ok (key, PodNode.dir))
    (hname : plainName (filepathBase podPath) = true)
    (htarget : fs.node (childKey key (filepathBase podPath)) ≠ some PodNode.dir)
    (data : Bytes) (mode : Nat) (hnode : node = PodNode.file data mode) :
    PodFS.lookupPath
        ((childKey key (filepathBase podPath), node) ::
          fs.filter (fun kv => kv.1 ≠ childKey key (filepathBase podPath)))
        cwd podPath =
      Except.ok (childKey key (filepathBase podPath), PodNode.file data mode) := by
  obtain ⟨hne, hslash, _, hdots⟩ := hplainPath
  obtain ⟨before, base, q, hbne, hfree, hbase, hdirq, hsplit, hfilter, hsub, hhead⟩ :=
    destination_split podPath hne hslash
  have hq : ∀ piece ∈ splitSlash q, piece ≠ ['.', '.'] := by
    intro piece hp heq
    rcases hsub piece hp with h | h
    · rw [h] at heq
      cases heq
    · apply hdots
      rw [hsplit, ← heq]
      exact List.mem_append_left _ h
  obtain ⟨hpieces, hcleanHead, hcleanNe⟩ := filepathClean_pieces q hq
  have hstart : (if (filepathClean (String.mk q)).data.head? = some '/' then "/" else cwd) =
      (if podPath.data.head? = some '/' then "/" else cwd) := by
    by_cases hh : podPath.data.head? = some '/'
    · rw [if_pos hh, if_pos (hcleanHead.2 (hhead.2 hh))]
    · rw [if_neg hh, if_neg (fun h => hh (hhead.1 (hcleanHead.1 h)))]
  rw [hdirq] at hdir
  unfold PodFS.lookupPath at hdir ⊢
  rw [if_neg hcleanNe, hstart] at hdir
  rw [if_neg hne]
  have hwalk1 : fs.walk (if podPath.data.head? = some '/' then "/" else cwd) before =
      Except.ok (key, PodNode.dir) := by
    rw [walk_filter, ← hfilter, ← hpieces, ← walk_filter]
    exact hdir
  have hwalk2 := walk_stable fs (childKey key (filepathBase podPath)) node htarget before _ _
    hwalk1
  rw [hsplit, walk_append _ before [base] _ key hwalk2]
  rw [hbase] at hname htarget ⊢
  have hb1 : ¬ (base = [] ∨ base = ['.']) := by
    rintro (h | h)
    · exact hbne h
    · rw [h] at hname
      revert hname
      decide
  have hb2 : base ≠ ['.', '.'] := by
    intro h
    rw [h] at hname
    revert hname
    decide
  have hroot : childKey key (String.mk base) ≠ "/" := by
    intro h
    rw [h] at htarget
    exact htarget (by simp [PodFS.node])
  simp only [PodFS.walk]
  rw [if_neg hb1, if_neg hb2, node_write_eq fs _ node hroot, hnode]
  simp

/-- In a container modelled by `podExec`, the size command and `cat` that
follow a successful upload to a plain destination path report the length and
the bytes of the uploaded entry. -/
theorem podExec_round_trip (m : PodModel) (history : List ExecCall)
    (ns podName containerName podPath : String) (entry : TarEntry)
    (hname : entry.header.Name = filepathBase podPath)
    (hplainPath : PlainDestination podPath)
    (hread : mayRead m.root entry.header.Mode = true)
    (htar : (podExec m
        (history ++ [plainCall ns podName containerName ["mkdir", "-p", filepathDir podPath]])
        (tarCall ns podName containerName (filepathDir podPath) [entry])).err = none) :
    podExec m
        (history ++ [plainCall ns podName containerName ["mkdir", "-p", filepathDir podPath],
          tarCall ns podName containerName (filepathDir podPath) [entry]])
        (plainCall ns podName containerName ["stat", "-c", "%s", podPath]) =
        podSuccess (decimal entry.data.length ++ [0x0A]) ∧
      podExec m
        (history ++ [plainCall ns podName containerName ["mkdir", "-p", filepathDir podPath],
          tarCall ns podName containerName (filepathDir podPath) [entry]] ++
          [plainCall ns podName containerName ["stat", "-c", "%s", podPath]])
        (plainCall ns podName containerName ["cat", podPath]) = podSuccess entry.data := by
  have hsame : ∀ a b : ExecCall, a.ns = ns → a.podName = podName →
      a.containerName = containerName → b.ns = ns → b.podName = podName →
      b.containerName = containerName → sameContainer a b = true := by
    intro a b h1 h2 h3 h4 h5 h6
    simp [sameContainer, h1, h2, h3, h4, h5, h6]
  have hK : ∀ a : ExecCall, a.ns = ns → a.podName = podName →
      a.containerName = containerName →
      sameContainer a = sameContainer (tarCall ns podName containerName
        (filepathDir podPath) [entry]) := by
    intro a h1 h2 h3
    funext b
    simp [sameContainer, h1, h2, h3, tarCall]
  generalize hmk : plainCall ns podName containerName ["mkdir", "-p", filepathDir podPath] = mk
    at htar ⊢
  have hmk1 : mk.ns = ns ∧ mk.podName = podName ∧ mk.containerName = containerName := by
    subst hmk
    exact ⟨rfl, rfl, rfl⟩
  have htarSame : ∀ a : ExecCall, a.ns = ns → a.podName = podName →
      a.containerName = containerName →
      sameContainer (tarCall ns podName containerName (filepathDir podPath) [entry]) a =
        true := fun a h1 h2 h3 => hsame _ a rfl rfl rfl h1 h2 h3
  unfold podExec at htar
  rw [podRun_filter_snoc m history mk _ (htarSame mk hmk1.1 hmk1.2.1 hmk1.2.2)] at htar
  obtain ⟨key, hdir, hplain, htarget, hwritten⟩ :=
    podStep_tar m _ ns podName containerName (filepathDir podPath) entry htar
  rw [hname] at hplain htarget hwritten
  have hlookup := lookupPath_after_extract _ m.cwd podPath key
    (PodNode.file entry.data entry.header.Mode) hplainPath hdir hplain htarget
    entry.data entry.header.Mode rfl
  rw [← hwritten] at hlookup
  have hopt : podPath.data.head? ≠ some '-' := hplainPath.2.2.1
  have hlist : history ++ [mk, tarCall ns podName containerName (filepathDir podPath) [entry]] =
      (history ++ [mk]) ++ [tarCall ns podName containerName (filepathDir podPath) [entry]] := by
    simp
  have hrun2 : podRun m ((history ++
      [mk, tarCall ns podName containerName (filepathDir podPath) [entry]]).filter
        (sameContainer (tarCall ns podName containerName (filepathDir podPath) [entry]))) =
      (podStep m (podStep m (podRun m (history.filter (sameContainer
        (tarCall ns podName containerName (filepathDir podPath) [entry])))) mk).1
        (tarCall ns podName containerName (filepathDir podPath) [entry])).1 := by
    rw [hlist, podRun_filter_snoc _ _ _ _ (htarSame _ rfl rfl rfl),
      podRun_filter_snoc _ _ _ _ (htarSame mk hmk1.1 hmk1.2.1 hmk1.2.2)]
  constructor
  · unfold podExec
    rw [hK _ rfl rfl rfl, hrun2,
      podStep_stat m _ ns podName containerName podPath _ entry.data entry.header.Mode
        hlookup hopt]
  · unfold podExec
    rw [hK _ rfl rfl rfl, podRun_filter_snoc _ _ _ _ (htarSame _ rfl rfl rfl), hrun2,
      podStep_stat m _ ns podName containerName podPath _ entry.data entry.header.Mode
        hlookup hopt,
      podStep_cat m _ ns podName containerName podPath _ entry.data entry.header.Mode
        hlookup hopt hread]

/-- C14 as stated fails, in an empty container whose commands run as root:
(1) for the destination `/workspace/shared/out/` the upload succeeds and puts
the file at `/workspace/shared/out/out`, since the archive entry is named by the
base `out` and extracted into the directory `/workspace/shared/out`, and the
download addresses the directory and fails at `cat`; (2) for `a/b/../c` the
upload writes `a/c` without creating `a/b`, so the download fails at the size
command; (3) for `-x` the upload writes the file `-x` and the download passes
`-x` to the size command, which takes it as an option. -/
theorem copyFile_destination_failures :
    ((copyFile (podEnv emptyPod) exampleWorld "default" "upload-pod" "main" "files/a.conf"
          "/workspace/shared/out/" true).2 = none ∧
        podRun emptyPod (copyFile (podEnv emptyPod) exampleWorld "default" "upload-pod" "main"
          "files/a.conf" "/workspace/shared/out/" true).1.calls =
          [("/workspace/shared/out/out", PodNode.file [1, 2, 3] 420),
           ("/workspace/shared/out", PodNode.dir), ("/workspace/shared", PodNode.dir),
           ("/workspace", PodNode.dir)] ∧
        (copyFile (podEnv emptyPod)
          (copyFile (podEnv emptyPod) exampleWorld "default" "upload-pod" "main" "files/a.conf"
            "/workspace/shared/out/" true).1
          "default" "upload-pod" "main" "copy/a.conf" "/workspace/shared/out/" false).2 =
          some ("exec error during download: command terminated with exit code 1, " ++
            "stderr: cat: Is a directory")) ∧
      ((copyFile (podEnv emptyPod) exampleWorld "default" "upload-pod" "main" "files/a.conf"
          "a/b/../c" true).2 = none ∧
        (copyFile (podEnv emptyPod)
          (copyFile (podEnv emptyPod) exampleWorld "default" "upload-pod" "main" "files/a.conf"
            "a/b/../c" true).1
          "default" "upload-pod" "main" "copy/a.conf" "a/b/../c" false).2 =
          some ("error checking file: command terminated with exit code 1, " ++
            "stderr: stat: No such file or directory")) ∧
      ((copyFile (podEnv emptyPod) exampleWorld "default" "upload-pod" "main" "files/a.conf"
          "-x" true).2 = none ∧
        (copyFile (podEnv emptyPod)
          (copyFile (podEnv emptyPod) exampleWorld "default" "upload-pod" "main" "files/a.conf"
            "-x" true).1
          "default" "upload-pod" "main" "copy/a.conf" "-x" false).2 =
          some ("error checking file: command terminated with exit code 1, " ++
            "stderr: invalid option")) := by
  decide

/-- C14, amended: in a container that runs `mkdir -p`, `tar -xf - -C`,
`stat -c %s` and `cat` as modelled by `podExec` (whatever its initial tree, its
working directory and its treatment of options), for a local file of fewer than
2^63 bytes that the user of the commands may read once it is extracted, and a
destination path that is not empty, does not end in a slash, does not start
with `-` and has no element `..`: if the upload with `copyFile` (toPod = true)
returned success and the local file of the download can be created, then the
download from the same destination path with `copyFile` (toPod = false) returns
success and leaves a local file whose content, and hence size, is that of the
original. -/
theorem copyFile_round_trip (env : Env) (m : PodModel) (w : World)
    (ns podName containerName localPath podPath downloadPath : String) (content : Bytes)
    (hexec : env.exec = podExec m)
    (hfile : w.fs.read localPath = some content)
    (hsize : content.length < 2 ^ 63)
    (hplainPath : PlainDestination podPath)
    (hperm : ∀ info, env.stat localPath = Except.ok info → mayRead m.root info.mode = true)
    (hcreate : env.createErr downloadPath = none)
    (hup : (copyFile env w ns podName containerName localPath podPath true).2 = none) :
    (copyFile env (copyFile env w ns podName containerName localPath podPath true).1
        ns podName containerName downloadPath podPath false).2 = none ∧
      (copyFile env (copyFile env w ns podName containerName localPath podPath true).1
        ns podName containerName downloadPath podPath false).1.fs.read downloadPath =
        some content ∧
      ((copyFile env (copyFile env w ns podName containerName localPath podPath true).1
        ns podName containerName downloadPath podPath false).1.fs.read downloadPath).map
          List.length = some content.length := by
  obtain ⟨hcs, hexe, content2, info, hread, hstatInfo, htar, hw1⟩ :=
    copyFile_upload_exec env w ns podName containerName localPath podPath hup
  rw [hfile] at hread
  cases hread
  rw [hw1]
  rw [hexec] at htar
  obtain ⟨hstat, hcat⟩ := podExec_round_trip m w.calls ns podName containerName podPath
    ⟨⟨filepathBase podPath, content.length, info.mode, info.modTime⟩, content⟩ rfl hplainPath
    (hperm info hstatInfo) htar
  have hdown := copyFromPod_ok env
    { fs := w.fs,
      calls := w.calls ++
        [plainCall ns podName containerName ["mkdir", "-p", filepathDir podPath],
         tarCall ns podName containerName (filepathDir podPath)
           [⟨⟨filepathBase podPath, content.length, info.mode, info.modTime⟩, content⟩]] }
    ns podName containerName downloadPath podPath content hexe
    (by rw [hexec]; simp only; rw [hstat]; rfl)
    (by rw [hexec]; simp only; rw [hstat]; exact parseInt64_decimal content.length hsize)
    hcreate
    (by rw [hexec]; simp only; rw [hcat]; rfl)
    (by rw [hexec]; simp only; rw [hcat]; rfl)
  have hcf : copyFile env
      { fs := w.fs,
        calls := w.calls ++
          [plainCall ns podName containerName ["mkdir", "-p", filepathDir podPath],
           tarCall ns podName containerName (filepathDir podPath)
             [⟨⟨filepathBase podPath, content.length, info.mode, info.modTime⟩, content⟩]] }
      ns podName containerName downloadPath podPath false =
      copyFromPod env
        { fs := w.fs,
          calls := w.calls ++
            [plainCall ns podName containerName ["mkdir", "-p", filepathDir podPath],
             tarCall ns podName containerName (filepathDir podPath)
               [⟨⟨filepathBase podPath, content.length, info.mode, info.modTime⟩, content⟩]] }
        ns podName containerName downloadPath podPath := by
    simp [copyFile, hcs]
  rw [hcf]
  exact ⟨hdown.1, hdown.2, by rw [hdown.2]; rfl⟩

/-- Witness for C14: the three bytes of `files/a.conf` are uploaded to
`/workspace/shared//src/a`, the destination that `uploadLocalFiles` builds for
the source path `/src/a`, in an empty container and downloaded to
`copy/a.conf`. -/
theorem copyFile_round_trip_witness :
    (copyFile (podEnv emptyPod)
        (copyFile (podEnv emptyPod) exampleWorld "default" "upload-pod" "main" "files/a.conf"
          "/workspace/shared//src/a" true).1
        "default" "upload-pod" "main" "copy/a.conf" "/workspace/shared//src/a"
        false).1.fs.read "copy/a.conf" = some [1, 2, 3] :=
  (copyFile_round_trip (podEnv emptyPod) emptyPod exampleWorld "default" "upload-pod" "main"
    "files/a.conf" "/workspace/shared//src/a" "copy/a.conf" [1, 2, 3] rfl (by decide)
    (by decide) (by decide) (fun _ _ => rfl) (by decide) (by decide)).2.1

end Caib
